import Mathlib

/-
Verification of the where-expression parser and formatter
(src/examples/whereexp.py).

The development shallowly embeds the pyparsing grammar of `whereexp.py` as a
character-level recursive-descent parser with the same ordered-choice,
whitespace-skipping, keyword-boundary and fatal-failure semantics, and embeds
the `_format` pretty printer verbatim.  Expression-tree nodes (the external
`qz.data.where` model: Column references, Const values, operator-tagged
composites) are represented by the inductive type `Node` below, following the
contract in the specification's data-model section: a `Where` whose `.left` is
a `Column` is `Node.column`, a `Const` is `Node.const`, and an operator-tagged
`Where` is `Node.comp` (with `right = none` for the `None` right operand the
parser installs on `isNull` / `isNotNull` / `not` nodes).
-/

namespace WhereExp

abbrev Chars := List Char

/-- The single-quote character (`'`). -/
def sq : Char := Char.ofNat 39

/-- The backslash character. -/
def bs : Char := Char.ofNat 92

/-- The double-quote character. -/
def dq : Char := '"'

/-- Carriage return. -/
def cr : Char := Char.ofNat 13

/-- Constant values carried by `Const` nodes.  `ast.literal_eval` produces
Python ints, floats, strings; lists arise from the LIST production.  Floats
are kept as their matched source text: no claim compares floats across
different spellings, and Python binary floating point is not modelled. -/
inductive Val where
  | int (n : Int)
  | float (text : Chars)
  | str (s : Chars)
  | vlist (elems : List Val)

/-- Expression-tree nodes of the external `qz.data.where` model, as specified
in the data-model contract (ColumnRef / Const / Composite). -/
inductive Node where
  | column (name : Chars)
  | const (v : Val)
  | comp (op : String) (left : Node) (right : Option Node)

mutual

def valBEq : Val → Val → Bool
  | .int a, .int b => a == b
  | .float a, .float b => a == b
  | .str a, .str b => a == b
  | .vlist a, .vlist b => valListBEq a b
  | _, _ => false

def valListBEq : List Val → List Val → Bool
  | [], [] => true
  | a :: as, b :: bs => valBEq a b && valListBEq as bs
  | _, _ => false

end

mutual

theorem valBEq_iff : ∀ a b : Val, valBEq a b = true ↔ a = b
  | .int _, .int _ => by simp [valBEq]
  | .int _, .float _ => by simp [valBEq]
  | .int _, .str _ => by simp [valBEq]
  | .int _, .vlist _ => by simp [valBEq]
  | .float _, .int _ => by simp [valBEq]
  | .float _, .float _ => by simp [valBEq]
  | .float _, .str _ => by simp [valBEq]
  | .float _, .vlist _ => by simp [valBEq]
  | .str _, .int _ => by simp [valBEq]
  | .str _, .float _ => by simp [valBEq]
  | .str _, .str _ => by simp [valBEq]
  | .str _, .vlist _ => by simp [valBEq]
  | .vlist _, .int _ => by simp [valBEq]
  | .vlist _, .float _ => by simp [valBEq]
  | .vlist _, .str _ => by simp [valBEq]
  | .vlist a, .vlist b => by simpa [valBEq] using valListBEq_iff a b

theorem valListBEq_iff : ∀ a b : List Val, valListBEq a b = true ↔ a = b
  | [], [] => by simp [valListBEq]
  | [], _ :: _ => by simp [valListBEq]
  | _ :: _, [] => by simp [valListBEq]
  | a :: as, b :: bs => by
    simp [valListBEq, Bool.and_eq_true, valBEq_iff a b, valListBEq_iff as bs]

end

instance : DecidableEq Val := fun a b => decidable_of_iff _ (valBEq_iff a b)

mutual

def nodeBEq : Node → Node → Bool
  | .column a, .column b => a == b
  | .const u, .const v => valBEq u v
  | .comp o1 l1 r1, .comp o2 l2 r2 => o1 == o2 && nodeBEq l1 l2 && nodeOptBEq r1 r2
  | _, _ => false

def nodeOptBEq : Option Node → Option Node → Bool
  | none, none => true
  | some a, some b => nodeBEq a b
  | _, _ => false

end

mutual

theorem nodeBEq_iff : ∀ a b : Node, nodeBEq a b = true ↔ a = b
  | .column _, .column _ => by simp [nodeBEq]
  | .column _, .const _ => by simp [nodeBEq]
  | .column _, .comp _ _ _ => by simp [nodeBEq]
  | .const _, .column _ => by simp [nodeBEq]
  | .const u, .const v => by simpa [nodeBEq] using valBEq_iff u v
  | .const _, .comp _ _ _ => by simp [nodeBEq]
  | .comp _ _ _, .column _ => by simp [nodeBEq]
  | .comp _ _ _, .const _ => by simp [nodeBEq]
  | .comp o1 l1 r1, .comp o2 l2 r2 => by
    simp [nodeBEq, Bool.and_eq_true, nodeBEq_iff l1 l2, nodeOptBEq_iff r1 r2,
      and_assoc]

theorem nodeOptBEq_iff : ∀ a b : Option Node, nodeOptBEq a b = true ↔ a = b
  | none, none => by simp [nodeOptBEq]
  | none, some _ => by simp [nodeOptBEq]
  | some _, none => by simp [nodeOptBEq]
  | some a, some b => by simpa [nodeOptBEq] using nodeBEq_iff a b

end

instance : DecidableEq Node := fun a b => decidable_of_iff _ (nodeBEq_iff a b)

/-- Parse errors.  `noMatch` is an ordinary pyparsing `ParseException`
(backtrackable); every other constructor is fatal: `expected` models the
`ParseFatalException` raised by the fail actions installed with
`fail(EXPRESSION, 'expression')` / `fail(LIST, 'list')`, `invalidPattern`
the `ValueError`s raised by `make_like`, `invalidOp` the `ValueError` in
`infix`, `keyErr` a `KeyError` on the `OPS` dict, and `trailingInput` the
failure of `StringEnd` after a prefix has matched. -/
inductive PErr where
  | noMatch
  | expected (what : String)
  | invalidPattern (pat : Chars)
  | invalidOp (op : String)
  | keyErr (k : String)
  | trailingInput (rest : Chars)
deriving DecidableEq, Repr

/-- Formatter errors: the two `ValueError`s raised by `_format`
("Unknown operation %s" and "Unsupported object %r"). -/
inductive FmtErr where
  | unknownOperator (op : String)
  | unsupported
deriving DecidableEq, Repr

/-- Parser input: the remaining text plus the character immediately before it
(pyparsing's `Keyword` inspects `instring[loc-1]`).  At the start of the
string `prev` is the sentinel `' '`, which like position 0 passes the
keyword boundary test. -/
structure Inp where
  prev : Char
  rest : Chars
deriving DecidableEq, Repr

/-- pyparsing default whitespace characters (`ParserElement.DEFAULT_WHITE_CHARS`). -/
def wsChar (c : Char) : Bool := c = ' ' || c = '\n' || c = '\t'

def dropWsAux : Char → Chars → Inp
  | p, [] => ⟨p, []⟩
  | p, c :: cs => if wsChar c then dropWsAux c cs else ⟨p, c :: cs⟩

/-- Skip leading whitespace, as every terminal does before matching. -/
def dropWs (i : Inp) : Inp := dropWsAux i.prev i.rest

/-- pyparsing `Keyword` identifier characters (`alphanums + "_$"`). -/
def identChar (c : Char) : Bool := c.isAlphanum || c = '_' || c = '$'

def matchCharsAux : Chars → Char → Chars → Option Inp
  | [], p, s => some ⟨p, s⟩
  | l :: ls, _, s =>
    match s with
    | c :: cs => if c = l then matchCharsAux ls c cs else none
    | [] => none

/-- `Literal(lit)`: skip whitespace, then match `lit` exactly. -/
def matchLit (lit : Chars) (i : Inp) : Option Inp :=
  let j := dropWs i
  matchCharsAux lit j.prev j.rest

def caselessEq (a b : Char) : Bool := a.toLower = b.toLower

def matchCaselessAux : Chars → Char → Chars → Option Inp
  | [], p, s => some ⟨p, s⟩
  | l :: ls, _, s =>
    match s with
    | c :: cs => if caselessEq c l then matchCaselessAux ls c cs else none
    | [] => none

/-- `CaselessKeyword(kw)`: case-insensitive match of `kw`, not preceded and
not followed by an identifier character.  The token produced is the defined
(lower-case) keyword text itself, as pyparsing's `CaselessKeyword` returns
`self.match`, not the matched slice. -/
def matchKw (kw : Chars) (i : Inp) : Option Inp :=
  let j := dropWs i
  if identChar j.prev then none
  else
    match matchCaselessAux kw j.prev j.rest with
    | none => none
    | some k =>
      match k.rest with
      | [] => some k
      | c :: _ => if identChar c then none else some k

def quotedBody (q : Char) : Chars → Option (Chars × Inp)
  | [] => none
  | c :: cs =>
    if c = q then some ([], ⟨c, cs⟩)
    else if c = bs then
      match cs with
      | [] => none
      | d :: ds =>
        if d = '\n' || d = cr then none
        else
          match quotedBody q ds with
          | some (b, k) => some (c :: d :: b, k)
          | none => none
    else if c = '\n' || c = cr then none
    else
      match quotedBody q cs with
      | some (b, k) => some (c :: b, k)
      | none => none

/-- `QuotedString(q, escChar='\\', unquoteResults=False)`: the token is the
raw match, quotes included. -/
def matchQuotedRaw (q : Char) (i : Inp) : Option (Chars × Inp) :=
  let j := dropWs i
  match j.rest with
  | c :: cs =>
    if c = q then
      match quotedBody q cs with
      | some (b, k) => some (q :: b ++ [q], k)
      | none => none
    else none
  | [] => none

def bracketBody : Chars → Option (Chars × Inp)
  | [] => none
  | c :: cs =>
    if c = ']' then some ([], ⟨c, cs⟩)
    else if c = '\n' || c = cr then none
    else
      match bracketBody cs with
      | some (b, k) => some (c :: b, k)
      | none => none

/-- `QuotedString('[', endQuoteChar=']')` with default unquoting: the token is
the text between the brackets. -/
def matchBracketId (i : Inp) : Option (Chars × Inp) :=
  let j := dropWs i
  match j.rest with
  | c :: cs => if c = '[' then bracketBody cs else none
  | [] => none

/-- `Word(alphas, alphanums)`: an initial letter followed by the maximal run
of alphanumerics. -/
def matchWord (i : Inp) : Option (Chars × Inp) :=
  let j := dropWs i
  match j.rest with
  | c :: cs =>
    if c.isAlpha then
      let body := cs.takeWhile (fun d => d.isAlphanum)
      let rest := cs.dropWhile (fun d => d.isAlphanum)
      some (c :: body, ⟨(c :: body).getLastD c, rest⟩)
    else none
  | [] => none

/-- `INT_CONSTANT = Regex(r'-?\d+(?!\.)')`.  Python's `re` backtracks inside
`\d+` when the negative lookahead fails: on `"12."` the match is `"1"`
(shrink the digit run by one so the lookahead sees a digit), and on `"1."`
there is no match. -/
def matchIntTok (i : Inp) : Option (Chars × Inp) :=
  let j := dropWs i
  let start : Bool × Char × Chars :=
    match j.rest with
    | c :: cs => if c = '-' then (true, c, cs) else (false, j.prev, j.rest)
    | [] => (false, j.prev, j.rest)
  let neg := start.1
  let s1 := start.2.2
  let ds := s1.takeWhile (fun d => d.isDigit)
  let rest := s1.dropWhile (fun d => d.isDigit)
  if ds.isEmpty then none
  else
    match rest with
    | c :: cs =>
      if c = '.' then
        if 2 ≤ ds.length then
          let ds' := ds.dropLast
          some ((if neg then ['-'] else []) ++ ds',
                ⟨ds'.getLastD '0', ds.getLastD '0' :: c :: cs⟩)
        else none
      else some ((if neg then ['-'] else []) ++ ds, ⟨ds.getLastD '0', c :: cs⟩)
    | [] => some ((if neg then ['-'] else []) ++ ds, ⟨ds.getLastD '0', []⟩)

def matchFloatCore (s : Chars) : Option (Chars × Inp) :=
  let ds1 := s.takeWhile (fun d => d.isDigit)
  let r1 := s.dropWhile (fun d => d.isDigit)
  match r1 with
  | c :: cs =>
    if c = '.' then
      let ds2 := cs.takeWhile (fun d => d.isDigit)
      let r2 := cs.dropWhile (fun d => d.isDigit)
      if ds2.isEmpty then none
      else some (ds1 ++ c :: ds2, ⟨ds2.getLastD '0', r2⟩)
    else none
  | [] => none

/-- `FLOAT_CONSTANT = Regex(r'-?\d*\.\d+')` matched at a position: note
`\d*` — the integer part may be empty. -/
def matchFloatRaw : Chars → Option (Chars × Inp)
  | c :: cs =>
    if c = '-' then
      match matchFloatCore cs with
      | some (t, k) => some ('-' :: t, k)
      | none => none
    else matchFloatCore (c :: cs)
  | [] => none

/-- `FLOAT_CONSTANT` as a parser element (skip whitespace, then match the
regex). -/
def matchFloatTok (i : Inp) : Option (Chars × Inp) :=
  matchFloatRaw (dropWs i).rest

/-- Backslash-escape processing as `ast.literal_eval` applies it to a quoted
string body (Python 2 string escapes; unrecognized escapes keep the
backslash).  `\xNN`/octal escapes are not produced by the formatter for the
values considered here and are left as unrecognized. -/
def unescape : Chars → Chars
  | [] => []
  | c :: cs =>
    if c = bs then
      match cs with
      | [] => [c]
      | d :: ds =>
        if d = bs then bs :: unescape ds
        else if d = sq then sq :: unescape ds
        else if d = dq then dq :: unescape ds
        else if d = 'n' then '\n' :: unescape ds
        else if d = 't' then '\t' :: unescape ds
        else if d = 'r' then cr :: unescape ds
        else c :: d :: unescape ds
    else c :: unescape cs

def digitsToNat : Chars → Nat :=
  fun ds => ds.foldl (fun acc c => 10 * acc + (c.toNat - 48)) 0

def intOfText : Chars → Int
  | c :: cs => if c = '-' then -(digitsToNat cs : Int) else (digitsToNat (c :: cs) : Int)
  | [] => 0

/-- The `CONSTANT` parse action: `ast.literal_eval` on the matched text
(a quoted string, a float literal or an integer literal). -/
def literalEval (t : Chars) : Val :=
  match t with
  | c :: _ =>
    if c = sq || c = dq then .str (unescape ((t.drop 1).dropLast))
    else if t.contains '.' then .float t
    else .int (intOfText t)
  | [] => .int 0

/-- `CONSTANT = STRING_CONSTANT | FLOAT_CONSTANT | INT_CONSTANT` (ordered). -/
def constantTok (i : Inp) : Option (Chars × Inp) :=
  match matchQuotedRaw sq i with
  | some r => some r
  | none =>
    match matchQuotedRaw dq i with
    | some r => some r
    | none =>
      match matchFloatTok i with
      | some r => some r
      | none => matchIntTok i

def constant (i : Inp) : Option (Val × Inp) :=
  (constantTok i).map fun r => (literalEval r.1, r.2)

/-- `IDENTIFIER`, with its parse action `Where(toks[0])`: a bare word or a
bracket-quoted name, wrapped as a column-reference node. -/
def identifier (i : Inp) : Option (Node × Inp) :=
  match matchWord i with
  | some (n, k) => some (.column n, k)
  | none =>
    match matchBracketId i with
    | some (n, k) => some (.column n, k)
    | none => none

/-- `VALUE = CONSTANT | IDENTIFIER`. -/
def value (i : Inp) : Option (Node × Inp) :=
  match constant i with
  | some (v, k) => some (.const v, k)
  | none => identifier i

/-- `OPERATOR`: ordered choice of `==?`, `!=`, `<>`, `>=`, `<=`, `>`, `<`,
and caseless `like`. -/
def operatorTok (i : Inp) : Option (String × Inp) :=
  let j := dropWs i
  match j.rest with
  | [] => none
  | c :: cs =>
    if c = '=' then
      match cs with
      | d :: ds => if d = '=' then some ("==", ⟨d, ds⟩) else some ("=", ⟨c, d :: ds⟩)
      | [] => some ("=", ⟨c, []⟩)
    else if c = '!' then
      match cs with
      | d :: ds => if d = '=' then some ("!=", ⟨d, ds⟩) else none
      | [] => none
    else if c = '<' then
      match cs with
      | d :: ds =>
        if d = '>' then some ("<>", ⟨d, ds⟩)
        else if d = '=' then some ("<=", ⟨d, ds⟩)
        else some ("<", ⟨c, d :: ds⟩)
      | [] => some ("<", ⟨c, []⟩)
    else if c = '>' then
      match cs with
      | d :: ds => if d = '=' then some (">=", ⟨d, ds⟩) else some (">", ⟨c, d :: ds⟩)
      | [] => some (">", ⟨c, []⟩)
    else
      match matchKw ("like".toList) j with
      | some k => some ("like", k)
      | none => none

/-- `make_like` from whereexp.py.  `b` is the parsed right operand: a string
`Const` is inspected for `%` wildcards; anything else (a non-string constant
or a column reference) raises `ValueError` ("LIKE operator requires a string
on the rhs.", modelled by an `invalidPattern` with empty payload). -/
def make_like (a b : Node) : Except PErr Node :=
  match b with
  | .const (.str s) =>
    let ps := s.countP (fun c => c = '%')
    if ps = 0 then .ok (.comp "==" a (some b))
    else if ps = 1 then
      if s.head? = some '%' then .ok (.comp "endsWith" a (some (.const (.str (s.drop 1)))))
      else if s.getLast? = some '%' then
        .ok (.comp "startsWith" a (some (.const (.str s.dropLast))))
      else .error (.invalidPattern s)
    else if ps = 2 then
      if s.head? = some '%' ∧ s.getLast? = some '%' then
        .ok (.comp "like" a (some (.const (.str ((s.drop 1).dropLast)))))
      else .error (.invalidPattern s)
    else .error (.invalidPattern s)
  | _ => .error (.invalidPattern [])

/-- The `OPS` dict, composed with the external Where model's overloaded
comparison constructors: `operator.eq` builds a `"=="` composite,
`operator.ne` a `"!="` composite, and so on; `'like'` maps to `make_like`. -/
def OPS (op : String) (l r : Node) : Except PErr Node :=
  if op = "==" then .ok (.comp "==" l (some r))
  else if op = "=" then .ok (.comp "==" l (some r))
  else if op = "!=" then .ok (.comp "!=" l (some r))
  else if op = "<>" then .ok (.comp "!=" l (some r))
  else if op = "<" then .ok (.comp "<" l (some r))
  else if op = ">" then .ok (.comp ">" l (some r))
  else if op = "<=" then .ok (.comp "<=" l (some r))
  else if op = ">=" then .ok (.comp ">=" l (some r))
  else if op = "like" then make_like l r
  else .error (.keyErr op)

/-- `INFIX_TEST = IDENTIFIER + OPERATOR + VALUE`, with the `parseTest`
action `OPS[op](l, r)`. -/
def INFIX_TEST (i : Inp) : Except PErr (Node × Inp) :=
  match identifier i with
  | none => .error .noMatch
  | some (l, i1) =>
    match operatorTok i1 with
    | none => .error .noMatch
    | some (op, i2) =>
      match value i2 with
      | none => .error .noMatch
      | some (r, i3) =>
        match OPS op l r with
        | .ok n => .ok (n, i3)
        | .error e => .error e

/-- `NULL_TEST = IDENTIFIER + IS + NULL`, action `toks[0] << isNull >> None`. -/
def NULL_TEST (i : Inp) : Except PErr (Node × Inp) :=
  match identifier i with
  | none => .error .noMatch
  | some (l, i1) =>
    match matchKw ("is".toList) i1 with
    | none => .error .noMatch
    | some i2 =>
      match matchKw ("null".toList) i2 with
      | none => .error .noMatch
      | some i3 => .ok (.comp "isNull" l none, i3)

/-- `NOT_NULL_TEST = IDENTIFIER + IS + NOT + NULL`. -/
def NOT_NULL_TEST (i : Inp) : Except PErr (Node × Inp) :=
  match identifier i with
  | none => .error .noMatch
  | some (l, i1) =>
    match matchKw ("is".toList) i1 with
    | none => .error .noMatch
    | some i2 =>
      match matchKw ("not".toList) i2 with
      | none => .error .noMatch
      | some i3 =>
        match matchKw ("null".toList) i3 with
        | none => .error .noMatch
        | some i4 => .ok (.comp "isNotNull" l none, i4)

/-- Tokens of the LIST production: matched punctuation literals (strings in
Python's token list) and evaluated constants. -/
inductive LTok where
  | p (c : Char)
  | v (val : Val)
deriving DecidableEq

/-- `ZeroOrMore(COMMA + CONSTANT)`: fuelled loop; a comma not followed by a
constant is left unconsumed. -/
def listItems : Nat → Inp → List LTok × Inp
  | 0, i => ([], i)
  | n + 1, i =>
    match matchLit [','] i with
    | none => ([], i)
    | some i1 =>
      match constant i1 with
      | none => ([], i)
      | some (c, i2) =>
        let r := listItems n i2
        (.p ',' :: .v c :: r.1, r.2)

def everyOther {α : Type} : List α → List α
  | [] => []
  | [x] => [x]
  | x :: _ :: rest => x :: everyOther rest

/-- The `parseList` action `[toks[1:-1:2]]`: elements at odd indices,
stopping before the final token. -/
def pySlice (l : List LTok) : List Val :=
  (everyOther ((l.drop 1).dropLast)).map fun t =>
    match t with
    | .v x => x
    | .p c => .str [c]

/-- `LIST = Literal('[') + CONSTANT + ZeroOrMore(COMMA + CONSTANT) +
Optional(COMMA) + Literal(']')`, with the `fail(LIST, 'list')` action: any
failure of the production is promoted to a fatal "Expected list" error. -/
def LIST (i : Inp) : Except PErr (List Val × Inp) :=
  match matchLit ['['] i with
  | none => .error (.expected "list")
  | some i1 =>
    match constant i1 with
    | none => .error (.expected "list")
    | some (c1, i2) =>
      let more := listItems i2.rest.length i2
      let afterOpt : List LTok × Inp :=
        match matchLit [','] more.2 with
        | some k => ([.p ','], k)
        | none => ([], more.2)
      match matchLit [']'] afterOpt.2 with
      | none => .error (.expected "list")
      | some i5 =>
        let ltoks : List LTok := .p '[' :: .v c1 :: more.1 ++ afterOpt.1 ++ [.p ']']
        .ok (pySlice ltoks, i5)

/-- `INLIST_TEST = IDENTIFIER + IN + LIST`, action
`toks[0] << inlist >> toks[2]` (the right operand is a `Const` wrapping the
list). -/
def INLIST_TEST (i : Inp) : Except PErr (Node × Inp) :=
  match identifier i with
  | none => .error .noMatch
  | some (l, i1) =>
    match matchKw ("in".toList) i1 with
    | none => .error .noMatch
    | some i2 =>
      match LIST i2 with
      | .ok (vs, i3) => .ok (.comp "inlist" l (some (.const (.vlist vs))), i3)
      | .error e => .error e

/-- `NOT_INLIST_TEST = IDENTIFIER + NOT + IN + LIST`. -/
def NOT_INLIST_TEST (i : Inp) : Except PErr (Node × Inp) :=
  match identifier i with
  | none => .error .noMatch
  | some (l, i1) =>
    match matchKw ("not".toList) i1 with
    | none => .error .noMatch
    | some i2 =>
      match matchKw ("in".toList) i2 with
      | none => .error .noMatch
      | some i3 =>
        match LIST i3 with
        | .ok (vs, i4) => .ok (.comp "notinlist" l (some (.const (.vlist vs))), i4)
        | .error e => .error e

/-- pyparsing `MatchFirst` step: try `first`; only an ordinary
(backtrackable) failure falls through to the next alternative, success and
fatal errors propagate. -/
def pypOr {A : Type} (first rest : Except PErr A) : Except PErr A :=
  match first with
  | .error .noMatch => rest
  | r => r

/-- `TEST`: ordered choice of the five test productions. -/
def TEST (i : Inp) : Except PErr (Node × Inp) :=
  pypOr (INFIX_TEST i)
    (pypOr (NULL_TEST i)
      (pypOr (NOT_NULL_TEST i)
        (pypOr (INLIST_TEST i) (NOT_INLIST_TEST i))))

abbrev PFun := Inp → Except PErr (Node × Inp)

/-- The bracketed alternative `lpar + EXPRESSION + rpar` that
`operatorPrecedence` adds to its base expression.  The inner expression is
the full `EXPRESSION` (whose fail action makes an inner failure fatal). -/
def parens (pexpr : PFun) (i : Inp) : Except PErr (Node × Inp) :=
  match matchLit ['('] i with
  | none => .error .noMatch
  | some i1 =>
    match pexpr i1 with
    | .ok (v, i2) =>
      match matchLit [')'] i2 with
      | some i3 => .ok (v, i3)
      | none => .error .noMatch
    | .error e => .error e

/-- `operatorPrecedence`'s innermost level: a TEST or a bracketed expression. -/
def atom (pexpr : PFun) (i : Inp) : Except PErr (Node × Inp) :=
  pypOr (TEST i) (parens pexpr i)

/-- Tier 1: right-associative unary `NOT` (action `unary(operator.invert)`,
i.e. a `not` composite around the operand).  If `NOT` matches but no operand
follows, pyparsing's `FollowedBy` guard falls back to the base expression. -/
def notLevel (pexpr : PFun) : Nat → PFun
  | 0, _ => .error .noMatch
  | n + 1, i =>
    match matchKw ("not".toList) i with
    | none => atom pexpr i
    | some i1 =>
      match notLevel pexpr n i1 with
      | .ok (v, i2) => .ok (.comp "not" v none, i2)
      | .error .noMatch => atom pexpr i
      | .error e => .error e

/-- The tier-2 operator token: `CaselessKeyword('and') | CaselessKeyword('or')`;
the token produced is the keyword's own (lower-case) text. -/
def kwAndOr (i : Inp) : Option (String × Inp) :=
  match matchKw ("and".toList) i with
  | some k => some ("and", k)
  | none =>
    match matchKw ("or".toList) i with
    | some k => some ("or", k)
    | none => none

/-- `INFIX_OPS`: `operator.and_` / `operator.or_` on Where nodes build
`and` / `or` composites. -/
def INFIX_OPS (k : String) : Option (Node → Node → Node) :=
  if k = "and" then some (fun a b => .comp "and" a (some b))
  else if k = "or" then some (fun a b => .comp "or" a (some b))
  else none

/-- Python `str.lower` (ASCII). -/
def strLower (s : String) : String := String.mk (s.toList.map Char.toLower)

/-- Python `str.upper` (ASCII). -/
def strUpper (s : String) : String := String.mk (s.toList.map Char.toUpper)

/-- The `infix` parse action of whereexp.py: pop the first operand, then fold
the (operator token, operand) pairs left to right, looking each lowercased
token up in `INFIX_OPS` and raising `ValueError("Invalid op %s")` on a miss. -/
def applyInfix (v : Node) : List (String × Node) → Except PErr Node
  | [] => .ok v
  | (op, r) :: rest =>
    match INFIX_OPS (strLower op) with
    | some f => applyInfix (f v r) rest
    | none => .error (.invalidOp op)

/-- Collect the `OneOrMore(opExpr + operand)` tail of a tier-2 chain: an
operator token whose operand fails to parse is left unconsumed and ends the
chain (pyparsing rewinds the incomplete repetition). -/
def collectOps (pexpr : PFun) : Nat → Inp → Except PErr (List (String × Node) × Inp)
  | 0, i => .ok ([], i)
  | n + 1, i =>
    match kwAndOr i with
    | none => .ok ([], i)
    | some (t, i1) =>
      match notLevel pexpr (n + 1) i1 with
      | .ok (v, i2) =>
        match collectOps pexpr n i2 with
        | .ok (ps, i3) => .ok ((t, v) :: ps, i3)
        | .error e => .error e
      | .error .noMatch => .ok ([], i)
      | .error e => .error e

/-- Tier 2: left-associative `AND`/`OR` at a single shared precedence level,
folded by `applyInfix`. -/
def orLevel (pexpr : PFun) (n : Nat) (i : Inp) : Except PErr (Node × Inp) :=
  match notLevel pexpr n i with
  | .error e => .error e
  | .ok (v, i1) =>
    match collectOps pexpr n i1 with
    | .error e => .error e
    | .ok (ps, i2) =>
      match applyInfix v ps with
      | .ok t => .ok (t, i2)
      | .error e => .error e

/-- `EXPRESSION = operatorPrecedence(TEST, [NOT; AND|OR])` together with its
fail action `fail(EXPRESSION, 'expression')`: an ordinary failure of the
whole expression is promoted to a fatal "Expected expression".  The fuel
bounds the recursion through brackets and `NOT` chains. -/
def EXPRESSION : Nat → PFun
  | 0, _ => .error (.expected "expression")
  | n + 1, i =>
    match orLevel (EXPRESSION n) (n + 1) i with
    | .error .noMatch => .error (.expected "expression")
    | r => r

/-- `where(expr) = WHEREEXP.parseString(expr)[0]` with
`WHEREEXP = StringStart() + EXPRESSION + StringEnd()`: parse a complete
expression; if a prefix matches but (after skipping trailing whitespace)
input remains, fail with a trailing-input error naming the remainder. -/
def whereParse (s : String) : Except PErr Node :=
  match EXPRESSION (s.length + 1) ⟨' ', s.toList⟩ with
  | .error e => .error e
  | .ok (t, i1) =>
    if (dropWs i1).rest.isEmpty then .ok t
    else .error (.trailingInput (dropWs i1).rest)

/-! ## The formatter (`_format` / `formatWhere`) -/

def hexDigit (n : Nat) : Char :=
  if n < 10 then Char.ofNat (48 + n) else Char.ofNat (97 + n - 10)

/-- Python 2 `repr` escaping of one string character, given the chosen quote
character: backslash, the quote, `\n`, `\t`, `\r` get two-character escapes,
other non-printable byte values a `\xNN` escape, and printable characters
stand for themselves. -/
def escChar (q : Char) (c : Char) : Chars :=
  if c = bs then [bs, bs]
  else if c = q then [bs, q]
  else if c = '\n' then [bs, 'n']
  else if c = '\t' then [bs, 't']
  else if c = cr then [bs, 'r']
  else if c.toNat < 32 || 127 ≤ c.toNat then
    [bs, 'x', hexDigit (c.toNat / 16 % 16), hexDigit (c.toNat % 16)]
  else [c]

def escBody (q : Char) : Chars → Chars
  | [] => []
  | c :: cs => escChar q c ++ escBody q cs

def digitChar (m : Nat) : Char := Char.ofNat (48 + m)

def natRenderF : Nat → Nat → Chars
  | 0, _ => []
  | f + 1, m => if m < 10 then [digitChar m] else natRenderF f (m / 10) ++ [digitChar (m % 10)]

/-- Decimal rendering of a natural number (most significant digit first). -/
def natRender (m : Nat) : Chars := natRenderF (m + 1) m

/-- Python `repr` of an integer: decimal digits with an optional leading
minus sign (the Python 2 long-literal `L` suffix for values outside the
machine-int range is not modelled; well-formedness below keeps values inside
it). -/
def intRender (n : Int) : Chars :=
  if n < 0 then '-' :: natRender n.natAbs else natRender n.toNat

/-- Python 2 `repr` of a string: single-quoted, unless the string contains a
single quote and no double quote, in which case double-quoted. -/
def reprStr (s : Chars) : Chars :=
  let q := if s.contains sq && !(s.contains dq) then dq else sq
  q :: escBody q s ++ [q]

def joinCommaSp : List Chars → Chars := List.intercalate (", ".toList)

mutual

/-- Python `repr` of a constant value (float values keep their stored source
text; Python's shortest-round-trip float repr is not modelled). -/
def pyRepr : Val → Chars
  | .int n => intRender n
  | .float t => t
  | .str s => reprStr s
  | .vlist vs => '[' :: joinCommaSp (pyReprList vs) ++ [']']

def pyReprList : List Val → List Chars
  | [] => []
  | v :: vs => pyRepr v :: pyReprList vs

end

/-- Python `str` of a constant value, as interpolated by `'%%%s%%' % w.right.left`
and friends (for a string the text itself; for other values their repr). -/
def pyStrVal : Val → Chars
  | .str s => s
  | .int n => intRender n
  | .float t => t
  | .vlist vs => pyRepr (.vlist vs)

/-- Python `str.splitlines` for strings whose only line break is `'\n'`. -/
def splitNl : Chars → List Chars
  | [] => []
  | c :: cs =>
    if c = '\n' then [] :: splitNl cs
    else
      match splitNl cs with
      | [] => [[c]]
      | l :: ls => (c :: l) :: ls

def joinNl : List Chars → Chars := List.intercalate ['\n']

/-- `'\n'.join(indent + l for l in exp.splitlines())` with a 4-space indent. -/
def indentLines (s : Chars) : Chars :=
  joinNl ((splitNl s).map (fun l => ' ' :: ' ' :: ' ' :: ' ' :: l))

/-- `'(\n%s\n)' % indented`. -/
def bracketWrap (s : Chars) : Chars :=
  '(' :: '\n' :: indentLines s ++ '\n' :: [')']

/-- `w.op` of a node: composites carry their tag, leaves have `None`. -/
def nodeOp : Node → Option String
  | .comp op _ _ => some op
  | _ => none

/-- `LOGICAL = 'and', 'or'`. -/
def LOGICAL : List String := ["and", "or"]

def isPre : Chars → Chars → Bool
  | [], _ => true
  | _ :: _, [] => false
  | x :: xs, y :: ys => x = y && isPre xs ys

/-- Python's substring membership `a in b` on strings: `a` occurs
contiguously somewhere in `b`. -/
def instr (a : Chars) : Chars → Bool
  | [] => isPre a []
  | y :: ys => isPre a (y :: ys) || instr a ys

/-- The string whose *substrings* the comparison-operator membership test
`w.op in '!= == <> >= <='` actually accepts. -/
def cmpMaster : Chars := "!= == <> >= <=".toList

mutual

/-- `_format` from whereexp.py, with its two context flags.  Branch order and
membership tests are the source's: a leading `Column` yields the (possibly
bracket-quoted) name; a `Const` yields its repr; an op-carrying node is
dispatched on the tag, where the comparison test is Python *substring*
membership in `'!= == <> >= <='`; an unknown tag raises "Unknown operation"
and a node with a falsy op raises "Unsupported object".  Places where the
Python code would interpolate `str()` of an external `Where`/`Column` object
or crash on a `None` operand (`_format(None)`, impossible for
parser-produced trees) are modelled as `unsupported`. -/
def fmtNode : Node → Bool → Bool → Except FmtErr Chars
  | .column n, _, _ => .ok (if n.contains ' ' then '[' :: n ++ [']'] else n)
  | .const v, _, _ => .ok (pyRepr v)
  | .comp op l r, bracket, breakAfterLogicOp =>
    if op = "" then .error .unsupported
    else if instr op.toList cmpMaster then
      match fmtNode l false false with
      | .error e => .error e
      | .ok ls =>
        match fmtRight r with
        | .error e => .error e
        | .ok rs => .ok (ls ++ ' ' :: op.toList ++ ' ' :: rs)
    else if op = "isNull" then
      match fmtNode l false false with
      | .error e => .error e
      | .ok ls => .ok (ls ++ " IS NULL".toList)
    else if op = "isNotNull" then
      match fmtNode l false false with
      | .error e => .error e
      | .ok ls => .ok (ls ++ " IS NOT NULL".toList)
    else if op = "like" then
      match fmtNode l false false with
      | .error e => .error e
      | .ok ls =>
        match r with
        | some (.const rv) =>
          .ok (ls ++ " LIKE ".toList ++ reprStr ('%' :: pyStrVal rv ++ ['%']))
        | _ => .error .unsupported
    else if op = "startsWith" then
      match fmtNode l false false with
      | .error e => .error e
      | .ok ls =>
        match r with
        | some (.const rv) =>
          .ok (ls ++ " LIKE ".toList ++ reprStr (pyStrVal rv ++ ['%']))
        | _ => .error .unsupported
    else if op = "endsWith" then
      match fmtNode l false false with
      | .error e => .error e
      | .ok ls =>
        match r with
        | some (.const rv) =>
          .ok (ls ++ " LIKE ".toList ++ reprStr ('%' :: pyStrVal rv))
        | _ => .error .unsupported
    else if op = "inlist" then
      match fmtNode l false false with
      | .error e => .error e
      | .ok ls =>
        match r with
        | some (.const rv) => .ok (ls ++ " IN ".toList ++ pyRepr rv)
        | _ => .error .unsupported
    else if op = "notinlist" then
      match fmtNode l false false with
      | .error e => .error e
      | .ok ls =>
        match r with
        | some (.const rv) => .ok (ls ++ " NOT IN ".toList ++ pyRepr rv)
        | _ => .error .unsupported
    else if op = "not" then
      match fmtNode l true true with
      | .error e => .error e
      | .ok s => .ok ("NOT ".toList ++ s)
    else if LOGICAL.contains op then
      if nodeOp l = some op then
        match fmtNode l false true with
        | .error e => .error e
        | .ok ls =>
          match fmtRightBracket r with
          | .error e => .error e
          | .ok rs =>
            let exp := ls ++ ' ' :: (strUpper op).toList ++ '\n' :: rs
            .ok (if bracket then bracketWrap exp else exp)
      else
        match fmtNode l true false with
        | .error e => .error e
        | .ok ls =>
          match fmtRightBracket r with
          | .error e => .error e
          | .ok rs =>
            let exp :=
              if breakAfterLogicOp then ls ++ ' ' :: (strUpper op).toList ++ '\n' :: rs
              else ls ++ ' ' :: (strUpper op).toList ++ ' ' :: rs
            .ok (if bracket then bracketWrap exp else exp)
    else .error (.unknownOperator op)

/-- `_format(w.right)` with default flags; `_format(None)` (a missing right
operand, impossible for parser-produced trees) fails in Python with an
`AttributeError` and is modelled as the unsupported-object error. -/
def fmtRight : Option Node → Except FmtErr Chars
  | none => .error .unsupported
  | some rn => fmtNode rn false false

/-- `_format(w.right, bracket=True)`, with the same `None` treatment. -/
def fmtRightBracket : Option Node → Except FmtErr Chars
  | none => .error .unsupported
  | some rn => fmtNode rn true false

end

/-- `formatWhere`: format a tree with default flags. -/
def formatWhere (w : Node) : Except FmtErr Chars := fmtNode w false false

/-- `formatWhere` as a `String`-valued wrapper. -/
def formatWhereStr (w : Node) : Except FmtErr String :=
  (formatWhere w).map fun cs => String.mk cs

/-! ## Spec-side notions used by the claims -/

/-- The fixed operator vocabulary of the data model. -/
def opVocabulary : List String :=
  ["==", "!=", "<>", "<", ">", "<=", ">=", "like", "startsWith", "endsWith",
   "isNull", "isNotNull", "inlist", "notinlist", "not", "and", "or"]

/-- Whether `FLOAT_CONSTANT` accepts an entire string (the regex matches and
consumes all of it). -/
def floatAccepts (s : Chars) : Bool :=
  match matchFloatRaw s with
  | some (_, k) => k.rest.isEmpty
  | none => false

/-- The body of the float shape asserted by the claim: *one or more* digits,
a decimal point, one or more digits (maximal-munch reading of the leading
digit run, which for a whole-string match coincides with the existential
decomposition). -/
def claimFloatBody (t : Chars) : Bool :=
  let d1 := t.takeWhile (fun c => c.isDigit)
  let r := t.dropWhile (fun c => c.isDigit)
  !d1.isEmpty &&
    (match r with
     | c :: u => c = '.' && !u.isEmpty && u.all (fun d => d.isDigit)
     | [] => false)

/-- The float shape asserted by the claim: optional leading `-`, one or more
digits, a mandatory decimal point, one or more digits. -/
def claimFloatShape (s : Chars) : Bool :=
  match s with
  | [] => false
  | c :: t => if c = '-' then claimFloatBody t else claimFloatBody (c :: t)

/-- Like `claimFloatBody` but with the integer part allowed to be empty,
matching the code's regex `\d*\.\d+`. -/
def amendFloatBody (t : Chars) : Bool :=
  match t.dropWhile (fun c => c.isDigit) with
  | c :: u => c = '.' && !u.isEmpty && u.all (fun d => d.isDigit)
  | [] => false

/-- The amended float shape: optional leading `-`, *zero or more* digits,
a mandatory decimal point, one or more digits. -/
def amendFloatShape (s : Chars) : Bool :=
  match s with
  | [] => false
  | c :: t => if c = '-' then amendFloatBody t else amendFloatBody (c :: t)

/-! ## Claims -/

/-- C3: AND and OR are parsed at one shared (loosest) precedence tier and a
chain of tests separated by AND/OR tokens is folded strictly left-to-right
into left-nested binary nodes: with the placeholder tests `a = 1`, `b = 2`,
`c = 3`, `a = 1 and b = 2 or c = 3` parses to `or(and(·,·),·)` and
`a = 1 or b = 2 and c = 3` parses to `and(or(·,·),·)` — no extra precedence
for AND over OR. -/
theorem c3_andor_single_tier :
    whereParse "a = 1 and b = 2 or c = 3" =
      .ok (.comp "or"
        (.comp "and" (.comp "==" (.column ['a']) (some (.const (.int 1))))
          (some (.comp "==" (.column ['b']) (some (.const (.int 2))))))
        (some (.comp "==" (.column ['c']) (some (.const (.int 3)))))) ∧
    whereParse "a = 1 or b = 2 and c = 3" =
      .ok (.comp "and"
        (.comp "or" (.comp "==" (.column ['a']) (some (.const (.int 1))))
          (some (.comp "==" (.column ['b']) (some (.const (.int 2))))))
        (some (.comp "==" (.column ['c']) (some (.const (.int 3)))))) :=
  ⟨rfl, rfl⟩

/-- C5: unary NOT binds tighter than AND/OR and wraps only the immediately
following test: `not a = 1 and b = 2` parses to
`and(not(eq(a,1)), eq(b,2))`. -/
theorem c5_not_precedence :
    whereParse "not a = 1 and b = 2" =
      .ok (.comp "and"
        (.comp "not" (.comp "==" (.column ['a']) (some (.const (.int 1)))) none)
        (some (.comp "==" (.column ['b']) (some (.const (.int 2)))))) :=
  rfl

/-- C8: a list literal is `[`, constants separated by commas, an optional
trailing comma, `]`; `a in [1,2,3,]` parses to the same `inlist` node,
carrying the same constants in the same order, as `a in [1, 2, 3]`. -/
theorem c8_list_trailing_comma :
    whereParse "a in [1,2,3,]" = whereParse "a in [1, 2, 3]" ∧
    whereParse "a in [1, 2, 3]" =
      .ok (.comp "inlist" (.column ['a'])
        (some (.const (.vlist [.int 1, .int 2, .int 3])))) :=
  ⟨rfl, rfl⟩

/-- C6: whenever the expression grammar consumes only a proper prefix of the
input (some non-whitespace text remains), the parse fails with a
trailing-input error naming the unparsed remainder, and never returns the
tree built from the prefix. -/
theorem c6_trailing_input (s : String) (t : Node) (i : Inp)
    (h : EXPRESSION (s.length + 1) ⟨' ', s.toList⟩ = .ok (t, i))
    (hr : (dropWs i).rest ≠ []) :
    whereParse s = .error (.trailingInput (dropWs i).rest) ∧
    ∀ u : Node, whereParse s ≠ .ok u := by
  have hmain : whereParse s = .error (.trailingInput (dropWs i).rest) := by
    have hne : (dropWs i).rest.isEmpty = false := by
      cases hrest : (dropWs i).rest with
      | nil => exact absurd hrest hr
      | cons c cs => simp [List.isEmpty]
    unfold whereParse
    rw [h]
    simp [hne]
  exact ⟨hmain, fun u hu => by rw [hmain] at hu; exact Except.noConfusion hu⟩

/-- Witness for C6 at the concrete input `"a = 1 extra"`. -/
theorem c6_trailing_input_witness :
    whereParse "a = 1 extra" = .error (.trailingInput ['e', 'x', 't', 'r', 'a']) ∧
    ∀ u : Node, whereParse "a = 1 extra" ≠ .ok u :=
  c6_trailing_input "a = 1 extra"
    (.comp "==" (.column ['a']) (some (.const (.int 1))))
    ⟨'1', (" extra".toList)⟩ rfl (by decide)

/-- C7 counterexample: the float recognizer accepts `".5"`, which has no
digit before the decimal point, so the claimed shape (one or more digits
before the point) is not what the recognizer accepts. -/
theorem c7_float_counterexample :
    floatAccepts ['.', '5'] = true ∧ claimFloatShape ['.', '5'] = false := by
  decide

/-- C1 counterexample: for the builder tree `like(a, "fo%o")` the formatter
produces `a LIKE '%fo%o%'`, whose re-parse fails in `make_like` (three `%`
wildcards), so `parse(format(T)) = T` fails for this tree built from the
documented vocabulary. -/
theorem c1_roundtrip_counterexample :
    formatWhereStr
      (.comp "like" (.column ['a']) (some (.const (.str ['f', 'o', '%', 'o'])))) =
      .ok "a LIKE '%fo%o%'" ∧
    whereParse "a LIKE '%fo%o%'" =
      .error (.invalidPattern ['%', 'f', 'o', '%', 'o', '%']) ∧
    ∀ t : Node, whereParse "a LIKE '%fo%o%'" ≠ .ok t := by
  refine ⟨rfl, rfl, fun t ht => ?_⟩
  rw [show whereParse "a LIKE '%fo%o%'" =
      .error (.invalidPattern ['%', 'f', 'o', '%', 'o', '%']) from rfl] at ht
  exact Except.noConfusion ht

theorem matchFloatCore_accepts (t : Chars) :
    (match matchFloatCore t with
     | some r => r.2.rest.isEmpty
     | none => false) = amendFloatBody t := by
  unfold matchFloatCore amendFloatBody
  cases hr : t.dropWhile (fun c => c.isDigit) with
  | nil => simp
  | cons c cs =>
    by_cases hc : c = '.'
    · subst hc
      cases cs with
      | nil => simp
      | cons d ds =>
        by_cases hd : d.isDigit
        · simp only [List.takeWhile_cons, hd, if_true, reduceIte]
          by_cases hall : (d :: ds).all (fun c => c.isDigit)
          · have : (d :: ds).dropWhile (fun c => c.isDigit) = [] := by
              rw [List.dropWhile_eq_nil_iff]
              intro x hx
              exact (List.all_eq_true.mp hall x hx)
            simp [this, hall, List.isEmpty]
          · have hne : (d :: ds).dropWhile (fun c => c.isDigit) ≠ [] := by
              intro h
              exact hall (List.all_eq_true.mpr fun x hx =>
                (List.dropWhile_eq_nil_iff.mp h) x hx)
            cases hdr : (d :: ds).dropWhile (fun c => c.isDigit) with
            | nil => exact absurd hdr hne
            | cons e es =>
              simp [hdr, List.isEmpty, hall]
        · simp [List.takeWhile_cons, hd, List.isEmpty, List.all_cons]
    · simp [hc]

/-- C7 amended: the float recognizer accepts exactly the strings of the
shape optional leading `-`, *zero or more* digits, a mandatory decimal
point, one or more digits. -/
theorem c7_float_amended (s : Chars) : floatAccepts s = amendFloatShape s := by
  cases s with
  | nil => rfl
  | cons c cs =>
    by_cases hc : c = '-'
    · subst hc
      have hcore := matchFloatCore_accepts cs
      unfold floatAccepts matchFloatRaw amendFloatShape
      cases hm : matchFloatCore cs with
      | none => rw [hm] at hcore; simpa [hm] using hcore
      | some r => rw [hm] at hcore; simpa [hm] using hcore
    · have hcore := matchFloatCore_accepts (c :: cs)
      unfold floatAccepts matchFloatRaw amendFloatShape
      cases hm : matchFloatCore (c :: cs) with
      | none => rw [hm] at hcore; simpa [hm, hc] using hcore
      | some r => rw [hm] at hcore; simpa [hm, hc] using hcore

/-- C2: the LIKE compilation of `make_like`, as routed from the `OPS` table
for the parsed operator `like`: a string constant with no `%` compiles to a
plain `==` node; exactly one `%`, leading, to `endsWith` with the `%`
stripped; exactly one `%`, trailing (and not leading), to `startsWith`;
exactly two `%`, one leading and one trailing, to `like` with both stripped;
any other placement or count, or a non-string right operand, raises the
`InvalidPattern` `ValueError` and produces no node. -/
theorem c2_like_compilation (a : Node) (s : Chars) :
    (OPS "like" a (.const (.str s)) = make_like a (.const (.str s))) ∧
    (s.countP (fun c => c = '%') = 0 →
      make_like a (.const (.str s)) = .ok (.comp "==" a (some (.const (.str s))))) ∧
    (s.countP (fun c => c = '%') = 1 → s.head? = some '%' →
      make_like a (.const (.str s)) =
        .ok (.comp "endsWith" a (some (.const (.str (s.drop 1)))))) ∧
    (s.countP (fun c => c = '%') = 1 → s.head? ≠ some '%' → s.getLast? = some '%' →
      make_like a (.const (.str s)) =
        .ok (.comp "startsWith" a (some (.const (.str s.dropLast))))) ∧
    (s.countP (fun c => c = '%') = 2 → s.head? = some '%' → s.getLast? = some '%' →
      make_like a (.const (.str s)) =
        .ok (.comp "like" a (some (.const (.str ((s.drop 1).dropLast)))))) ∧
    (s.countP (fun c => c = '%') = 1 → s.head? ≠ some '%' → s.getLast? ≠ some '%' →
      make_like a (.const (.str s)) = .error (.invalidPattern s)) ∧
    (s.countP (fun c => c = '%') = 2 → ¬(s.head? = some '%' ∧ s.getLast? = some '%') →
      make_like a (.const (.str s)) = .error (.invalidPattern s)) ∧
    (3 ≤ s.countP (fun c => c = '%') →
      make_like a (.const (.str s)) = .error (.invalidPattern s)) ∧
    (∀ b : Node, (∀ u : Chars, b ≠ .const (.str u)) →
      make_like a b = .error (.invalidPattern [])) := by
  refine ⟨rfl, ?_, ?_, ?_, ?_, ?_, ?_, ?_, ?_⟩
  · intro h0; simp [make_like, h0]
  · intro h1 hh; simp [make_like, h1, hh]
  · intro h1 hh hl; simp [make_like, h1, hh, hl]
  · intro h2 hh hl; simp [make_like, h2, hh, hl]
  · intro h1 hh hl; simp [make_like, h1, hh, hl]
  · intro h2 hb; simp [make_like, h2, hb]
  · intro h3
    have e0 : s.countP (fun c => c = '%') ≠ 0 := by omega
    have e1 : s.countP (fun c => c = '%') ≠ 1 := by omega
    have e2 : s.countP (fun c => c = '%') ≠ 2 := by omega
    simp [make_like, e0, e1, e2]
  · intro b hb
    cases b with
    | column _ => rfl
    | comp _ _ _ => rfl
    | const v =>
      cases v with
      | int _ => rfl
      | float _ => rfl
      | vlist _ => rfl
      | str u => exact absurd rfl (hb u)

/-- Witness for C2: concrete LIKE compilations — `'foo%'` compiles to
`startsWith(a, 'foo')`, `'f%o%o'` is rejected as an invalid pattern, and a
non-string right operand (the constant `5`) is rejected. -/
theorem c2_like_compilation_witness :
    make_like (.column ['a']) (.const (.str ['f', 'o', 'o', '%'])) =
      .ok (.comp "startsWith" (.column ['a']) (some (.const (.str ['f', 'o', 'o'])))) ∧
    make_like (.column ['a']) (.const (.str ['f', '%', 'o', '%', 'o'])) =
      .error (.invalidPattern ['f', '%', 'o', '%', 'o']) ∧
    make_like (.column ['a']) (.const (.int 5)) = .error (.invalidPattern []) := by
  refine ⟨?_, ?_, ?_⟩
  · exact (c2_like_compilation (.column ['a']) ['f', 'o', 'o', '%']).2.2.2.1
      (by decide) (by decide) (by decide)
  · exact (c2_like_compilation (.column ['a']) ['f', '%', 'o', '%', 'o']).2.2.2.2.2.2.1
      (by decide) (by decide)
  · exact (c2_like_compilation (.column ['a']) []).2.2.2.2.2.2.2.2
      (.const (.int 5)) (fun u h => by cases h)

theorem instr_nil_left (b : Chars) : instr [] b = true := by
  cases b <;> simp [instr, isPre]

/-- C4 counterexample: the tag `"="` is outside the documented vocabulary,
yet the formatter renders `a = 1` for it instead of failing — the membership
test `w.op in '!= == <> >= <='` is Python *substring* membership, which
accepts `'='`. -/
theorem c4_unknown_op_counterexample :
    ("=" ∉ opVocabulary) ∧
    fmtNode (.comp "=" (.column ['a']) (some (.const (.int 1)))) false false =
      .ok ['a', ' ', '=', ' ', '1'] :=
  ⟨by decide, rfl⟩

/-- C4 amended: a composite whose tag is outside the vocabulary *and* not a
substring of `'!= == <> >= <='` fails with the "Unknown operation" error
(for any flags and operands), and a node with an empty (falsy) operator tag
fails with the "Unsupported object" error; tags outside the vocabulary that
happen to be substrings of that string (such as `"="`) are instead rendered
as comparisons, per the counterexample. -/
theorem c4_unknown_op_amended (op : String) (l : Node) (r : Option Node)
    (bracket breakA : Bool)
    (hv : op ∉ opVocabulary) (hs : instr op.toList cmpMaster = false) :
    fmtNode (.comp op l r) bracket breakA = .error (.unknownOperator op) ∧
    ∀ (l' : Node) (r' : Option Node),
      fmtNode (.comp "" l' r') bracket breakA = .error .unsupported := by
  constructor
  · have h0 : op ≠ "" := by
      intro h
      rw [h, show ("" : String).toList = [] from rfl, instr_nil_left] at hs
      exact Bool.noConfusion hs
    have h1 : op ≠ "isNull" := fun h => hv (by rw [h]; decide)
    have h2 : op ≠ "isNotNull" := fun h => hv (by rw [h]; decide)
    have h3 : op ≠ "like" := fun h => hv (by rw [h]; decide)
    have h4 : op ≠ "startsWith" := fun h => hv (by rw [h]; decide)
    have h5 : op ≠ "endsWith" := fun h => hv (by rw [h]; decide)
    have h6 : op ≠ "inlist" := fun h => hv (by rw [h]; decide)
    have h7 : op ≠ "notinlist" := fun h => hv (by rw [h]; decide)
    have h8 : op ≠ "not" := fun h => hv (by rw [h]; decide)
    have ha : op ≠ "and" := fun h => hv (by rw [h]; decide)
    have hb : op ≠ "or" := fun h => hv (by rw [h]; decide)
    have h9 : op ∉ LOGICAL := by simp [LOGICAL, ha, hb]
    have hs' : instr op.data cmpMaster = false := hs
    rw [fmtNode]
    simp [h0, hs', h1, h2, h3, h4, h5, h6, h7, h8, h9]
  · intro l' r'
    rw [fmtNode]
    simp

/-- Witness for C4 amended at the concrete tag `"zap"`. -/
theorem c4_unknown_op_amended_witness :
    fmtNode (.comp "zap" (.column ['a']) none) false false =
      .error (.unknownOperator "zap") ∧
    fmtNode (.comp "" (.column ['a']) none) false false = .error .unsupported := by
  have h := c4_unknown_op_amended "zap" (.column ['a']) none false false
    (by decide) (by decide)
  exact ⟨h.1, h.2 (.column ['a']) none⟩

/-! ## Branch-unfolding lemmas for the formatter -/

theorem fmtNode_cmp (op : String)
    (hop : op = "==" ∨ op = "!=" ∨ op = "<" ∨ op = ">" ∨ op = "<=" ∨ op = ">=")
    (l : Node) (r : Option Node) (b bk : Bool) :
    fmtNode (.comp op l r) b bk =
      match fmtNode l false false with
      | .error e => .error e
      | .ok ls =>
        match fmtRight r with
        | .error e => .error e
        | .ok rs => .ok (ls ++ ' ' :: op.toList ++ ' ' :: rs) := by
  rcases hop with h | h | h | h | h | h <;> subst h <;> (rw [fmtNode]; rfl)

theorem fmtNode_isNull (l : Node) (r : Option Node) (b bk : Bool) :
    fmtNode (.comp "isNull" l r) b bk =
      match fmtNode l false false with
      | .error e => .error e
      | .ok ls => .ok (ls ++ " IS NULL".toList) := by
  rw [fmtNode]; rfl

theorem fmtNode_isNotNull (l : Node) (r : Option Node) (b bk : Bool) :
    fmtNode (.comp "isNotNull" l r) b bk =
      match fmtNode l false false with
      | .error e => .error e
      | .ok ls => .ok (ls ++ " IS NOT NULL".toList) := by
  rw [fmtNode]; rfl

theorem fmtNode_like (l : Node) (r : Option Node) (b bk : Bool) :
    fmtNode (.comp "like" l r) b bk =
      match fmtNode l false false with
      | .error e => .error e
      | .ok ls =>
        match r with
        | some (.const rv) =>
          .ok (ls ++ " LIKE ".toList ++ reprStr ('%' :: pyStrVal rv ++ ['%']))
        | _ => .error .unsupported := by
  rw [fmtNode]; rfl

theorem fmtNode_startsWith (l : Node) (r : Option Node) (b bk : Bool) :
    fmtNode (.comp "startsWith" l r) b bk =
      match fmtNode l false false with
      | .error e => .error e
      | .ok ls =>
        match r with
        | some (.const rv) =>
          .ok (ls ++ " LIKE ".toList ++ reprStr (pyStrVal rv ++ ['%']))
        | _ => .error .unsupported := by
  rw [fmtNode]; rfl

theorem fmtNode_endsWith (l : Node) (r : Option Node) (b bk : Bool) :
    fmtNode (.comp "endsWith" l r) b bk =
      match fmtNode l false false with
      | .error e => .error e
      | .ok ls =>
        match r with
        | some (.const rv) =>
          .ok (ls ++ " LIKE ".toList ++ reprStr ('%' :: pyStrVal rv))
        | _ => .error .unsupported := by
  rw [fmtNode]; rfl

theorem fmtNode_inlist (l : Node) (r : Option Node) (b bk : Bool) :
    fmtNode (.comp "inlist" l r) b bk =
      match fmtNode l false false with
      | .error e => .error e
      | .ok ls =>
        match r with
        | some (.const rv) => .ok (ls ++ " IN ".toList ++ pyRepr rv)
        | _ => .error .unsupported := by
  rw [fmtNode]; rfl

theorem fmtNode_notinlist (l : Node) (r : Option Node) (b bk : Bool) :
    fmtNode (.comp "notinlist" l r) b bk =
      match fmtNode l false false with
      | .error e => .error e
      | .ok ls =>
        match r with
        | some (.const rv) => .ok (ls ++ " NOT IN ".toList ++ pyRepr rv)
        | _ => .error .unsupported := by
  rw [fmtNode]; rfl

theorem fmtNode_not (l : Node) (r : Option Node) (b bk : Bool) :
    fmtNode (.comp "not" l r) b bk =
      match fmtNode l true true with
      | .error e => .error e
      | .ok s => .ok ("NOT ".toList ++ s) := by
  rw [fmtNode]; rfl

theorem fmtNode_and_or (op : String) (hop : op = "and" ∨ op = "or")
    (l : Node) (r : Option Node) (b bk : Bool) :
    fmtNode (.comp op l r) b bk =
      (if nodeOp l = some op then
        match fmtNode l false true with
        | .error e => .error e
        | .ok ls =>
          match fmtRightBracket r with
          | .error e => .error e
          | .ok rs =>
            .ok (if b then bracketWrap (ls ++ ' ' :: (strUpper op).toList ++ '\n' :: rs)
                 else ls ++ ' ' :: (strUpper op).toList ++ '\n' :: rs)
      else
        match fmtNode l true false with
        | .error e => .error e
        | .ok ls =>
          match fmtRightBracket r with
          | .error e => .error e
          | .ok rs =>
            .ok (if b then
                   bracketWrap (if bk then ls ++ ' ' :: (strUpper op).toList ++ '\n' :: rs
                                else ls ++ ' ' :: (strUpper op).toList ++ ' ' :: rs)
                 else if bk then ls ++ ' ' :: (strUpper op).toList ++ '\n' :: rs
                      else ls ++ ' ' :: (strUpper op).toList ++ ' ' :: rs)) := by
  rcases hop with h | h <;> subst h <;> (rw [fmtNode]; rfl)

/-- C9 counterexample: formatting `and(and(a=1,b=2),c=3)` renders the chain
with the operator at the *end* of each line (`"a == 1 AND\nb == 2 AND\nc ==
3"`): the continuation lines start with the right-hand operand, not with the
operator, contradicting "the operator plus right side start on a new
line". -/
theorem c9_break_counterexample :
    formatWhereStr
      (.comp "and"
        (.comp "and" (.comp "==" (.column ['a']) (some (.const (.int 1))))
          (some (.comp "==" (.column ['b']) (some (.const (.int 2))))))
        (some (.comp "==" (.column ['c']) (some (.const (.int 3)))))) =
      .ok "a == 1 AND\nb == 2 AND\nc == 3" ∧
    splitNl ("a == 1 AND\nb == 2 AND\nc == 3".toList) =
      ["a == 1 AND".toList, "b == 2 AND".toList, "c == 3".toList] ∧
    "b == 2 AND".toList.take 3 ≠ "AND".toList := by
  refine ⟨rfl, by decide, by decide⟩

/-- C9 amended: when formatting an and/or node whose left child carries the
same operator tag, the left child is rendered inline without its own
brackets, the operator ends the left child's line, and the *right side*
starts on a new line; when the left child's operator differs, both children
are rendered with bracketing requested, joined on one line (or with the same
after-operator break when the caller asked for it); and when the caller
requests bracketing, the whole result is wrapped in parentheses with every
interior line indented by 4 spaces. -/
theorem c9_logical_formatting (op : String) (l rn : Node) (bracket breakA : Bool)
    (ls rs : Chars) (hop : op ∈ LOGICAL) :
    (nodeOp l = some op → fmtNode l false true = .ok ls →
      fmtNode rn true false = .ok rs →
      fmtNode (.comp op l (some rn)) bracket breakA =
        .ok (if bracket then bracketWrap (ls ++ ' ' :: (strUpper op).toList ++ '\n' :: rs)
             else ls ++ ' ' :: (strUpper op).toList ++ '\n' :: rs)) ∧
    (nodeOp l ≠ some op → fmtNode l true false = .ok ls →
      fmtNode rn true false = .ok rs →
      fmtNode (.comp op l (some rn)) bracket breakA =
        .ok (if bracket then
               bracketWrap (if breakA then ls ++ ' ' :: (strUpper op).toList ++ '\n' :: rs
                            else ls ++ ' ' :: (strUpper op).toList ++ ' ' :: rs)
             else if breakA then ls ++ ' ' :: (strUpper op).toList ++ '\n' :: rs
                  else ls ++ ' ' :: (strUpper op).toList ++ ' ' :: rs)) ∧
    (∀ s : Chars, bracketWrap s =
      '(' :: '\n' :: joinNl ((splitNl s).map (fun ln => ' ' :: ' ' :: ' ' :: ' ' :: ln)) ++
        '\n' :: [')']) := by
  have hop' : op = "and" ∨ op = "or" := by simpa [LOGICAL] using hop
  refine ⟨?_, ?_, fun s => rfl⟩
  · intro hnode hls hrs
    rw [fmtNode_and_or op hop']
    simp [hnode, hls, hrs, fmtRightBracket]
  · intro hnode hls hrs
    rw [fmtNode_and_or op hop']
    simp [hnode, hls, hrs, fmtRightBracket]

/-- Witness for C9 amended: the same-operator case at
`and(and(a=1,b=2),c=3)` with bracketing off, instantiated concretely. -/
theorem c9_logical_formatting_witness :
    fmtNode
      (.comp "and"
        (.comp "and" (.comp "==" (.column ['a']) (some (.const (.int 1))))
          (some (.comp "==" (.column ['b']) (some (.const (.int 2))))))
        (some (.comp "==" (.column ['c']) (some (.const (.int 3)))))) false false =
      .ok ("a == 1 AND\nb == 2".toList ++ ' ' :: (strUpper "and").toList ++
        '\n' :: "c == 3".toList) := by
  have h := (c9_logical_formatting "and"
    (.comp "and" (.comp "==" (.column ['a']) (some (.const (.int 1))))
      (some (.comp "==" (.column ['b']) (some (.const (.int 2))))))
    (.comp "==" (.column ['c']) (some (.const (.int 3)))) false false
    ("a == 1 AND\nb == 2".toList) ("c == 3".toList) (by decide)).1
    rfl rfl rfl
  simpa using h

/-! ## C10: the invalid-operator branch of `infix` is unreachable -/

/-- A parse result that is not the `ValueError("Invalid op %s")` of the
`infix` fold. -/
def noInvalidOp {α : Type} (r : Except PErr α) : Prop :=
  ∀ o : String, r ≠ .error (.invalidOp o)

theorem make_like_noInv (a b : Node) : noInvalidOp (make_like a b) := by
  intro o h
  rcases b with n | v | ⟨op2, l2, r2⟩
  · simp [make_like] at h
  · rcases v with n | t | s | vs
    · simp [make_like] at h
    · simp [make_like] at h
    · simp only [make_like] at h
      split_ifs at h <;> simp_all
    · simp [make_like] at h
  · simp [make_like] at h

theorem OPS_noInv (op : String) (l r : Node) : noInvalidOp (OPS op l r) := by
  intro o h
  unfold OPS at h
  split_ifs at h <;> first
    | exact make_like_noInv l r o h
    | simp_all

theorem choiceStep {A : Type} (first rest : Except PErr A)
    (hfirst : noInvalidOp first) (hrest : noInvalidOp rest) :
    noInvalidOp (pypOr first rest) := by
  unfold pypOr
  intro o h
  rcases hf : first with e | p
  · cases e with
    | noMatch => rw [hf] at h; exact hrest o h
    | expected w => rw [hf] at h; simp at h
    | invalidPattern p => rw [hf] at h; simp at h
    | invalidOp o1 =>
      rw [hf] at h
      simp only [Except.error.injEq, PErr.invalidOp.injEq] at h
      exact hfirst o (h ▸ hf)
    | keyErr k => rw [hf] at h; simp at h
    | trailingInput t => rw [hf] at h; simp at h
  · rw [hf] at h; simp at h

theorem INFIX_TEST_noInv (i : Inp) : noInvalidOp (INFIX_TEST i) := by
  intro o h
  unfold INFIX_TEST at h
  rcases hid : identifier i with _ | ⟨l, i1⟩ <;> simp only [hid] at h
  · simp at h
  · rcases hop : operatorTok i1 with _ | ⟨op2, i2⟩ <;> simp only [hop] at h
    · simp at h
    · rcases hval : value i2 with _ | ⟨r3, i3⟩ <;> simp only [hval] at h
      · simp at h
      · rcases hops : OPS op2 l r3 with e | n <;> simp only [hops] at h
        · have he : e = .invalidOp o := by simpa using h
          exact OPS_noInv op2 l r3 o (he ▸ hops)
        · exact Except.noConfusion h

theorem NULL_TEST_noInv (i : Inp) : noInvalidOp (NULL_TEST i) := by
  intro o h
  unfold NULL_TEST at h
  rcases hid : identifier i with _ | ⟨l, i1⟩ <;> simp only [hid] at h
  · simp at h
  · rcases h1 : matchKw ("is".toList) i1 with _ | i2 <;> simp only [h1] at h
    · simp at h
    · rcases h2 : matchKw ("null".toList) i2 with _ | i3 <;> simp only [h2] at h
      · simp at h
      · exact Except.noConfusion h

theorem NOT_NULL_TEST_noInv (i : Inp) : noInvalidOp (NOT_NULL_TEST i) := by
  intro o h
  unfold NOT_NULL_TEST at h
  rcases hid : identifier i with _ | ⟨l, i1⟩ <;> simp only [hid] at h
  · simp at h
  · rcases h1 : matchKw ("is".toList) i1 with _ | i2 <;> simp only [h1] at h
    · simp at h
    · rcases h2 : matchKw ("not".toList) i2 with _ | i3 <;> simp only [h2] at h
      · simp at h
      · rcases h3 : matchKw ("null".toList) i3 with _ | i4 <;> simp only [h3] at h
        · simp at h
        · exact Except.noConfusion h

theorem LIST_noInv (i : Inp) : noInvalidOp (LIST i) := by
  intro o h
  unfold LIST at h
  rcases h1 : matchLit ['['] i with _ | i1 <;> simp only [h1] at h
  · simp at h
  · rcases h2 : constant i1 with _ | ⟨c1, i2⟩ <;> simp only [h2] at h
    · simp at h
    · rcases h3 : matchLit [']']
          (match matchLit [','] (listItems i2.rest.length i2).2 with
           | some k => ([LTok.p ','], k)
           | none => ([], (listItems i2.rest.length i2).2)).2 with _ | i5 <;>
        simp only [h3] at h
      · simp at h
      · exact Except.noConfusion h

theorem INLIST_TEST_noInv (i : Inp) : noInvalidOp (INLIST_TEST i) := by
  intro o h
  unfold INLIST_TEST at h
  rcases hid : identifier i with _ | ⟨l, i1⟩ <;> simp only [hid] at h
  · simp at h
  · rcases h1 : matchKw ("in".toList) i1 with _ | i2 <;> simp only [h1] at h
    · simp at h
    · rcases h2 : LIST i2 with e | ⟨vs, i3⟩ <;> simp only [h2] at h
      · have he : e = .invalidOp o := by simpa using h
        exact LIST_noInv i2 o (he ▸ h2)
      · exact Except.noConfusion h

theorem NOT_INLIST_TEST_noInv (i : Inp) : noInvalidOp (NOT_INLIST_TEST i) := by
  intro o h
  unfold NOT_INLIST_TEST at h
  rcases hid : identifier i with _ | ⟨l, i1⟩ <;> simp only [hid] at h
  · simp at h
  · rcases h1 : matchKw ("not".toList) i1 with _ | i2 <;> simp only [h1] at h
    · simp at h
    · rcases h2 : matchKw ("in".toList) i2 with _ | i3 <;> simp only [h2] at h
      · simp at h
      · rcases h3 : LIST i3 with e | ⟨vs, i4⟩ <;> simp only [h3] at h
        · have he : e = .invalidOp o := by simpa using h
          exact LIST_noInv i3 o (he ▸ h3)
        · exact Except.noConfusion h

theorem TEST_noInv (i : Inp) : noInvalidOp (TEST i) :=
  choiceStep _ _ (INFIX_TEST_noInv i)
    (choiceStep _ _ (NULL_TEST_noInv i)
      (choiceStep _ _ (NOT_NULL_TEST_noInv i)
        (choiceStep _ _ (INLIST_TEST_noInv i) (NOT_INLIST_TEST_noInv i))))

theorem parens_noInv (pexpr : PFun) (hp : ∀ j, noInvalidOp (pexpr j)) (i : Inp) :
    noInvalidOp (parens pexpr i) := by
  intro o h
  unfold parens at h
  rcases h1 : matchLit ['('] i with _ | i1 <;> simp only [h1] at h
  · simp at h
  · rcases h2 : pexpr i1 with e | ⟨v, i2⟩ <;> simp only [h2] at h
    · have he : e = .invalidOp o := by simpa using h
      exact hp i1 o (he ▸ h2)
    · rcases h3 : matchLit [')'] i2 with _ | i3 <;> simp only [h3] at h
      · simp at h
      · simp at h

theorem atom_noInv (pexpr : PFun) (hp : ∀ j, noInvalidOp (pexpr j)) (i : Inp) :
    noInvalidOp (atom pexpr i) :=
  choiceStep _ _ (TEST_noInv i) (parens_noInv pexpr hp i)

theorem notLevel_noInv (pexpr : PFun) (hp : ∀ j, noInvalidOp (pexpr j)) :
    ∀ (n : Nat) (i : Inp), noInvalidOp (notLevel pexpr n i) := by
  intro n
  induction n with
  | zero => intro i o h; simp [notLevel] at h
  | succ m ih =>
    intro i o h
    unfold notLevel at h
    rcases h1 : matchKw ("not".toList) i with _ | i1 <;> simp only [h1] at h
    · exact atom_noInv pexpr hp i o h
    · rcases h2 : notLevel pexpr m i1 with e | ⟨v, i2⟩
      · cases e with
        | noMatch => rw [h2] at h; exact atom_noInv pexpr hp i o h
        | invalidOp o1 =>
          rw [h2] at h
          have ho : o1 = o := by simpa using h
          exact ih i1 o (ho ▸ h2)
        | expected w => rw [h2] at h; simp at h
        | invalidPattern p => rw [h2] at h; simp at h
        | keyErr k => rw [h2] at h; simp at h
        | trailingInput t => rw [h2] at h; simp at h
      · rw [h2] at h; simp at h

theorem kwAndOr_tok (i : Inp) (t : String) (k : Inp)
    (h : kwAndOr i = some (t, k)) : t = "and" ∨ t = "or" := by
  unfold kwAndOr at h
  rcases h1 : matchKw ("and".toList) i with _ | k1 <;> simp only [h1] at h
  · rcases h2 : matchKw ("or".toList) i with _ | k2 <;> simp only [h2] at h
    · exact Option.noConfusion h
    · simp at h
      exact Or.inr h.1.symm
  · simp at h
    exact Or.inl h.1.symm

theorem applyInfix_ok (ps : List (String × Node))
    (hps : ∀ pr ∈ ps, pr.1 = "and" ∨ pr.1 = "or") :
    ∀ v : Node, ∃ t, applyInfix v ps = .ok t := by
  induction ps with
  | nil => exact fun v => ⟨v, rfl⟩
  | cons hd tl ih =>
    intro v
    obtain ⟨op, r⟩ := hd
    rcases hps (op, r) (List.mem_cons_self _ _) with h | h <;> subst h
    · have hop : INFIX_OPS (strLower "and") =
          some (fun a b => .comp "and" a (some b)) := rfl
      rw [show applyInfix v (("and", r) :: tl) =
          applyInfix (.comp "and" v (some r)) tl by rw [applyInfix, hop]]
      exact ih (fun pr hm => hps pr (List.mem_cons_of_mem _ hm)) _
    · have hop : INFIX_OPS (strLower "or") =
          some (fun a b => .comp "or" a (some b)) := rfl
      rw [show applyInfix v (("or", r) :: tl) =
          applyInfix (.comp "or" v (some r)) tl by rw [applyInfix, hop]]
      exact ih (fun pr hm => hps pr (List.mem_cons_of_mem _ hm)) _

theorem collectOps_good (pexpr : PFun) (hp : ∀ j, noInvalidOp (pexpr j)) :
    ∀ (n : Nat) (i : Inp),
      noInvalidOp (collectOps pexpr n i) ∧
      ∀ ps j, collectOps pexpr n i = .ok (ps, j) →
        ∀ pr ∈ ps, pr.1 = "and" ∨ pr.1 = "or" := by
  intro n
  induction n with
  | zero =>
    intro i
    refine ⟨fun o h => by simp [collectOps] at h, fun ps j h pr hm => ?_⟩
    simp [collectOps] at h
    rw [h.1] at hm
    exact absurd hm (List.not_mem_nil pr)
  | succ m ih =>
    intro i
    constructor
    · intro o h
      unfold collectOps at h
      rcases h1 : kwAndOr i with _ | ⟨t, i1⟩ <;> simp only [h1] at h
      · simp at h
      · rcases h2 : notLevel pexpr (m + 1) i1 with e | ⟨v, i2⟩
        · cases e with
          | noMatch => rw [h2] at h; simp at h
          | invalidOp o1 =>
            rw [h2] at h
            have ho : o1 = o := by simpa using h
            exact notLevel_noInv pexpr hp (m + 1) i1 o (ho ▸ h2)
          | expected w => rw [h2] at h; simp at h
          | invalidPattern p => rw [h2] at h; simp at h
          | keyErr k => rw [h2] at h; simp at h
          | trailingInput tr => rw [h2] at h; simp at h
        · rw [h2] at h
          rcases h3 : collectOps pexpr m i2 with e | ⟨ps, i3⟩ <;> simp only [h3] at h
          · have he : e = .invalidOp o := by simpa using h
            exact (ih i2).1 o (he ▸ h3)
          · simp at h
    · intro ps j h pr hm
      unfold collectOps at h
      rcases h1 : kwAndOr i with _ | ⟨t, i1⟩ <;> simp only [h1] at h
      · simp at h
        rw [h.1] at hm
        exact absurd hm (List.not_mem_nil pr)
      · rcases h2 : notLevel pexpr (m + 1) i1 with e | ⟨v, i2⟩
        · cases e with
          | noMatch =>
            rw [h2] at h
            simp at h
            rw [h.1] at hm
            exact absurd hm (List.not_mem_nil pr)
          | invalidOp o1 => rw [h2] at h; simp at h
          | expected w => rw [h2] at h; simp at h
          | invalidPattern p => rw [h2] at h; simp at h
          | keyErr k => rw [h2] at h; simp at h
          | trailingInput tr => rw [h2] at h; simp at h
        · rw [h2] at h
          rcases h3 : collectOps pexpr m i2 with e | ⟨ps', i3⟩ <;> simp only [h3] at h
          · simp at h
          · simp at h
            rw [← h.1] at hm
            rcases List.mem_cons.mp hm with hh | hh
            · subst hh
              exact kwAndOr_tok i t i1 h1
            · exact (ih i2).2 ps' i3 h3 pr hh

theorem orLevel_noInv (pexpr : PFun) (hp : ∀ j, noInvalidOp (pexpr j))
    (n : Nat) (i : Inp) : noInvalidOp (orLevel pexpr n i) := by
  intro o h
  unfold orLevel at h
  rcases h1 : notLevel pexpr n i with e | ⟨v, i1⟩ <;> simp only [h1] at h
  · have he : e = .invalidOp o := by simpa using h
    exact notLevel_noInv pexpr hp n i o (he ▸ h1)
  · rcases h2 : collectOps pexpr n i1 with e | ⟨ps, i2⟩ <;> simp only [h2] at h
    · have he : e = .invalidOp o := by simpa using h
      exact (collectOps_good pexpr hp n i1).1 o (he ▸ h2)
    · obtain ⟨t, ht⟩ :=
        applyInfix_ok ps ((collectOps_good pexpr hp n i1).2 ps i2 h2) v
      rw [ht] at h
      simp at h

theorem EXPRESSION_noInv : ∀ (n : Nat) (i : Inp), noInvalidOp (EXPRESSION n i) := by
  intro n
  induction n with
  | zero => intro i o h; simp [EXPRESSION] at h
  | succ m ih =>
    intro i o h
    unfold EXPRESSION at h
    rcases h1 : orLevel (EXPRESSION m) (m + 1) i with e | ⟨v, i1⟩
    · cases e with
      | noMatch => rw [h1] at h; simp at h
      | invalidOp o1 =>
        rw [h1] at h
        have ho : o1 = o := by simpa using h
        exact orLevel_noInv (EXPRESSION m) ih (m + 1) i o (ho ▸ h1)
      | expected w => rw [h1] at h; simp at h
      | invalidPattern p => rw [h1] at h; simp at h
      | keyErr k => rw [h1] at h; simp at h
      | trailingInput tr => rw [h1] at h; simp at h
    · rw [h1] at h; simp at h

/-- C10: the invalid-operator error branch of the `infix` fold is
unreachable for every token sequence produced by the expression grammar:
every tier-2 operator token the grammar matches lowercases to a key of
`INFIX_OPS` (`'and'` or `'or'`), so the fold always succeeds in selecting a
combinator, and neither the expression parser (at any fuel and input) nor
the top-level `where` parse can ever return the `Invalid op` error. -/
theorem c10_infix_ops_total :
    (∀ (i : Inp) (t : String) (k : Inp),
      kwAndOr i = some (t, k) → INFIX_OPS (strLower t) ≠ none) ∧
    (∀ (n : Nat) (i : Inp) (o : String), EXPRESSION n i ≠ .error (.invalidOp o)) ∧
    (∀ (s : String) (o : String), whereParse s ≠ .error (.invalidOp o)) := by
  refine ⟨?_, fun n i o => EXPRESSION_noInv n i o, ?_⟩
  · intro i t k h
    rcases kwAndOr_tok i t k h with ht | ht <;> subst ht <;> simp [INFIX_OPS, strLower]
  · intro s o h
    unfold whereParse at h
    rcases h1 : EXPRESSION (s.length + 1) ⟨' ', s.toList⟩ with e | ⟨t, i1⟩ <;>
      simp only [h1] at h
    · have he : e = .invalidOp o := by simpa using h
      exact EXPRESSION_noInv (s.length + 1) ⟨' ', s.toList⟩ o (he ▸ h1)
    · by_cases hre : (dropWs i1).rest.isEmpty <;> simp [hre] at h

/-- Witness for C10: the tier-2 token parser matches `and` on a concrete
input and its token's lowercasing is a key of `INFIX_OPS`. -/
theorem c10_infix_ops_total_witness : INFIX_OPS (strLower "and") ≠ none :=
  c10_infix_ops_total.1 ⟨' ', "and b".toList⟩ "and" ⟨'d', [' ', 'b']⟩ rfl

/-! ## Round-trip infrastructure (C1)

Basic lemmas about whitespace skipping and token matching on appended
inputs. -/

/-- Printable ASCII. -/
def printable (c : Char) : Bool := 32 ≤ c.toNat && c.toNat ≤ 126

/-- The head of `x` (if any) fails `P`. -/
def headFails (P : Char → Bool) : Chars → Prop
  | [] => True
  | c :: _ => P c = false

theorem getLastD_q_cons (c p : Char) (cs : Chars) :
    (c :: cs).getLast?.getD p = cs.getLast?.getD c := by
  cases cs with
  | nil => rfl
  | cons d ds =>
    rw [List.getLast?_cons_cons]
    cases hx : (d :: ds).getLast? with
    | none => simp at hx
    | some x => rfl

theorem getLastD_cons_eq (c p : Char) (cs : Chars) :
    (c :: cs).getLastD p = cs.getLastD c := by
  simp only [List.getLastD_eq_getLast?]
  exact getLastD_q_cons c p cs

theorem takeWhile_append_stop {P : Char → Bool} {l₁ : Chars} (l₂ : Chars)
    (h₁ : l₁.all P = true) (h₂ : headFails P l₂) :
    (l₁ ++ l₂).takeWhile P = l₁ ∧ (l₁ ++ l₂).dropWhile P = l₂ := by
  induction l₁ with
  | nil =>
    cases l₂ with
    | nil => simp
    | cons c cs => simp [headFails] at h₂; simp [List.takeWhile_cons, h₂]
  | cons c cs ih =>
    simp only [List.all_cons, Bool.and_eq_true] at h₁
    have := ih h₁.2
    simp [List.takeWhile_cons, List.dropWhile_cons, h₁.1, this.1, this.2]

theorem dropWsAux_ws_append {w : Chars} (hw : w.all wsChar = true)
    (p : Char) (x : Chars) :
    dropWsAux p (w ++ x) = dropWsAux (w.getLastD p) x := by
  induction w generalizing p with
  | nil => simp
  | cons c w' ih =>
    simp only [List.all_cons, Bool.and_eq_true] at hw
    simp [dropWsAux, hw.1, ih hw.2, getLastD_q_cons]

theorem dropWsAux_stop {x : Chars} (hx : headFails wsChar x) (p : Char) :
    dropWsAux p x = ⟨p, x⟩ := by
  cases x with
  | nil => rfl
  | cons c cs => simp [headFails] at hx; simp [dropWsAux, hx]

/-- Skipping whitespace over a whitespace block followed by a non-whitespace
head: lands exactly at the head, with `prev` the last whitespace character
(or `p`). -/
theorem dropWs_at {w x : Chars} (hw : w.all wsChar = true)
    (hx : headFails wsChar x) (p : Char) :
    dropWs ⟨p, w ++ x⟩ = ⟨w.getLastD p, x⟩ := by
  unfold dropWs
  rw [dropWsAux_ws_append hw, dropWsAux_stop hx]

theorem matchCharsAux_self (lit : Chars) :
    ∀ (p : Char) (rest : Chars),
      matchCharsAux lit p (lit ++ rest) = some ⟨lit.getLastD p, rest⟩ := by
  induction lit with
  | nil => intro p rest; rfl
  | cons c cs ih =>
    intro p rest
    simp [matchCharsAux, ih c rest, getLastD_q_cons]

/-- A literal matches itself after leading whitespace. -/
theorem matchLit_at (lit w rest : Chars) (p : Char)
    (hw : w.all wsChar = true) (hl : headFails wsChar lit) (hne : lit ≠ []) :
    matchLit lit ⟨p, w ++ (lit ++ rest)⟩ =
      some ⟨lit.getLastD (w.getLastD p), rest⟩ := by
  unfold matchLit
  rw [dropWs_at hw (by cases lit with | nil => exact absurd rfl hne | cons c cs => exact hl)]
  exact matchCharsAux_self lit (w.getLastD p) rest

/-- A literal match fails when the post-whitespace head differs. -/
theorem matchLit_fail (l : Char) (ls : Chars) {w x : Chars} (p : Char)
    (hw : w.all wsChar = true) (hx : headFails wsChar x)
    (hd : match x with | [] => True | c :: _ => (c = l) = False) :
    matchLit (l :: ls) ⟨p, w ++ x⟩ = none := by
  unfold matchLit
  rw [dropWs_at hw hx]
  cases x with
  | nil => rfl
  | cons c cs => simp at hd; simp [matchCharsAux, hd]

/-- Caseless pairing of a matched slice with a keyword. -/
def caselessList : Chars → Chars → Prop
  | [], [] => True
  | c :: cs, k :: ks => caselessEq c k = true ∧ caselessList cs ks
  | _, _ => False

theorem matchCaselessAux_self {t kw : Chars} (h : caselessList t kw) :
    ∀ (p : Char) (rest : Chars),
      matchCaselessAux kw p (t ++ rest) = some ⟨t.getLastD p, rest⟩ := by
  induction t generalizing kw with
  | nil =>
    cases kw with
    | nil => intro p rest; rfl
    | cons k ks => exact absurd h (by simp [caselessList])
  | cons c cs ih =>
    cases kw with
    | nil => exact absurd h (by simp [caselessList])
    | cons k ks =>
      intro p rest
      obtain ⟨h1, h2⟩ := h
      simp [matchCaselessAux, h1, ih h2, getLastD_q_cons]

theorem caselessList_length {t kw : Chars} (h : caselessList t kw) :
    t.length = kw.length := by
  induction t generalizing kw with
  | nil => cases kw with
    | nil => rfl
    | cons k ks => exact absurd h (by simp [caselessList])
  | cons c cs ih =>
    cases kw with
    | nil => exact absurd h (by simp [caselessList])
    | cons k ks => simpa using ih h.2

/-- A caseless keyword matches a caseless spelling of itself, provided the
preceding character is not an identifier character and the following
character (if any) is not an identifier character. -/
theorem wsChar_not_identChar {c : Char} (h : wsChar c = true) :
    identChar c = false := by
  have : (c = ' ' ∨ c = '\n') ∨ c = '\t' := by simpa [wsChar] using h
  rcases this with (rfl | rfl) | rfl <;> decide

theorem all_getLastD {P : Char → Bool} :
    ∀ {w : Chars}, w.all P = true → ∀ p : Char, w ≠ [] → P (w.getLastD p) = true := by
  intro w
  induction w with
  | nil => intro _ p h; exact absurd rfl h
  | cons c w' ih =>
    intro hall p _
    simp only [List.all_cons, Bool.and_eq_true] at hall
    rw [getLastD_cons_eq]
    cases w' with
    | nil => simpa using hall.1
    | cons d w'' => exact ih hall.2 c (by simp)

theorem ws_getLastD_not_ident {w : Chars} (hw : w.all wsChar = true) {p : Char}
    (hp : w = [] → identChar p = false) : identChar (w.getLastD p) = false := by
  cases hwe : w with
  | nil => simpa using hp hwe
  | cons c cs =>
    exact wsChar_not_identChar (all_getLastD (hwe ▸ hw) p (by simp))

/-- A caseless keyword matches a caseless spelling of itself, provided the
preceding character is not an identifier character and the following
character (if any) is not an identifier character. -/
theorem matchKw_at (kw t w rest : Chars) (p : Char)
    (hw : w.all wsChar = true) (ht : caselessList t kw) (hne : t ≠ [])
    (hts : headFails wsChar t)
    (hprev : w = [] → identChar p = false)
    (hafter : headFails identChar rest) :
    matchKw kw ⟨p, w ++ (t ++ rest)⟩ = some ⟨t.getLastD (w.getLastD p), rest⟩ := by
  unfold matchKw
  rw [dropWs_at hw
    (by cases t with | nil => exact absurd rfl hne | cons c cs => exact hts)]
  have hpc : identChar (w.getLastD p) = false := ws_getLastD_not_ident hw hprev
  simp only [hpc, Bool.false_eq_true, if_false, matchCaselessAux_self ht]
  cases rest with
  | nil => rfl
  | cons c cs =>
    have hc : identChar c = false := hafter
    simp [hc]

/-! ### Integer literals round-trip -/

theorem digitsToNat_append (l : Chars) (d : Char) :
    digitsToNat (l ++ [d]) = 10 * digitsToNat l + (d.toNat - 48) := by
  unfold digitsToNat
  rw [List.foldl_append]
  rfl

theorem digitChar_spec {m : Nat} (hm : m < 10) :
    (digitChar m).isDigit = true ∧ (digitChar m).toNat - 48 = m := by
  interval_cases m <;> exact ⟨rfl, rfl⟩

theorem natRenderF_spec : ∀ f m : Nat, m < f →
    (natRenderF f m).all (fun c => c.isDigit) = true ∧
    natRenderF f m ≠ [] ∧
    digitsToNat (natRenderF f m) = m := by
  intro f
  induction f with
  | zero => intro m hm; omega
  | succ f' ih =>
    intro m hm
    by_cases h10 : m < 10
    · refine ⟨?_, by simp [natRenderF, h10], ?_⟩
      · simp [natRenderF, h10, (digitChar_spec h10).1]
      · simp [natRenderF, h10, digitsToNat]
        have := (digitChar_spec h10).2
        omega
    · have hdiv : m / 10 < m := Nat.div_lt_self (by omega) (by omega)
      have hrec := ih (m / 10) (by omega)
      refine ⟨?_, by simp [natRenderF, h10], ?_⟩
      · simp only [natRenderF, h10, if_false, List.all_append, Bool.and_eq_true]
        refine ⟨hrec.1, ?_⟩
        simp [(digitChar_spec (Nat.mod_lt m (by omega))).1]
      · simp only [natRenderF, h10, if_false]
        rw [digitsToNat_append, hrec.2.2, (digitChar_spec (Nat.mod_lt m (by omega))).2]
        omega

theorem natRender_spec (m : Nat) :
    (natRender m).all (fun c => c.isDigit) = true ∧
    natRender m ≠ [] ∧
    digitsToNat (natRender m) = m :=
  natRenderF_spec (m + 1) m (by omega)

/-! ### String literals round-trip -/

theorem escBody_append (q : Char) (s t : Chars) :
    escBody q (s ++ t) = escBody q s ++ escBody q t := by
  induction s with
  | nil => rfl
  | cons c cs ih => simp [escBody, ih]

/-- For a printable character, `escChar` yields either the character itself
(when it is neither the backslash nor the quote) or a two-character escape. -/
theorem escChar_printable {q c : Char} (hc : printable c = true) :
    (c ≠ bs ∧ c ≠ q ∧ escChar q c = [c]) ∨
    (c = bs ∧ escChar q c = [bs, bs]) ∨
    (c = q ∧ c ≠ bs ∧ escChar q c = [bs, q]) := by
  have h32 : 32 ≤ c.toNat ∧ c.toNat ≤ 126 := by
    simpa [printable, Bool.and_eq_true] using hc
  by_cases hbs : c = bs
  · exact Or.inr (Or.inl ⟨hbs, by simp [escChar, hbs]⟩)
  · by_cases hq : c = q
    · refine Or.inr (Or.inr ⟨hq, hbs, ?_⟩)
      simp [escChar, hq, hbs]
      intro hqbs
      exact absurd (hq.trans hqbs) hbs
    · refine Or.inl ⟨hbs, hq, ?_⟩
      have hn : c ≠ '\n' := by
        intro h; rw [h] at h32; simp at h32
      have ht : c ≠ '\t' := by
        intro h; rw [h] at h32; simp at h32
      have hr : c ≠ cr := by
        intro h; rw [h] at h32; revert h32; decide
      have hx : (c.toNat < 32 || 127 ≤ c.toNat) = false := by
        simp only [Bool.or_eq_false_iff, decide_eq_false_iff_not, Nat.not_lt,
          Nat.not_le]
        omega
      simp [escChar, hbs, hq, hn, ht, hr, hx]

/-- One-step unfolding of `quotedBody` on a cons cell. -/
theorem quotedBody_cons (q c : Char) (cs : Chars) :
    quotedBody q (c :: cs) =
      (if c = q then some ([], ⟨c, cs⟩)
       else if c = bs then
         match cs with
         | [] => none
         | d :: ds =>
           if d = '\n' || d = cr then none
           else
             match quotedBody q ds with
             | some (b, k) => some (c :: d :: b, k)
             | none => none
       else if c = '\n' || c = cr then none
       else
         match quotedBody q cs with
         | some (b, k) => some (c :: b, k)
         | none => none) := by
  cases cs <;> rfl

/-- One-step unfolding of `unescape` on a cons cell. -/
theorem unescape_cons (c : Char) (cs : Chars) :
    unescape (c :: cs) =
      (if c = bs then
        match cs with
        | [] => [c]
        | d :: ds =>
          if d = bs then bs :: unescape ds
          else if d = sq then sq :: unescape ds
          else if d = dq then dq :: unescape ds
          else if d = 'n' then '\n' :: unescape ds
          else if d = 't' then '\t' :: unescape ds
          else if d = 'r' then cr :: unescape ds
          else c :: d :: unescape ds
      else c :: unescape cs) := by
  cases cs <;> rfl

theorem quotedBody_escBody {q : Char} (hq : q = sq ∨ q = dq) :
    ∀ s : Chars, s.all printable = true → ∀ rest : Chars,
      quotedBody q (escBody q s ++ (q :: rest)) = some (escBody q s, ⟨q, rest⟩) := by
  have hbsq : bs ≠ q := by rcases hq with rfl | rfl <;> decide
  have hqn : (q = '\n' || q = cr) = false := by rcases hq with rfl | rfl <;> decide
  intro s
  induction s with
  | nil =>
    intro _ rest
    show quotedBody q (([] : Chars) ++ (q :: rest)) = some ([], ⟨q, rest⟩)
    rw [List.nil_append, quotedBody_cons, if_pos rfl]
  | cons c cs ih =>
    intro hall rest
    simp only [List.all_cons, Bool.and_eq_true] at hall
    have hrec := ih hall.2 rest
    rcases escChar_printable (q := q) hall.1 with ⟨hbs, hqc, he⟩ | ⟨hbs, he⟩ | ⟨hqc, hbs, he⟩
    · have hn : c ≠ '\n' := by
        intro h
        have hp := hall.1
        rw [h] at hp
        exact absurd hp (by decide)
      have hcr : c ≠ cr := by
        intro h
        have hp := hall.1
        rw [h] at hp
        exact absurd hp (by decide)
      have hnb : (c = '\n' || c = cr) = false := by simp [hn, hcr]
      simp only [escBody, he, List.cons_append, List.nil_append,
        List.append_assoc]
      rw [quotedBody_cons, if_neg hqc, if_neg hbs, hnb]
      simp only [Bool.false_eq_true, if_false]
      rw [hrec]
    · have hnb : (bs = '\n' || bs = cr) = false := by decide
      subst hbs
      simp only [escBody, he, List.cons_append, List.nil_append,
        List.append_assoc]
      rw [quotedBody_cons, if_neg hbsq, if_pos rfl]
      simp only [hnb, Bool.false_eq_true, if_false]
      rw [hrec]
    · simp only [escBody, he, List.cons_append, List.nil_append,
        List.append_assoc]
      rw [quotedBody_cons, if_neg hbsq, if_pos rfl]
      simp only [hqn, Bool.false_eq_true, if_false]
      rw [hrec]

theorem unescape_escBody {q : Char} (hq : q = sq ∨ q = dq) :
    ∀ s : Chars, s.all printable = true → unescape (escBody q s) = s := by
  intro s
  induction s with
  | nil => intro _; rfl
  | cons c cs ih =>
    intro hall
    simp only [List.all_cons, Bool.and_eq_true] at hall
    have hrec := ih hall.2
    rcases escChar_printable (q := q) hall.1 with ⟨hbs, hqc, he⟩ | ⟨hbs, he⟩ | ⟨hqc, hbs, he⟩
    · simp only [escBody, he, List.cons_append, List.nil_append]
      rw [unescape_cons, if_neg hbs, hrec]
    · subst hbs
      simp only [escBody, he, List.cons_append, List.nil_append]
      rw [unescape_cons, if_pos rfl]
      simp [hrec]
    · simp only [escBody, he, List.cons_append, List.nil_append]
      rw [unescape_cons, if_pos rfl]
      rcases hq with h | h <;> rw [h] at hrec ⊢ <;>
        simp [hrec, hqc, h, show sq ≠ bs from by decide,
          show dq ≠ bs from by decide, show dq ≠ sq from by decide]

/-- The quote character `reprStr` chooses. -/
def reprQuote (s : Chars) : Char :=
  if s.contains sq && !(s.contains dq) then dq else sq

theorem reprStr_eq (s : Chars) :
    reprStr s = reprQuote s :: escBody (reprQuote s) s ++ [reprQuote s] := by
  unfold reprStr reprQuote
  split_ifs <;> rfl

theorem reprQuote_cases (s : Chars) : reprQuote s = sq ∨ reprQuote s = dq := by
  unfold reprQuote
  split_ifs <;> simp

theorem matchQuotedRaw_repr {s : Chars} (hall : s.all printable = true)
    (w rest : Chars) (p : Char) (hw : w.all wsChar = true) :
    matchQuotedRaw (reprQuote s) ⟨p, w ++ (reprStr s ++ rest)⟩ =
      some (reprStr s, ⟨reprQuote s, rest⟩) := by
  have hq := reprQuote_cases s
  rw [reprStr_eq]
  unfold matchQuotedRaw
  have hnws : headFails wsChar (reprQuote s :: (escBody (reprQuote s) s ++ [reprQuote s]) ++ rest) := by
    show wsChar (reprQuote s) = false
    rcases hq with h | h <;> rw [h] <;> decide
  rw [show (reprQuote s :: escBody (reprQuote s) s ++ [reprQuote s]) ++ rest =
      reprQuote s :: (escBody (reprQuote s) s ++ (reprQuote s :: rest)) by simp]
  rw [dropWs_at hw (by show wsChar (reprQuote s) = false; rcases hq with h | h <;> rw [h] <;> decide)]
  simp only [if_pos rfl]
  rw [quotedBody_escBody hq s hall rest]
  simp

theorem literalEval_repr {s : Chars} (hall : s.all printable = true) :
    literalEval (reprStr s) = .str s := by
  have hq := reprQuote_cases s
  rw [reprStr_eq]
  unfold literalEval
  have hqq : (reprQuote s = sq || reprQuote s = dq) = true := by
    rcases hq with h | h <;> simp [h]
  simp only [List.cons_append, hqq, if_pos]
  rw [List.drop_one]
  simp only [List.tail_cons]
  rw [List.dropLast_concat]
  rw [unescape_escBody hq s hall]

/-! ### Token-level parse lemmas -/

/-- Characters that may legitimately follow a completed token in a rendered
expression: whitespace, a list comma, a closing square bracket or a closing
parenthesis. -/
def stopChar (c : Char) : Bool :=
  c = ' ' || c = '\n' || c = ',' || c = ']' || c = ')'

/-- The trailing input after a token starts with a stop character (or is
empty). -/
def RestStop : Chars → Prop
  | [] => True
  | c :: _ => stopChar c = true

theorem stopChar_facts {c : Char} (h : stopChar c = true) :
    identChar c = false ∧ c.isAlphanum = false ∧ c.isAlpha = false ∧
    c.isDigit = false ∧ c ≠ '.' ∧ c ≠ '=' ∧ c ≠ '>' ∧ c ≠ sq ∧ c ≠ dq ∧
    c ≠ '[' ∧ c ≠ '-' := by
  have hc : (((c = ' ' ∨ c = '\n') ∨ c = ',') ∨ c = ']') ∨ c = ')' := by
    simpa [stopChar] using h
  rcases hc with (((rfl | rfl) | rfl) | rfl) | rfl <;> decide

theorem getLastD_default_irrel {n : Chars} (h : n ≠ []) (p q : Char) :
    n.getLastD p = n.getLastD q := by
  cases n with
  | nil => exact absurd rfl h
  | cons c cs => rw [getLastD_cons_eq c p cs, getLastD_cons_eq c q cs]

/-- The last character of a (nonempty) token, used as the `prev` character of
the parser state after the token is consumed. -/
def lastD (n : Chars) : Char := n.getLastD ' '

theorem digit_not_ws {c : Char} (h : c.isDigit = true) : wsChar c = false := by
  cases hw : wsChar c
  · rfl
  · exfalso
    have hc : (c = ' ' ∨ c = '\n') ∨ c = '\t' := by simpa [wsChar] using hw
    rcases hc with (rfl | rfl) | rfl <;> exact absurd h (by decide)

theorem alpha_facts {c : Char} (h : c.isAlpha = true) :
    wsChar c = false ∧ c ≠ sq ∧ c ≠ dq ∧ c ≠ '-' ∧ c ≠ '.' ∧
    c.isDigit = false ∧ c.isAlphanum = true := by
  have hc : c.isUpper = true ∨ c.isLower = true := by
    simpa [Char.isAlpha, Bool.or_eq_true] using h
  have hrange : (65 ≤ c.toNat ∧ c.toNat ≤ 90) ∨ (97 ≤ c.toNat ∧ c.toNat ≤ 122) := by
    rcases hc with h' | h'
    · exact Or.inl (by simpa [Char.isUpper, Bool.and_eq_true] using h')
    · exact Or.inr (by simpa [Char.isLower, Bool.and_eq_true] using h')
  refine ⟨?_, ?_, ?_, ?_, ?_, ?_, ?_⟩
  · have h1 : c ≠ ' ' := fun hx => by rw [hx] at hrange; revert hrange; decide
    have h2 : c ≠ '\n' := fun hx => by rw [hx] at hrange; revert hrange; decide
    have h3 : c ≠ '\t' := fun hx => by rw [hx] at hrange; revert hrange; decide
    simp [wsChar, h1, h2, h3]
  · exact fun hx => by rw [hx] at hrange; revert hrange; decide
  · exact fun hx => by rw [hx] at hrange; revert hrange; decide
  · exact fun hx => by rw [hx] at hrange; revert hrange; decide
  · exact fun hx => by rw [hx] at hrange; revert hrange; decide
  · cases hd : c.isDigit
    · rfl
    · exfalso
      have : 48 ≤ c.toNat ∧ c.toNat ≤ 57 := by
        simpa [Char.isDigit, Bool.and_eq_true] using hd
      omega
  · simp [Char.isAlphanum, h]

theorem matchWord_at {n : Chars} {c0 : Char} {cs0 : Chars} (hshape : n = c0 :: cs0)
    (hα : c0.isAlpha = true) (hbody : cs0.all (fun d => d.isAlphanum) = true)
    (w rest : Chars) (p : Char)
    (hw : w.all wsChar = true) (hr : RestStop rest) :
    matchWord ⟨p, w ++ (n ++ rest)⟩ = some (n, ⟨lastD n, rest⟩) := by
  subst hshape
  unfold matchWord
  rw [List.cons_append, dropWs_at hw
    (show headFails wsChar (c0 :: (cs0 ++ rest)) from (alpha_facts hα).1)]
  have hstop : headFails (fun d => d.isAlphanum) rest := by
    cases rest with
    | nil => trivial
    | cons r rs => exact (stopChar_facts hr).2.1
  have htk := takeWhile_append_stop (P := fun d => d.isAlphanum) rest hbody hstop
  simp only [hα, if_pos, htk.1, htk.2]
  have hlast : (c0 :: cs0).getLastD c0 = lastD (c0 :: cs0) :=
    getLastD_default_irrel (by simp) c0 ' '
  rw [hlast]

theorem matchWord_fail {x : Chars} (w : Chars) (p : Char)
    (hw : w.all wsChar = true) (hx : headFails wsChar x)
    (hh : match x with | [] => True | c :: _ => c.isAlpha = false) :
    matchWord ⟨p, w ++ x⟩ = none := by
  unfold matchWord
  rw [dropWs_at hw hx]
  cases x with
  | nil => rfl
  | cons c cs => simp [hh]

theorem printable_not_nl {c : Char} (h : printable c = true) :
    (c = '\n' || c = cr) = false := by
  simp only [printable, Bool.and_eq_true, decide_eq_true_eq] at h
  simp only [Bool.or_eq_false_iff, decide_eq_false_iff_not]
  constructor
  · intro hx; rw [hx] at h; exact absurd h.1 (by decide)
  · intro hx; rw [hx] at h; exact absurd h.1 (by decide)

theorem bracketBody_at {n : Chars}
    (hn : n.all (fun c => printable c && !(c = ']')) = true) (rest : Chars) :
    bracketBody (n ++ ']' :: rest) = some (n, ⟨']', rest⟩) := by
  induction n with
  | nil => simp [bracketBody]
  | cons c cs ih =>
    simp only [List.all_cons, Bool.and_eq_true, Bool.not_eq_true',
      decide_eq_false_iff_not] at hn
    have hne : ¬(c = ']') := hn.1.2
    have hnl : (c = '\n' || c = cr) = false := printable_not_nl hn.1.1
    rw [List.cons_append, bracketBody]
    simp only [if_neg hne, hnl, Bool.false_eq_true, if_false]
    rw [ih (by simpa using hn.2)]

theorem matchBracketId_at {n : Chars}
    (hn : n.all (fun c => printable c && !(c = ']')) = true)
    (w rest : Chars) (p : Char) (hw : w.all wsChar = true) :
    matchBracketId ⟨p, w ++ ('[' :: n ++ ']' :: rest)⟩ = some (n, ⟨']', rest⟩) := by
  unfold matchBracketId
  rw [List.cons_append, dropWs_at hw
    (show headFails wsChar ('[' :: (n ++ ']' :: rest)) from
      (by decide : wsChar '[' = false))]
  simp only [if_pos rfl]
  exact bracketBody_at hn rest

/-! ### Well-formed trees: the domain of the amended round-trip claim -/

/-- A bare column name: a letter followed by alphanumerics (`Word(alphas,
alphanums)`), and not caselessly equal to the keyword `not` (a bare
`not` column name does not survive the round trip in every position, e.g.
to the left of `NOT IN`). -/
def bareOk (n : Chars) : Bool :=
  (match n with
   | c :: cs => c.isAlpha && cs.all (fun d => d.isAlphanum)
   | [] => false) &&
  !(n.map Char.toLower == "not".toList)

/-- A bracket-quoted column name: contains a space (so the formatter brackets
it), all printable, no closing bracket. -/
def brOk (n : Chars) : Bool :=
  n.contains ' ' && n.all (fun c => printable c && !(c = ']'))

def nameOk (n : Chars) : Bool := bareOk n || brOk n

/-- Constant values the round-trip claim quantifies over: integers within the
Python 2 machine-int range (so `repr` appends no `L` suffix) and printable
strings.  Floats are excluded: Python's shortest float repr (`repr(1e20) =
'1e+20'`) is not generally reparseable by `FLOAT_CONSTANT`. -/
def valOk : Val → Bool
  | .int n => n.natAbs < 2 ^ 63
  | .str s => s.all printable
  | _ => false

/-- Rendered form of a column name (`_format`'s `Column` branch). -/
def colRender (n : Chars) : Chars :=
  if n.contains ' ' then '[' :: n ++ [']'] else n

/-- Last character of a rendered column name. -/
def colLast (n : Chars) : Char := if n.contains ' ' then ']' else lastD n

theorem contains_false {l : Chars} {a : Char} (h : ∀ c ∈ l, c ≠ a) :
    l.contains a = false := by
  induction l with
  | nil => rfl
  | cons c cs ih =>
    have h1 : (a == c) = false :=
      beq_eq_false_iff_ne.mpr (fun hx => h c (by simp) hx.symm)
    show ((a == c) || List.elem a cs) = false
    rw [h1, Bool.false_or]
    exact ih (fun d hd => h d (by simp [hd]))

theorem alphanum_ne {c : Char} (h : c.isAlphanum = true) : c ≠ ' ' := by
  intro hx
  rw [hx] at h
  exact absurd h (by decide)

theorem bareOk_not_space {n : Chars} (h : bareOk n = true) :
    n.contains ' ' = false := by
  simp only [bareOk, Bool.and_eq_true] at h
  cases n with
  | nil => rfl
  | cons c cs =>
    have hc := h.1
    simp only [Bool.and_eq_true] at hc
    refine contains_false ?_
    intro d hd
    rcases List.mem_cons.mp hd with rfl | hd'
    · exact alphanum_ne (alpha_facts hc.1).2.2.2.2.2.2
    · exact alphanum_ne (by
        have := hc.2
        rw [List.all_eq_true] at this
        exact this d hd')

theorem identifier_at {n : Chars} (hn : nameOk n = true)
    (w rest : Chars) (p : Char) (hw : w.all wsChar = true) (hr : RestStop rest) :
    identifier ⟨p, w ++ (colRender n ++ rest)⟩ =
      some (.column n, ⟨colLast n, rest⟩) := by
  unfold identifier
  have hn' : bareOk n = true ∨ brOk n = true := by simpa [nameOk] using hn
  rcases hn' with hb | hbr
  · have hsp := bareOk_not_space hb
    have hcr : colRender n = n := by unfold colRender; rw [hsp]; rfl
    have hcl : colLast n = lastD n := by unfold colLast; rw [hsp]; rfl
    simp only [bareOk, Bool.and_eq_true] at hb
    cases n with
    | nil => exact absurd hb.1 (by decide)
    | cons c cs =>
      have hc : (c.isAlpha && cs.all (fun d => d.isAlphanum)) = true := hb.1
      simp only [Bool.and_eq_true] at hc
      rw [hcr, matchWord_at rfl hc.1 hc.2 w rest p hw hr, hcl]
  · simp only [brOk, Bool.and_eq_true] at hbr
    have hcr : colRender n = '[' :: n ++ [']'] := by
      unfold colRender; rw [hbr.1]; rfl
    have hcl : colLast n = ']' := by unfold colLast; rw [hbr.1]; rfl
    rw [hcr]
    have hx : (('[' :: n ++ [']']) ++ rest) = '[' :: (n ++ ']' :: rest) := by
      simp
    rw [hx]
    rw [matchWord_fail w p hw
      (show headFails wsChar ('[' :: (n ++ ']' :: rest)) from
        (by decide : wsChar '[' = false))
      (by exact (by decide : ('[').isAlpha = false))]
    have hx2 : ('[' :: (n ++ ']' :: rest)) = '[' :: n ++ ']' :: rest := by simp
    rw [hx2, matchBracketId_at hbr.2 w rest p hw, hcl]

theorem matchQuotedRaw_fail (q : Char) {h : Char} {t : Chars} (w : Chars)
    (p : Char) (hw : w.all wsChar = true) (hpw : wsChar h = false)
    (hh : h ≠ q) :
    matchQuotedRaw q ⟨p, w ++ (h :: t)⟩ = none := by
  unfold matchQuotedRaw
  rw [dropWs_at hw (show headFails wsChar (h :: t) from hpw)]
  simp [hh]

theorem matchFloatRaw_fail_head {c : Char} {cs : Chars}
    (h1 : c ≠ '-') (h2 : c.isDigit = false) (h3 : c ≠ '.') :
    matchFloatRaw (c :: cs) = none := by
  simp only [matchFloatRaw]
  rw [if_neg h1]
  unfold matchFloatCore
  simp only [List.takeWhile_cons, h2, Bool.false_eq_true, if_false,
    List.dropWhile_cons]
  simp [h3]

theorem matchIntTok_fail (w : Chars) (p : Char) {c : Char} {cs : Chars}
    (hw : w.all wsChar = true) (hpw : wsChar c = false)
    (h1 : c ≠ '-') (h2 : c.isDigit = false) :
    matchIntTok ⟨p, w ++ (c :: cs)⟩ = none := by
  unfold matchIntTok
  rw [dropWs_at hw (show headFails wsChar (c :: cs) from hpw)]
  simp only [if_neg h1, List.takeWhile_cons, h2, Bool.false_eq_true,
    if_false]
  simp

theorem matchFloatTok_fail (w : Chars) (p : Char) {c : Char} {cs : Chars}
    (hw : w.all wsChar = true) (hpw : wsChar c = false)
    (h1 : c ≠ '-') (h2 : c.isDigit = false) (h3 : c ≠ '.') :
    matchFloatTok ⟨p, w ++ (c :: cs)⟩ = none := by
  unfold matchFloatTok
  rw [dropWs_at hw (show headFails wsChar (c :: cs) from hpw)]
  exact matchFloatRaw_fail_head h1 h2 h3

theorem digits_ne_head {d : Char} (hd : d.isDigit = true) :
    d ≠ '-' ∧ d ≠ sq ∧ d ≠ dq ∧ d ≠ '.' ∧ d.isAlpha = false := by
  refine ⟨?_, ?_, ?_, ?_, ?_⟩
  · exact fun hx => absurd (hx ▸ hd) (by decide)
  · exact fun hx => absurd (hx ▸ hd) (by decide)
  · exact fun hx => absurd (hx ▸ hd) (by decide)
  · exact fun hx => absurd (hx ▸ hd) (by decide)
  · cases hα : d.isAlpha
    · rfl
    · exfalso
      have h1 : 48 ≤ d.toNat ∧ d.toNat ≤ 57 := by
        simpa [Char.isDigit, Bool.and_eq_true] using hd
      have h2 := (alpha_facts hα).2.2.2.2.2.1
      rw [hd] at h2
      exact absurd h2 (by decide)

/-- `INT_CONSTANT` matches a rendered nonnegative integer literal. -/
theorem matchIntTok_digits (m : Nat) (w rest : Chars) (p : Char)
    (hw : w.all wsChar = true) (hr : RestStop rest) :
    matchIntTok ⟨p, w ++ (natRender m ++ rest)⟩ =
      some (natRender m, ⟨lastD (natRender m), rest⟩) := by
  obtain ⟨hall, hne, _⟩ := natRender_spec m
  obtain ⟨d, ds, hds⟩ : ∃ d ds, natRender m = d :: ds := by
    cases hnr : natRender m with
    | nil => exact absurd hnr hne
    | cons d ds => exact ⟨d, ds, rfl⟩
  have hdd : d.isDigit = true := by
    rw [hds, List.all_cons, Bool.and_eq_true] at hall
    exact hall.1
  have hstop : headFails (fun c => c.isDigit) rest := by
    cases rest with
    | nil => trivial
    | cons r rs => exact (stopChar_facts hr).2.2.2.1
  have htk := takeWhile_append_stop (P := fun c => c.isDigit) rest
    (hds ▸ hall) hstop
  unfold matchIntTok
  rw [hds, List.cons_append,
    dropWs_at hw (show headFails wsChar (d :: (ds ++ rest)) from digit_not_ws hdd)]
  have hdneg : ¬(d = '-') := (digits_ne_head hdd).1
  have hlast : (d :: ds).getLast?.getD '0' = lastD (d :: ds) := by
    rw [← List.getLastD_eq_getLast?]
    exact getLastD_default_irrel (by simp) '0' ' '
  cases rest with
  | nil =>
    have h1 : List.takeWhile (fun c => c.isDigit) (d :: ds) = d :: ds := by
      simpa using htk.1
    have h2 : List.dropWhile (fun c => c.isDigit) (d :: ds) = [] := by
      simpa using htk.2
    simp [hdneg, h1, h2, hlast]
  | cons r rs =>
    have hrd : ¬(r = '.') := (stopChar_facts hr).2.2.2.2.1
    have h1 : List.takeWhile (fun c => c.isDigit) (d :: (ds ++ r :: rs)) =
        d :: ds := by simpa using htk.1
    have h2 : List.dropWhile (fun c => c.isDigit) (d :: (ds ++ r :: rs)) =
        r :: rs := by simpa using htk.2
    simp [hdneg, h1, h2, hrd, hlast]

/-- `INT_CONSTANT` matches a rendered integer literal. -/
theorem matchIntTok_at (n : Int) (w rest : Chars) (p : Char)
    (hw : w.all wsChar = true) (hr : RestStop rest) :
    matchIntTok ⟨p, w ++ (intRender n ++ rest)⟩ =
      some (intRender n, ⟨lastD (intRender n), rest⟩) := by
  by_cases hneg : n < 0
  · have hir : intRender n = '-' :: natRender n.natAbs := by
      unfold intRender; rw [if_pos hneg]
    obtain ⟨hall, hne, _⟩ := natRender_spec n.natAbs
    have hstop : headFails (fun c => c.isDigit) rest := by
      cases rest with
      | nil => trivial
      | cons r rs => exact (stopChar_facts hr).2.2.2.1
    have htk := takeWhile_append_stop (P := fun c => c.isDigit) rest hall hstop
    unfold matchIntTok
    rw [hir, List.cons_append,
      dropWs_at hw (show headFails wsChar ('-' :: (natRender n.natAbs ++ rest))
        from (by decide : wsChar '-' = false))]
    have hnee : (natRender n.natAbs).isEmpty = false := by
      cases hnr : natRender n.natAbs with
      | nil => exact absurd hnr hne
      | cons d ds => rfl
    have hlast : (natRender n.natAbs).getLast?.getD '0' =
        lastD ('-' :: natRender n.natAbs) := by
      rw [← List.getLastD_eq_getLast?]
      unfold lastD
      rw [getLastD_cons_eq '-' ' ' (natRender n.natAbs)]
      exact getLastD_default_irrel hne '0' '-'
    cases rest with
    | nil =>
      have h1 : List.takeWhile (fun c => c.isDigit) (natRender n.natAbs) =
          natRender n.natAbs := by simpa using htk.1
      have h2 : List.dropWhile (fun c => c.isDigit) (natRender n.natAbs) =
          [] := by simpa using htk.2
      simp [h1, h2, hnee, hlast]
    | cons r rs =>
      have hrd : ¬(r = '.') := (stopChar_facts hr).2.2.2.2.1
      simp [htk.1, htk.2, hnee, hrd, hlast]
  · have hir : intRender n = natRender n.toNat := by
      unfold intRender; rw [if_neg hneg]
    rw [hir]
    exact matchIntTok_digits n.toNat w rest p hw hr

theorem digits_no_dot {l : Chars} (h : l.all (fun c => c.isDigit) = true) :
    l.contains '.' = false := by
  refine contains_false ?_
  intro c hc hx
  rw [List.all_eq_true] at h
  exact absurd (hx ▸ h c hc) (by decide)

theorem literalEval_intRender (n : Int) : literalEval (intRender n) = .int n := by
  by_cases hneg : n < 0
  · have hir : intRender n = '-' :: natRender n.natAbs := by
      unfold intRender; rw [if_pos hneg]
    obtain ⟨hall, hne, hval⟩ := natRender_spec n.natAbs
    rw [hir]
    unfold literalEval
    have hdot : ('-' :: natRender n.natAbs).contains '.' = false := by
      show (('.' == '-') || List.elem '.' (natRender n.natAbs)) = false
      rw [show ('.' == '-') = false from by decide, Bool.false_or]
      exact digits_no_dot hall
    simp only [show (('-' = sq || '-' = dq) : Bool) = false from by decide,
      Bool.false_eq_true, if_false, hdot]
    rw [show intOfText ('-' :: natRender n.natAbs) =
      -(digitsToNat (natRender n.natAbs) : Int) from rfl, hval]
    congr 1
    omega
  · have hir : intRender n = natRender n.toNat := by
      unfold intRender; rw [if_neg hneg]
    obtain ⟨hall, hne, hval⟩ := natRender_spec n.toNat
    obtain ⟨d, ds, hds⟩ : ∃ d ds, natRender n.toNat = d :: ds := by
      cases hnr : natRender n.toNat with
      | nil => exact absurd hnr hne
      | cons d ds => exact ⟨d, ds, rfl⟩
    have hdd : d.isDigit = true := by
      rw [hds, List.all_cons, Bool.and_eq_true] at hall
      exact hall.1
    rw [hir, hds]
    unfold literalEval
    have hq : ((d = sq || d = dq) : Bool) = false := by
      have h1 := (digits_ne_head hdd).2.1
      have h2 := (digits_ne_head hdd).2.2.1
      simp [h1, h2]
    have hdot : (d :: ds).contains '.' = false := by
      rw [← hds]
      exact digits_no_dot hall
    simp only [hq, Bool.false_eq_true, if_false, hdot]
    simp only [intOfText]
    rw [if_neg (digits_ne_head hdd).1, ← hds, hval]
    congr 1
    omega

theorem matchFloatCore_digits {ds rest : Chars}
    (hall : ds.all (fun c => c.isDigit) = true) (hr : RestStop rest) :
    matchFloatCore (ds ++ rest) = none := by
  have hstop : headFails (fun c => c.isDigit) rest := by
    cases rest with
    | nil => trivial
    | cons r rs => exact (stopChar_facts hr).2.2.2.1
  have htk := takeWhile_append_stop (P := fun c => c.isDigit) rest hall hstop
  unfold matchFloatCore
  cases rest with
  | nil =>
    have h2 : List.dropWhile (fun c => c.isDigit) ds = [] := by
      simpa using htk.2
    simp [h2]
  | cons r rs =>
    have hrd : ¬(r = '.') := (stopChar_facts hr).2.2.2.2.1
    simp [htk.2, hrd]

theorem matchFloatTok_int (n : Int) (w rest : Chars) (p : Char)
    (hw : w.all wsChar = true) (hr : RestStop rest) :
    matchFloatTok ⟨p, w ++ (intRender n ++ rest)⟩ = none := by
  unfold matchFloatTok
  by_cases hneg : n < 0
  · have hir : intRender n = '-' :: natRender n.natAbs := by
      unfold intRender; rw [if_pos hneg]
    obtain ⟨hall, _, _⟩ := natRender_spec n.natAbs
    rw [hir, List.cons_append,
      dropWs_at hw (show headFails wsChar ('-' :: (natRender n.natAbs ++ rest))
        from (by decide : wsChar '-' = false))]
    show matchFloatRaw ('-' :: (natRender n.natAbs ++ rest)) = none
    simp only [matchFloatRaw, if_pos rfl]
    rw [matchFloatCore_digits hall hr]
    simp
  · have hir : intRender n = natRender n.toNat := by
      unfold intRender; rw [if_neg hneg]
    obtain ⟨hall, hne, _⟩ := natRender_spec n.toNat
    obtain ⟨d, ds, hds⟩ : ∃ d ds, natRender n.toNat = d :: ds := by
      cases hnr : natRender n.toNat with
      | nil => exact absurd hnr hne
      | cons d ds => exact ⟨d, ds, rfl⟩
    have hdd : d.isDigit = true := by
      rw [hds, List.all_cons, Bool.and_eq_true] at hall
      exact hall.1
    rw [hir, hds, List.cons_append,
      dropWs_at hw (show headFails wsChar (d :: (ds ++ rest)) from
        digit_not_ws hdd)]
    show matchFloatRaw (d :: (ds ++ rest)) = none
    simp only [matchFloatRaw, if_neg (digits_ne_head hdd).1]
    exact matchFloatCore_digits (hds ▸ hall) hr

theorem constant_int (n : Int) (w rest : Chars) (p : Char)
    (hw : w.all wsChar = true) (hr : RestStop rest) :
    constant ⟨p, w ++ (intRender n ++ rest)⟩ =
      some (.int n, ⟨lastD (intRender n), rest⟩) := by
  have hhead : ∃ h t, intRender n = h :: t ∧ (h = '-' ∨ h.isDigit = true) := by
    by_cases hneg : n < 0
    · exact ⟨'-', natRender n.natAbs,
        by unfold intRender; rw [if_pos hneg], Or.inl rfl⟩
    · obtain ⟨hall, hne, _⟩ := natRender_spec n.toNat
      cases hnr : natRender n.toNat with
      | nil => exact absurd hnr hne
      | cons d ds =>
        refine ⟨d, ds, by unfold intRender; rw [if_neg hneg, hnr], Or.inr ?_⟩
        rw [hnr, List.all_cons, Bool.and_eq_true] at hall
        exact hall.1
  obtain ⟨h, t, hht, hcase⟩ := hhead
  have hpw : wsChar h = false := by
    rcases hcase with rfl | hd
    · decide
    · exact digit_not_ws hd
  have hxs : intRender n ++ rest = h :: (t ++ rest) := by
    rw [hht, List.cons_append]
  have hsq : matchQuotedRaw sq ⟨p, w ++ (intRender n ++ rest)⟩ = none := by
    rw [hxs]
    refine matchQuotedRaw_fail sq w p hw hpw ?_
    rcases hcase with rfl | hd
    · decide
    · exact (digits_ne_head hd).2.1
  have hdq : matchQuotedRaw dq ⟨p, w ++ (intRender n ++ rest)⟩ = none := by
    rw [hxs]
    refine matchQuotedRaw_fail dq w p hw hpw ?_
    rcases hcase with rfl | hd
    · decide
    · exact (digits_ne_head hd).2.2.1
  unfold constant constantTok
  rw [hsq, hdq, matchFloatTok_int n w rest p hw hr,
    matchIntTok_at n w rest p hw hr]
  simp [literalEval_intRender]

theorem constant_str {s : Chars} (hs : s.all printable = true)
    (w rest : Chars) (p : Char) (hw : w.all wsChar = true) :
    constant ⟨p, w ++ (reprStr s ++ rest)⟩ =
      some (.str s, ⟨reprQuote s, rest⟩) := by
  unfold constant constantTok
  rcases reprQuote_cases s with hq | hq
  · have hm := matchQuotedRaw_repr hs w rest p hw
    rw [hq] at hm
    rw [hm]
    simp [literalEval_repr hs, hq]
  · have hxs : reprStr s ++ rest =
        reprQuote s :: (escBody (reprQuote s) s ++ [reprQuote s] ++ rest) := by
      rw [reprStr_eq]; simp
    have hsqf : matchQuotedRaw sq ⟨p, w ++ (reprStr s ++ rest)⟩ = none := by
      rw [hxs]
      refine matchQuotedRaw_fail sq w p hw ?_ ?_
      · rw [hq]; decide
      · rw [hq]; decide
    have hm := matchQuotedRaw_repr hs w rest p hw
    rw [hq] at hm
    rw [hsqf, hm]
    simp [literalEval_repr hs, hq]

theorem constant_fail_col {n : Chars} (hn : nameOk n = true)
    (w rest : Chars) (p : Char) (hw : w.all wsChar = true) :
    constant ⟨p, w ++ (colRender n ++ rest)⟩ = none := by
  have hhead : ∃ h t, colRender n ++ rest = h :: t ∧
      (h = '[' ∨ h.isAlpha = true) := by
    have hn' : bareOk n = true ∨ brOk n = true := by simpa [nameOk] using hn
    rcases hn' with hb | hbr
    · have hsp := bareOk_not_space hb
      have hcr : colRender n = n := by unfold colRender; rw [hsp]; rfl
      simp only [bareOk, Bool.and_eq_true] at hb
      cases n with
      | nil => exact absurd hb.1 (by decide)
      | cons c cs =>
        have hc : (c.isAlpha && cs.all (fun d => d.isAlphanum)) = true := hb.1
        simp only [Bool.and_eq_true] at hc
        exact ⟨c, cs ++ rest, by rw [hcr, List.cons_append], Or.inr hc.1⟩
    · have hbr' := hbr
      simp only [brOk, Bool.and_eq_true] at hbr'
      have hcr : colRender n = '[' :: n ++ [']'] := by
        unfold colRender; rw [hbr'.1]; rfl
      exact ⟨'[', n ++ [']'] ++ rest, by rw [hcr]; simp, Or.inl rfl⟩
  obtain ⟨h, t, hht, hcase⟩ := hhead
  have hpw : wsChar h = false := by
    rcases hcase with rfl | hα
    · decide
    · exact (alpha_facts hα).1
  have h1 : h ≠ '-' := by
    rcases hcase with rfl | hα
    · decide
    · exact (alpha_facts hα).2.2.2.1
  have h2 : h.isDigit = false := by
    rcases hcase with rfl | hα
    · decide
    · exact (alpha_facts hα).2.2.2.2.2.1
  have h3 : h ≠ '.' := by
    rcases hcase with rfl | hα
    · decide
    · exact (alpha_facts hα).2.2.2.2.1
  have hhsq : h ≠ sq := by
    rcases hcase with rfl | hα
    · decide
    · exact (alpha_facts hα).2.1
  have hhdq : h ≠ dq := by
    rcases hcase with rfl | hα
    · decide
    · exact (alpha_facts hα).2.2.1
  unfold constant constantTok
  rw [hht, matchQuotedRaw_fail sq w p hw hpw hhsq,
    matchQuotedRaw_fail dq w p hw hpw hhdq,
    matchFloatTok_fail w p hw hpw h1 h2 h3,
    matchIntTok_fail w p hw hpw h1 h2]
  rfl

/-- Last character of a rendered constant. -/
def valLast : Val → Char
  | .int n => lastD (intRender n)
  | .str s => reprQuote s
  | .float t => lastD t
  | .vlist _ => ']'

theorem value_const {v : Val} (hv : valOk v = true) (w rest : Chars) (p : Char)
    (hw : w.all wsChar = true) (hr : RestStop rest) :
    value ⟨p, w ++ (pyRepr v ++ rest)⟩ = some (.const v, ⟨valLast v, rest⟩) := by
  cases v with
  | int n =>
    unfold value
    rw [show pyRepr (.int n) = intRender n from rfl,
      constant_int n w rest p hw hr]
    rfl
  | str s =>
    unfold value
    rw [show pyRepr (.str s) = reprStr s from rfl,
      constant_str (by simpa [valOk] using hv) w rest p hw]
    rfl
  | float t => exact absurd hv (by simp [valOk])
  | vlist vs => exact absurd hv (by simp [valOk])

theorem value_col {n : Chars} (hn : nameOk n = true)
    (w rest : Chars) (p : Char)
    (hw : w.all wsChar = true) (hr : RestStop rest) :
    value ⟨p, w ++ (colRender n ++ rest)⟩ =
      some (.column n, ⟨colLast n, rest⟩) := by
  unfold value
  rw [constant_fail_col hn w rest p hw, identifier_at hn w rest p hw hr]

/-- The comparison-operator tokens a well-formed tree may carry (those the
parser itself produces). -/
def cmpOps : List String := ["==", "!=", "<", ">", "<=", ">="]

theorem operatorTok_cmp {op : String} (hop : op ∈ cmpOps)
    (w rest : Chars) (p : Char) (hw : w.all wsChar = true) (hr : RestStop rest) :
    operatorTok ⟨p, w ++ (op.toList ++ rest)⟩ =
      some (op, ⟨lastD op.toList, rest⟩) := by
  fin_cases hop
  · show operatorTok ⟨p, w ++ ('=' :: '=' :: rest)⟩ = some ("==", ⟨'=', rest⟩)
    unfold operatorTok
    rw [dropWs_at hw (show headFails wsChar ('=' :: '=' :: rest) from
      (by decide : wsChar '=' = false))]
    simp
  · show operatorTok ⟨p, w ++ ('!' :: '=' :: rest)⟩ = some ("!=", ⟨'=', rest⟩)
    unfold operatorTok
    rw [dropWs_at hw (show headFails wsChar ('!' :: '=' :: rest) from
      (by decide : wsChar '!' = false))]
    simp
  · show operatorTok ⟨p, w ++ ('<' :: rest)⟩ = some ("<", ⟨'<', rest⟩)
    unfold operatorTok
    rw [dropWs_at hw (show headFails wsChar ('<' :: rest) from
      (by decide : wsChar '<' = false))]
    cases rest with
    | nil => simp
    | cons r rs =>
      have h6 := (stopChar_facts hr).2.2.2.2.2.1
      have h7 := (stopChar_facts hr).2.2.2.2.2.2.1
      simp [h6, h7]
  · show operatorTok ⟨p, w ++ ('>' :: rest)⟩ = some (">", ⟨'>', rest⟩)
    unfold operatorTok
    rw [dropWs_at hw (show headFails wsChar ('>' :: rest) from
      (by decide : wsChar '>' = false))]
    cases rest with
    | nil => simp
    | cons r rs =>
      have h6 := (stopChar_facts hr).2.2.2.2.2.1
      simp [h6]
  · show operatorTok ⟨p, w ++ ('<' :: '=' :: rest)⟩ = some ("<=", ⟨'=', rest⟩)
    unfold operatorTok
    rw [dropWs_at hw (show headFails wsChar ('<' :: '=' :: rest) from
      (by decide : wsChar '<' = false))]
    simp
  · show operatorTok ⟨p, w ++ ('>' :: '=' :: rest)⟩ = some (">=", ⟨'=', rest⟩)
    unfold operatorTok
    rw [dropWs_at hw (show headFails wsChar ('>' :: '=' :: rest) from
      (by decide : wsChar '>' = false))]
    simp

theorem operatorTok_like (w rest : Chars) (p : Char)
    (hw : w.all wsChar = true) (hr : RestStop rest)
    (hprev : w = [] → identChar p = false) :
    operatorTok ⟨p, w ++ ("LIKE".toList ++ rest)⟩ =
      some ("like", ⟨'E', rest⟩) := by
  show operatorTok ⟨p, w ++ ('L' :: 'I' :: 'K' :: 'E' :: rest)⟩ =
    some ("like", ⟨'E', rest⟩)
  unfold operatorTok
  rw [dropWs_at hw (show headFails wsChar ('L' :: 'I' :: 'K' :: 'E' :: rest)
    from (by decide : wsChar 'L' = false))]
  have hafter : headFails identChar rest := by
    cases rest with
    | nil => trivial
    | cons r rs => exact (stopChar_facts hr).1
  have hkw := matchKw_at ("like".toList) ("LIKE".toList) [] rest (w.getLastD p)
    (by simp)
    (show caselessList ("LIKE".toList) ("like".toList) from
      ⟨by decide, by decide, by decide, by decide, trivial⟩)
    (by decide)
    (show headFails wsChar ("LIKE".toList) from (by decide : wsChar 'L' = false))
    (fun _ => ws_getLastD_not_ident hw hprev) hafter
  have hkw' : matchKw ['l', 'i', 'k', 'e']
      ⟨(List.getLast? w).getD p, 'L' :: 'I' :: 'K' :: 'E' :: rest⟩ =
      some ⟨'E', rest⟩ := by
    rw [← List.getLastD_eq_getLast?]
    exact hkw
  simp [hkw']

theorem matchCaselessAux_fail_head {k : Char} {ks : Chars} {c : Char}
    {cs : Chars} (h : caselessEq c k = false) (p : Char) :
    matchCaselessAux (k :: ks) p (c :: cs) = none := by
  simp [matchCaselessAux, h]

theorem matchKw_fail_head {k : Char} {ks : Chars} {c : Char} {cs : Chars}
    (w : Chars) (p : Char) (hw : w.all wsChar = true) (hpw : wsChar c = false)
    (hcc : caselessEq c k = false) :
    matchKw (k :: ks) ⟨p, w ++ (c :: cs)⟩ = none := by
  unfold matchKw
  rw [dropWs_at hw (show headFails wsChar (c :: cs) from hpw)]
  cases hid : identChar (w.getLastD p)
  · have hid' : identChar ((List.getLast? w).getD p) = false := by
      rw [← List.getLastD_eq_getLast?]; exact hid
    simp [hid, hid', matchCaselessAux_fail_head hcc]
  · have hid' : identChar ((List.getLast? w).getD p) = true := by
      rw [← List.getLastD_eq_getLast?]; exact hid
    simp [hid, hid']

theorem matchKw_fail_ws {k : Char} {ks : Chars} (w : Chars) (p : Char)
    (hw : w.all wsChar = true) :
    matchKw (k :: ks) ⟨p, w⟩ = none := by
  unfold matchKw
  have hd : dropWs ⟨p, w⟩ = ⟨w.getLastD p, []⟩ := by
    rw [show (⟨p, w⟩ : Inp) = ⟨p, w ++ []⟩ from by simp]
    exact dropWs_at hw (show headFails wsChar ([] : Chars) from trivial) p
  rw [hd]
  cases hid : identChar (w.getLastD p)
  · have hid' : identChar ((List.getLast? w).getD p) = false := by
      rw [← List.getLastD_eq_getLast?]; exact hid
    simp [hid, hid', matchCaselessAux]
  · have hid' : identChar ((List.getLast? w).getD p) = true := by
      rw [← List.getLastD_eq_getLast?]; exact hid
    simp [hid, hid']

theorem operatorTok_fail_kw {c : Char} {cs : Chars} (w : Chars) (p : Char)
    (hw : w.all wsChar = true) (hpw : wsChar c = false)
    (h1 : ¬(c = '=')) (h2 : ¬(c = '!')) (h3 : ¬(c = '<')) (h4 : ¬(c = '>'))
    (h5 : caselessEq c 'l' = false) :
    operatorTok ⟨p, w ++ (c :: cs)⟩ = none := by
  unfold operatorTok
  rw [dropWs_at hw (show headFails wsChar (c :: cs) from hpw)]
  have hkf : matchKw ('l' :: "ike".toList) ⟨w.getLastD p, [] ++ (c :: cs)⟩ =
      none := matchKw_fail_head [] (w.getLastD p) (by simp) hpw h5
  have hkf' : matchKw ['l', 'i', 'k', 'e']
      ⟨(List.getLast? w).getD p, c :: cs⟩ = none := by
    rw [← List.getLastD_eq_getLast?]
    simpa using hkf
  simp [h1, h2, h3, h4, hkf']

/-- Caseless comparison of a stop character with the letters appearing in the
grammar's keywords always fails. -/
theorem stop_caseless {r : Char} (hr : stopChar r = true) :
    caselessEq r 'n' = false ∧ caselessEq r 'o' = false ∧
    caselessEq r 't' = false ∧ caselessEq r 'i' = false ∧
    caselessEq r 's' = false ∧ caselessEq r 'd' = false ∧
    caselessEq r 'r' = false ∧ caselessEq r 'u' = false ∧
    caselessEq r 'l' = false ∧ caselessEq r 'a' = false ∧
    caselessEq r 'e' = false := by
  have hc : (((r = ' ' ∨ r = '\n') ∨ r = ',') ∨ r = ']') ∨ r = ')' := by
    simpa [stopChar] using hr
  rcases hc with (((rfl | rfl) | rfl) | rfl) | rfl <;> decide

theorem alphanum_identChar {c : Char} (h : c.isAlphanum = true) :
    identChar c = true := by
  simp [identChar, h]

/-- A caseless keyword token: the matched slice `t`, preceded by whitespace
(or a non-identifier character) and followed by a non-identifier character,
consuming exactly `t`. -/
theorem matchKw_tok (kw t : Chars) (w rest : Chars) (p : Char)
    (hw : w.all wsChar = true) (ht : caselessList t kw) (hne : t ≠ [])
    (hts : headFails wsChar t)
    (hprev : w = [] → identChar p = false)
    (hafter : headFails identChar rest) :
    matchKw kw ⟨p, w ++ (t ++ rest)⟩ = some ⟨lastD t, rest⟩ := by
  rw [matchKw_at kw t w rest p hw ht hne hts hprev hafter,
    getLastD_default_irrel hne (w.getLastD p) ' ']
  rfl

theorem matchCaselessAux_cons (l : Char) (ls : Chars) (p c : Char)
    (cs : Chars) :
    matchCaselessAux (l :: ls) p (c :: cs) =
      if caselessEq c l then matchCaselessAux ls c cs else none := rfl

/-- `Keyword('not')` never matches at a well-formed bare column name: either
the spelling differs caselessly, or the name continues with an identifier
character, or (excluded by `bareOk`) the name is caselessly `not` itself. -/
theorem matchKw_not_fail_bare {n : Chars} (hb : bareOk n = true)
    (w rest : Chars) (p : Char) (hw : w.all wsChar = true) (hr : RestStop rest) :
    matchKw ("not".toList) ⟨p, w ++ (n ++ rest)⟩ = none := by
  simp only [bareOk, Bool.and_eq_true] at hb
  obtain ⟨hshape, hnotn⟩ := hb
  cases n with
  | nil => exact absurd hshape (by decide)
  | cons c1 cs1 =>
  have hα : c1.isAlpha = true := by
    simp only [Bool.and_eq_true] at hshape
    exact hshape.1
  have hbody : cs1.all (fun d => d.isAlphanum) = true := by
    simp only [Bool.and_eq_true] at hshape
    exact hshape.2
  have hnotn' : (List.map Char.toLower (c1 :: cs1) == 'n' :: 'o' :: 't' :: []) =
      false := by
    have h := hnotn
    rw [Bool.not_eq_true'] at h
    exact h
  have haux : ∀ q : Char,
      matchCaselessAux ("not".toList) q (c1 :: (cs1 ++ rest)) = none ∨
      ∃ pr c4 t, matchCaselessAux ("not".toList) q (c1 :: (cs1 ++ rest)) =
          some ⟨pr, c4 :: t⟩ ∧ identChar c4 = true := by
    intro q
    rw [show ("not".toList : Chars) = 'n' :: 'o' :: 't' :: [] from rfl,
      matchCaselessAux_cons]
    by_cases h1 : caselessEq c1 'n' = true
    case neg =>
      left
      rw [if_neg h1]
    case pos =>
    rw [if_pos h1]
    cases cs1 with
    | nil =>
      left
      cases rest with
      | nil => rfl
      | cons r rs =>
        simp only [List.nil_append]
        exact matchCaselessAux_fail_head ((stop_caseless hr).2.1) c1
    | cons c2 cs2 =>
      have hb2 : c2.isAlphanum = true := by
        rw [List.all_cons, Bool.and_eq_true] at hbody
        exact hbody.1
      have hbody2 : cs2.all (fun d => d.isAlphanum) = true := by
        rw [List.all_cons, Bool.and_eq_true] at hbody
        exact hbody.2
      simp only [List.cons_append]
      rw [matchCaselessAux_cons]
      by_cases h2 : caselessEq c2 'o' = true
      case neg =>
        left
        rw [if_neg h2]
      case pos =>
      rw [if_pos h2]
      cases cs2 with
      | nil =>
        left
        cases rest with
        | nil => rfl
        | cons r rs =>
          simp only [List.nil_append]
          exact matchCaselessAux_fail_head ((stop_caseless hr).2.2.1) c2
      | cons c3 cs3 =>
        have hb3 : c3.isAlphanum = true := by
          rw [List.all_cons, Bool.and_eq_true] at hbody2
          exact hbody2.1
        have hbody3 : cs3.all (fun d => d.isAlphanum) = true := by
          rw [List.all_cons, Bool.and_eq_true] at hbody2
          exact hbody2.2
        simp only [List.cons_append]
        rw [matchCaselessAux_cons]
        by_cases h3 : caselessEq c3 't' = true
        case neg =>
          left
          rw [if_neg h3]
        case pos =>
        rw [if_pos h3]
        cases cs3 with
        | nil =>
          exfalso
          have e1 : c1.toLower = 'n' := by simpa [caselessEq] using h1
          have e2 : c2.toLower = 'o' := by simpa [caselessEq] using h2
          have e3 : c3.toLower = 't' := by simpa [caselessEq] using h3
          rw [show List.map Char.toLower (c1 :: c2 :: c3 :: []) =
            'n' :: 'o' :: 't' :: [] from by simp [e1, e2, e3]] at hnotn'
          exact absurd hnotn' (by decide)
        | cons c4 cs4 =>
          right
          have hb4 : c4.isAlphanum = true := by
            rw [List.all_cons, Bool.and_eq_true] at hbody3
            exact hbody3.1
          simp only [List.cons_append]
          exact ⟨c3, c4, cs4 ++ rest, rfl, alphanum_identChar hb4⟩
  unfold matchKw
  rw [List.cons_append, dropWs_at hw
    (show headFails wsChar (c1 :: (cs1 ++ rest)) from (alpha_facts hα).1)]
  show (if identChar (w.getLastD p) = true then none
       else
         match matchCaselessAux ("not".toList) (w.getLastD p)
             (c1 :: (cs1 ++ rest)) with
         | none => none
         | some k =>
           match k.rest with
           | [] => some k
           | c :: _ => if identChar c = true then none else some k) = none
  cases hid : identChar (w.getLastD p)
  · rw [if_neg (by simp [hid])]
    rcases haux (w.getLastD p) with hnone | ⟨pr, c4, t, hsome, hc4⟩
    · rw [hnone]
    · rw [hsome]
      simp [hc4]
  · rw [if_pos (by simp [hid])]

/-- A rendered constant of either well-formed kind. -/
theorem constant_val {v : Val} (hv : valOk v = true) (w rest : Chars) (p : Char)
    (hw : w.all wsChar = true) (hr : RestStop rest) :
    constant ⟨p, w ++ (pyRepr v ++ rest)⟩ = some (v, ⟨valLast v, rest⟩) := by
  cases v with
  | int n =>
    show constant ⟨p, w ++ (intRender n ++ rest)⟩ =
      some (.int n, ⟨lastD (intRender n), rest⟩)
    exact constant_int n w rest p hw hr
  | str s =>
    show constant ⟨p, w ++ (reprStr s ++ rest)⟩ =
      some (.str s, ⟨reprQuote s, rest⟩)
    exact constant_str (by simpa [valOk] using hv) w rest p hw
  | float t => exact absurd hv (by simp [valOk])
  | vlist vs => exact absurd hv (by simp [valOk])

/-- The `", "`-separated tail of a rendered list body. -/
def commaTail : List Val → Chars
  | [] => []
  | v :: vs => ',' :: ' ' :: (pyRepr v ++ commaTail vs)

theorem joinCommaSp_cons_cons (a b : Chars) (l : List Chars) :
    joinCommaSp (a :: b :: l) = a ++ ", ".toList ++ joinCommaSp (b :: l) := by
  unfold joinCommaSp List.intercalate
  rw [show List.intersperse (", ".toList) (a :: b :: l) =
    a :: ", ".toList :: List.intersperse (", ".toList) (b :: l) from rfl]
  simp

theorem joinCommaSp_decomp : ∀ (vs : List Val) (v : Val),
    joinCommaSp (pyReprList (v :: vs)) = pyRepr v ++ commaTail vs := by
  intro vs
  induction vs with
  | nil =>
    intro v
    show joinCommaSp [pyRepr v] = pyRepr v ++ commaTail []
    simp [joinCommaSp, List.intercalate, commaTail]
  | cons u us ih =>
    intro v
    show joinCommaSp (pyRepr v :: pyRepr u :: pyReprList us) =
      pyRepr v ++ commaTail (u :: us)
    have ihu : joinCommaSp (pyRepr u :: pyReprList us) =
        pyRepr u ++ commaTail us := ih u
    rw [joinCommaSp_cons_cons, ihu]
    show pyRepr v ++ ", ".toList ++ (pyRepr u ++ commaTail us) =
      pyRepr v ++ (',' :: ' ' :: (pyRepr u ++ commaTail us))
    simp

theorem commaTail_len : ∀ vs : List Val, vs.length ≤ (commaTail vs).length := by
  intro vs
  induction vs with
  | nil => simp [commaTail]
  | cons v us ih =>
    show us.length + 1 ≤ (',' :: ' ' :: (pyRepr v ++ commaTail us)).length
    simp only [List.length_cons, List.length_append]
    omega

/-- Token list built by `ZeroOrMore(COMMA + CONSTANT)` over a rendered tail. -/
def ltoks : List Val → List LTok
  | [] => []
  | v :: vs => .p ',' :: .v v :: ltoks vs

/-- The `prev` character after the rendered tail (the last character of the
last constant, or `d` if the tail is empty). -/
def lastPrev (d : Char) (vs : List Val) : Char :=
  (vs.map valLast).getLastD d

theorem getLast?_getD_cons {α : Type} (c p : α) (cs : List α) :
    (c :: cs).getLast?.getD p = cs.getLast?.getD c := by
  cases cs with
  | nil => rfl
  | cons d ds =>
    rw [List.getLast?_cons_cons]
    cases hx : (d :: ds).getLast? with
    | none => simp at hx
    | some x => rfl

theorem listItems_at : ∀ (vs : List Val) (fuel : Nat) (d : Char) (r2 : Chars),
    vs.all valOk = true → vs.length < fuel →
    listItems fuel ⟨d, commaTail vs ++ (']' :: r2)⟩ =
      (ltoks vs, ⟨lastPrev d vs, ']' :: r2⟩) := by
  intro vs
  induction vs with
  | nil =>
    intro fuel d r2 _ hf
    cases fuel with
    | zero => omega
    | succ m =>
      show listItems (m + 1) ⟨d, ']' :: r2⟩ = ([], ⟨d, ']' :: r2⟩)
      have hfail : matchLit [','] ⟨d, ']' :: r2⟩ = none := by
        have h := matchLit_fail ',' [] (w := []) (x := ']' :: r2) d (by simp)
          (show headFails wsChar (']' :: r2) from
            (by decide : wsChar ']' = false))
          (show ((']' = ',') = False) from eq_false (by decide))
        simpa using h
      unfold listItems
      rw [hfail]
  | cons v us ih =>
    intro fuel d r2 hall hf
    cases fuel with
    | zero => omega
    | succ m =>
    rw [List.all_cons, Bool.and_eq_true] at hall
    show listItems (m + 1)
        ⟨d, ',' :: ' ' :: ((pyRepr v ++ commaTail us) ++ (']' :: r2))⟩ =
      (ltoks (v :: us), ⟨lastPrev d (v :: us), ']' :: r2⟩)
    have hcomma : matchLit [',']
        ⟨d, ',' :: ' ' :: ((pyRepr v ++ commaTail us) ++ (']' :: r2))⟩ =
        some ⟨',', ' ' :: ((pyRepr v ++ commaTail us) ++ (']' :: r2))⟩ := by
      have h := matchLit_at [','] []
        (' ' :: ((pyRepr v ++ commaTail us) ++ (']' :: r2))) d (by simp)
        (show headFails wsChar ([','] : Chars) from
          (by decide : wsChar ',' = false))
        (by decide)
      simpa using h
    have hrs : RestStop (commaTail us ++ (']' :: r2)) := by
      cases us with
      | nil => exact (by decide : stopChar ']' = true)
      | cons u uu => exact (by decide : stopChar ',' = true)
    have hconst : constant
        ⟨',', ' ' :: ((pyRepr v ++ commaTail us) ++ (']' :: r2))⟩ =
        some (v, ⟨valLast v, commaTail us ++ (']' :: r2)⟩) := by
      have h := constant_val hall.1 [' '] (commaTail us ++ (']' :: r2)) ','
        (by decide) hrs
      have hx : ([' '] : Chars) ++ (pyRepr v ++ (commaTail us ++ (']' :: r2))) =
          ' ' :: ((pyRepr v ++ commaTail us) ++ (']' :: r2)) := by simp
      rw [hx] at h
      exact h
    have hrec := ih m (valLast v) r2 hall.2 (by simpa using Nat.lt_of_succ_lt_succ hf)
    unfold listItems
    simp only [hcomma, hconst, hrec]
    simp [ltoks, lastPrev, getLastD_cons_eq]
    cases hus : us.getLast? with
    | none =>
      rw [List.getLast?_eq_none_iff.mp hus]
      simp
    | some a =>
      rw [getLast?_getD_cons (valLast v) d (List.map valLast us),
        List.getLast?_map, hus]
      rfl

theorem everyOther_ltoks : ∀ (vs : List Val) (v : Val),
    everyOther (.v v :: ltoks vs) = .v v :: vs.map LTok.v := by
  intro vs
  induction vs with
  | nil => intro v; rfl
  | cons u us ih =>
    intro v
    show everyOther (.v v :: .p ',' :: (.v u :: ltoks us)) =
      .v v :: .v u :: us.map LTok.v
    rw [show everyOther (LTok.v v :: LTok.p ',' :: (LTok.v u :: ltoks us)) =
      LTok.v v :: everyOther (LTok.v u :: ltoks us) from rfl, ih u]

theorem map_extract_v : ∀ l : List Val,
    List.map (fun t => match t with | LTok.v x => x | LTok.p c => Val.str [c])
      (l.map LTok.v) = l := by
  intro l
  induction l with
  | nil => rfl
  | cons a as iha =>
    simp only [List.map_cons]
    rw [iha]

theorem pySlice_ltoks (v : Val) (vs : List Val) :
    pySlice (.p '[' :: .v v :: ltoks vs ++ [.p ']']) = v :: vs := by
  unfold pySlice
  rw [show (LTok.p '[' :: LTok.v v :: ltoks vs ++ [LTok.p ']']).drop 1 =
    (LTok.v v :: ltoks vs) ++ [LTok.p ']'] from by simp]
  rw [List.dropLast_concat, everyOther_ltoks]
  simp only [List.map_cons]
  rw [map_extract_v vs]

theorem LIST_at {vs : List Val} (hne : vs ≠ []) (hall : vs.all valOk = true)
    (w rest : Chars) (p : Char) (hw : w.all wsChar = true) :
    LIST ⟨p, w ++ (pyRepr (.vlist vs) ++ rest)⟩ = .ok (vs, ⟨']', rest⟩) := by
  obtain ⟨v1, vs', rfl⟩ : ∃ a l, vs = a :: l := by
    cases vs with
    | nil => exact absurd rfl hne
    | cons a l => exact ⟨a, l, rfl⟩
  rw [List.all_cons, Bool.and_eq_true] at hall
  have hshape : pyRepr (.vlist (v1 :: vs')) ++ rest =
      '[' :: (pyRepr v1 ++ (commaTail vs' ++ (']' :: rest))) := by
    rw [show pyRepr (.vlist (v1 :: vs')) =
      '[' :: (joinCommaSp (pyReprList (v1 :: vs')) ++ [']']) from rfl,
      joinCommaSp_decomp vs' v1]
    simp
  rw [hshape]
  unfold LIST
  have h1 : matchLit ['[']
      ⟨p, w ++ ('[' :: (pyRepr v1 ++ (commaTail vs' ++ (']' :: rest))))⟩ =
      some ⟨'[', pyRepr v1 ++ (commaTail vs' ++ (']' :: rest))⟩ := by
    have h := matchLit_at ['['] w (pyRepr v1 ++ (commaTail vs' ++ (']' :: rest)))
      p hw
      (show headFails wsChar (['['] : Chars) from
        (by decide : wsChar '[' = false))
      (by decide)
    simpa using h
  have hrs : RestStop (commaTail vs' ++ (']' :: rest)) := by
    cases vs' with
    | nil => exact (by decide : stopChar ']' = true)
    | cons u uu => exact (by decide : stopChar ',' = true)
  have h2 : constant ⟨'[', pyRepr v1 ++ (commaTail vs' ++ (']' :: rest))⟩ =
      some (v1, ⟨valLast v1, commaTail vs' ++ (']' :: rest)⟩) := by
    have h := constant_val hall.1 [] (commaTail vs' ++ (']' :: rest)) '['
      (by simp) hrs
    simpa using h
  have h3 : listItems (commaTail vs' ++ (']' :: rest)).length
      ⟨valLast v1, commaTail vs' ++ (']' :: rest)⟩ =
      (ltoks vs', ⟨lastPrev (valLast v1) vs', ']' :: rest⟩) := by
    refine listItems_at vs' _ (valLast v1) rest hall.2 ?_
    have := commaTail_len vs'
    simp only [List.length_append, List.length_cons]
    omega
  have h4 : matchLit [','] ⟨lastPrev (valLast v1) vs', ']' :: rest⟩ = none := by
    have h := matchLit_fail ',' [] (w := []) (x := ']' :: rest)
      (lastPrev (valLast v1) vs') (by simp)
      (show headFails wsChar (']' :: rest) from
        (by decide : wsChar ']' = false))
      (show ((']' = ',') = False) from eq_false (by decide))
    simpa using h
  have h5 : matchLit [']'] ⟨lastPrev (valLast v1) vs', ']' :: rest⟩ =
      some ⟨']', rest⟩ := by
    have h := matchLit_at [']'] [] rest (lastPrev (valLast v1) vs') (by simp)
      (show headFails wsChar ([']'] : Chars) from
        (by decide : wsChar ']' = false))
      (by decide)
    simpa using h
  simp only [h1, h2, h3, h4, h5]
  have h6 : LTok.p '[' :: LTok.v v1 :: ltoks vs' ++ [] ++ [LTok.p ']'] =
      LTok.p '[' :: LTok.v v1 :: ltoks vs' ++ [LTok.p ']'] := by simp
  rw [h6, pySlice_ltoks]

/-! ### Well-formed tests and expressions -/

/-- Pattern strings that survive the `%`-wrapping round trip: printable, no
wildcard of their own. -/
def likeBody (s : Chars) : Bool := s.all printable && !(s.contains '%')

/-- Right operands of a comparison: a well-formed constant or column. -/
def rhsOk : Node → Bool
  | .const v => valOk v
  | .column n => nameOk n
  | _ => false

/-- A present right operand that is a well-formed constant or column. -/
def rhsOkOpt : Option Node → Bool
  | some rn => rhsOk rn
  | none => false

/-- A right operand that is a string constant with a round-trippable
pattern body. -/
def likeOk : Option Node → Bool
  | some (.const (.str s)) => likeBody s
  | _ => false

/-- Like `likeOk` but additionally nonempty (a `startsWith` with empty body
formats to `LIKE '%'`, which reparses as an `endsWith`). -/
def startsOk : Option Node → Bool
  | some (.const (.str s)) => likeBody s && !s.isEmpty
  | _ => false

/-- A right operand that is a nonempty list of well-formed constants. -/
def inlistOk : Option Node → Bool
  | some (.const (.vlist vs)) => !vs.isEmpty && vs.all valOk
  | _ => false

/-- Well-formed test nodes: exactly the shapes the parser's five test
productions build, over well-formed names and constants. -/
def wfTest : Node → Bool
  | .comp op (.column n) r =>
    nameOk n &&
    (if op = "isNull" ∨ op = "isNotNull" then r.isNone
     else if cmpOps.contains op then rhsOkOpt r
     else if op = "like" then likeOk r
     else if op = "startsWith" then startsOk r
     else if op = "endsWith" then likeOk r
     else if op = "inlist" ∨ op = "notinlist" then inlistOk r
     else false)
  | _ => false

mutual

/-- Well-formed expression trees: tests, `not` nodes over well-formed
operands, and `and`/`or` nodes over well-formed operands. -/
def wfExpr : Node → Bool
  | .comp op l r =>
    if op = "not" then wfExpr l && r.isNone
    else if op = "and" || op = "or" then wfExpr l && wfExprOpt r
    else wfTest (.comp op l r)
  | _ => false

def wfExprOpt : Option Node → Bool
  | some rn => wfExpr rn
  | none => false

end

/-! ### The depth-indexed rendering of a well-formed tree -/

/-- `4*k` spaces: the indentation the formatter's `bracket` wrapping has
accumulated at nesting depth `k`. -/
def ind (k : Nat) : Chars := List.replicate (4 * k) ' '

/-- Insert four spaces after every newline (the effect of one `indentLines`
pass on everything after the first line). -/
def insNl : Chars → Chars
  | [] => []
  | c :: cs =>
    if c = '\n' then c :: ' ' :: ' ' :: ' ' :: ' ' :: insNl cs
    else c :: insNl cs

/-- The string payload of a `some (.const (.str s))` right operand. -/
def getStrOf : Option Node → Chars
  | some (.const (.str s)) => s
  | _ => []

/-- Rendered right operand of a comparison (constant or column). -/
def rhsRender : Option Node → Chars
  | some (.const v) => pyRepr v
  | some (.column m) => colRender m
  | _ => []

/-- Last character of a rendered right operand. -/
def rhsLast : Option Node → Char
  | some (.const v) => valLast v
  | some (.column m) => colLast m
  | _ => ' '

mutual

/-- The exact text `_format` produces for a well-formed tree when the
enclosing brackets have accumulated `k` levels of indentation (`renderE t b
bA 0` is the top-level output; junk for non-well-formed nodes). -/
def renderE : Node → Bool → Bool → Nat → Chars
  | .column n, _, _, _ => colRender n
  | .const v, _, _, _ => pyRepr v
  | .comp op l r, bracket, breakAfter, k =>
    if cmpOps.contains op then
      renderE l false false k ++ ' ' :: op.toList ++ ' ' :: rhsRender r
    else if op = "isNull" then renderE l false false k ++ " IS NULL".toList
    else if op = "isNotNull" then
      renderE l false false k ++ " IS NOT NULL".toList
    else if op = "like" then
      renderE l false false k ++ " LIKE ".toList ++
        reprStr ('%' :: (getStrOf r ++ ['%']))
    else if op = "startsWith" then
      renderE l false false k ++ " LIKE ".toList ++
        reprStr (getStrOf r ++ ['%'])
    else if op = "endsWith" then
      renderE l false false k ++ " LIKE ".toList ++ reprStr ('%' :: getStrOf r)
    else if op = "inlist" then
      renderE l false false k ++ " IN ".toList ++ rhsRender r
    else if op = "notinlist" then
      renderE l false false k ++ " NOT IN ".toList ++ rhsRender r
    else if op = "not" then "NOT ".toList ++ renderE l true true k
    else if op = "and" || op = "or" then
      if bracket then
        '(' :: '\n' :: (ind (k + 1) ++ chainExp op l r breakAfter (k + 1)) ++
          '\n' :: (ind k ++ [')'])
      else chainExp op l r breakAfter k
    else []
termination_by t _ _ _ => 2 * sizeOf t

/-- The unbracketed `lhs OP rhs` line(s) of a logical node at depth `k`. -/
def chainExp (op : String) (l : Node) (r : Option Node) (breakAfter : Bool)
    (k : Nat) : Chars :=
  if nodeOp l = some op then
    renderE l false true k ++ ' ' :: (strUpper op).toList ++ '\n' ::
      (ind k ++ renderEOpt r k)
  else
    renderE l true false k ++ ' ' :: (strUpper op).toList ++
      (if breakAfter then '\n' :: (ind k ++ renderEOpt r k)
       else ' ' :: renderEOpt r k)
termination_by 2 * (sizeOf l + sizeOf r) + 1

def renderEOpt : Option Node → Nat → Chars
  | some rn, k => renderE rn true false k
  | none, _ => []
termination_by r _ => 2 * sizeOf r

end

/-- No newline characters (so `insNl` and `indentLines` leave the string
alone). -/
def nlFree (s : Chars) : Bool := s.all (fun c => !(c = '\n'))

theorem insNl_append (s t : Chars) : insNl (s ++ t) = insNl s ++ insNl t := by
  induction s with
  | nil => rfl
  | cons c cs ih =>
    by_cases hc : c = '\n'
    · simp [insNl, hc, ih]
    · simp [insNl, hc, ih]

theorem insNl_of_nlFree {s : Chars} (hs : nlFree s = true) : insNl s = s := by
  induction s with
  | nil => rfl
  | cons c cs ih =>
    rw [nlFree, List.all_cons, Bool.and_eq_true] at hs
    have hc : ¬(c = '\n') := by simpa using hs.1
    rw [insNl, if_neg hc, ih hs.2]

theorem nlFree_of_printable {s : Chars} (hs : s.all printable = true) :
    nlFree s = true := by
  rw [nlFree, List.all_eq_true]
  rw [List.all_eq_true] at hs
  intro c hc
  have := printable_not_nl (hs c hc)
  simp only [Bool.or_eq_false_iff, decide_eq_false_iff_not] at this
  simpa using this.1

theorem nlFree_append {s t : Chars} (hs : nlFree s = true)
    (ht : nlFree t = true) : nlFree (s ++ t) = true := by
  rw [nlFree] at hs ht
  rw [nlFree, List.all_append, hs, ht]
  rfl

theorem nlFree_escBody {q : Char} (hq : q = sq ∨ q = dq) {s : Chars}
    (hs : s.all printable = true) : nlFree (escBody q s) = true := by
  induction s with
  | nil => rfl
  | cons c cs ih =>
    rw [List.all_cons, Bool.and_eq_true] at hs
    show nlFree (escChar q c ++ escBody q cs) = true
    refine nlFree_append ?_ (ih hs.2)
    rcases escChar_printable (q := q) hs.1 with ⟨_, _, he⟩ | ⟨_, he⟩ | ⟨_, _, he⟩
    · rw [he]
      exact nlFree_of_printable (by simpa using hs.1)
    · rw [he]; decide
    · rw [he]
      rcases hq with rfl | rfl <;> decide

theorem nlFree_reprStr {s : Chars} (hs : s.all printable = true) :
    nlFree (reprStr s) = true := by
  rw [reprStr_eq]
  have hq := reprQuote_cases s
  have h1 : nlFree [reprQuote s] = true := by
    rcases hq with h | h <;> rw [h] <;> decide
  show nlFree (reprQuote s :: (escBody (reprQuote s) s ++ [reprQuote s])) = true
  rw [nlFree, List.all_cons, Bool.and_eq_true]
  constructor
  · rcases hq with h | h <;> rw [h] <;> decide
  · exact nlFree_append (nlFree_escBody hq hs) h1

theorem nlFree_digits {s : Chars} (hs : s.all (fun c => c.isDigit) = true) :
    nlFree s = true := by
  rw [nlFree, List.all_eq_true]
  rw [List.all_eq_true] at hs
  intro c hc
  have hd := hs c hc
  simp only [decide_eq_true_eq] at hd
  have : c ≠ '\n' := fun hx => absurd (hx ▸ hd) (by decide)
  simpa using this

theorem nlFree_intRender (n : Int) : nlFree (intRender n) = true := by
  unfold intRender
  by_cases hneg : n < 0
  · rw [if_pos hneg]
    show nlFree ('-' :: natRender n.natAbs) = true
    rw [nlFree, List.all_cons, Bool.and_eq_true]
    exact ⟨by decide, nlFree_digits (natRender_spec n.natAbs).1⟩
  · rw [if_neg hneg]
    exact nlFree_digits (natRender_spec n.toNat).1

theorem nlFree_pyRepr {v : Val} (hv : valOk v = true) :
    nlFree (pyRepr v) = true := by
  cases v with
  | int n => exact nlFree_intRender n
  | str s =>
    show nlFree (reprStr s) = true
    exact nlFree_reprStr (by simpa [valOk] using hv)
  | float t => exact absurd hv (by simp [valOk])
  | vlist vs => exact absurd hv (by simp [valOk])

theorem nlFree_commaTail {vs : List Val} (hvs : vs.all valOk = true) :
    nlFree (commaTail vs) = true := by
  induction vs with
  | nil => rfl
  | cons v us ih =>
    rw [List.all_cons, Bool.and_eq_true] at hvs
    show nlFree (',' :: ' ' :: (pyRepr v ++ commaTail us)) = true
    rw [nlFree, List.all_cons, List.all_cons, Bool.and_eq_true,
      Bool.and_eq_true]
    exact ⟨by decide, by decide, nlFree_append (nlFree_pyRepr hvs.1) (ih hvs.2)⟩

theorem nlFree_vlist {vs : List Val} (hne : vs ≠ [])
    (hvs : vs.all valOk = true) : nlFree (pyRepr (.vlist vs)) = true := by
  obtain ⟨v1, vs', rfl⟩ : ∃ a l, vs = a :: l := by
    cases vs with
    | nil => exact absurd rfl hne
    | cons a l => exact ⟨a, l, rfl⟩
  rw [List.all_cons, Bool.and_eq_true] at hvs
  rw [show pyRepr (.vlist (v1 :: vs')) =
    '[' :: (joinCommaSp (pyReprList (v1 :: vs')) ++ [']']) from rfl,
    joinCommaSp_decomp vs' v1]
  rw [nlFree, List.all_cons, Bool.and_eq_true]
  refine ⟨by decide, ?_⟩
  exact nlFree_append (nlFree_append (nlFree_pyRepr hvs.1)
    (nlFree_commaTail hvs.2)) (by decide)

theorem nlFree_colRender {n : Chars} (hn : nameOk n = true) :
    nlFree (colRender n) = true := by
  have hn' : bareOk n = true ∨ brOk n = true := by simpa [nameOk] using hn
  rcases hn' with hb | hbr
  · have hsp := bareOk_not_space hb
    have hcr : colRender n = n := by unfold colRender; rw [hsp]; rfl
    rw [hcr, nlFree, List.all_eq_true]
    intro c hc
    simp only [bareOk, Bool.and_eq_true] at hb
    have hcan : c.isAlphanum = true := by
      cases n with
      | nil => simp at hc
      | cons c1 cs1 =>
        have h1 : (c1.isAlpha && cs1.all (fun d => d.isAlphanum)) = true := hb.1
        simp only [Bool.and_eq_true] at h1
        rcases List.mem_cons.mp hc with rfl | hmem
        · exact (alpha_facts h1.1).2.2.2.2.2.2
        · rw [List.all_eq_true] at *
          exact h1.2 c hmem
    have : c ≠ '\n' := fun hx => absurd (hx ▸ hcan) (by decide)
    simpa using this
  · simp only [brOk, Bool.and_eq_true] at hbr
    have hcr : colRender n = '[' :: n ++ [']'] := by
      unfold colRender; rw [hbr.1]; rfl
    rw [hcr]
    show nlFree ('[' :: (n ++ [']'])) = true
    rw [nlFree, List.all_cons, Bool.and_eq_true]
    refine ⟨by decide, ?_⟩
    refine nlFree_append ?_ (by decide)
    refine nlFree_of_printable ?_
    rw [List.all_eq_true] at hbr ⊢
    intro c hc
    have := hbr.2 c hc
    rw [Bool.and_eq_true] at this
    exact this.1

theorem ind_ws (k : Nat) : (ind k).all wsChar = true := by
  rw [ind, List.all_eq_true]
  intro c hc
  rw [List.eq_of_mem_replicate hc]
  decide

theorem nlFree_ind (k : Nat) : nlFree (ind k) = true := by
  rw [nlFree, List.all_eq_true]
  intro c hc
  rw [List.eq_of_mem_replicate hc]
  decide

theorem ind_succ (k : Nat) :
    ind (k + 1) = ' ' :: ' ' :: ' ' :: ' ' :: ind k := by
  rw [ind, ind, show 4 * (k + 1) = 4 * k + 1 + 1 + 1 + 1 from by ring]
  simp [List.replicate_succ]

theorem insNl_ind (k : Nat) : insNl (ind k) = ind k :=
  insNl_of_nlFree (nlFree_ind k)

/-- Extraction of the shape information in a well-formed test. -/
theorem wfTest_cases {op : String} {l : Node} {r : Option Node}
    (h : wfTest (.comp op l r) = true) :
    ∃ n, l = .column n ∧ nameOk n = true ∧
    ((op = "isNull" ∧ r = none) ∨ (op = "isNotNull" ∧ r = none) ∨
     (cmpOps.contains op = true ∧ ∃ rn, r = some rn ∧ rhsOk rn = true) ∨
     (op = "like" ∧ ∃ s, r = some (.const (.str s)) ∧ likeBody s = true) ∨
     (op = "startsWith" ∧ ∃ s, r = some (.const (.str s)) ∧
       likeBody s = true ∧ s ≠ []) ∨
     (op = "endsWith" ∧ ∃ s, r = some (.const (.str s)) ∧ likeBody s = true) ∨
     ((op = "inlist" ∨ op = "notinlist") ∧
       ∃ vs, r = some (.const (.vlist vs)) ∧ vs ≠ [] ∧
         vs.all valOk = true)) := by
  cases l with
  | column n =>
    rw [wfTest, Bool.and_eq_true] at h
    refine ⟨n, rfl, h.1, ?_⟩
    have h2 := h.2
    split_ifs at h2 with h1 hcmp hlike hsw hew hinl
    · rw [Option.isNone_iff_eq_none] at h2
      subst h2
      rcases h1 with rfl | rfl
      · exact Or.inl ⟨rfl, rfl⟩
      · exact Or.inr (Or.inl ⟨rfl, rfl⟩)
    · cases r with
      | none => exact absurd h2 (by simp [rhsOkOpt])
      | some rn => exact Or.inr (Or.inr (Or.inl ⟨hcmp, rn, rfl, h2⟩))
    · rcases r with _ | rn
      · exact absurd h2 (by simp [likeOk])
      · rcases rn with n' | v | ⟨op', l', r'⟩
        · exact absurd h2 (by simp [likeOk])
        · rcases v with n' | t | sv | vs
          · exact absurd h2 (by simp [likeOk])
          · exact absurd h2 (by simp [likeOk])
          · exact Or.inr (Or.inr (Or.inr (Or.inl ⟨hlike, sv, rfl, h2⟩)))
          · exact absurd h2 (by simp [likeOk])
        · exact absurd h2 (by simp [likeOk])
    · rcases r with _ | rn
      · exact absurd h2 (by simp [startsOk])
      · rcases rn with n' | v | ⟨op', l', r'⟩
        · exact absurd h2 (by simp [startsOk])
        · rcases v with n' | t | sv | vs
          · exact absurd h2 (by simp [startsOk])
          · exact absurd h2 (by simp [startsOk])
          · rw [show startsOk (some (.const (.str sv))) =
              (likeBody sv && !sv.isEmpty) from rfl, Bool.and_eq_true] at h2
            refine Or.inr (Or.inr (Or.inr (Or.inr (Or.inl
              ⟨hsw, sv, rfl, h2.1, ?_⟩))))
            simpa using h2.2
          · exact absurd h2 (by simp [startsOk])
        · exact absurd h2 (by simp [startsOk])
    · rcases r with _ | rn
      · exact absurd h2 (by simp [likeOk])
      · rcases rn with n' | v | ⟨op', l', r'⟩
        · exact absurd h2 (by simp [likeOk])
        · rcases v with n' | t | sv | vs
          · exact absurd h2 (by simp [likeOk])
          · exact absurd h2 (by simp [likeOk])
          · exact Or.inr (Or.inr (Or.inr (Or.inr (Or.inr (Or.inl
              ⟨hew, sv, rfl, h2⟩)))))
          · exact absurd h2 (by simp [likeOk])
        · exact absurd h2 (by simp [likeOk])
    · rcases r with _ | rn
      · exact absurd h2 (by simp [inlistOk])
      · rcases rn with n' | v | ⟨op', l', r'⟩
        · exact absurd h2 (by simp [inlistOk])
        · rcases v with n' | t | sv | vs
          · exact absurd h2 (by simp [inlistOk])
          · exact absurd h2 (by simp [inlistOk])
          · exact absurd h2 (by simp [inlistOk])
          · rw [show inlistOk (some (.const (.vlist vs))) =
              (!vs.isEmpty && vs.all valOk) from rfl, Bool.and_eq_true] at h2
            refine Or.inr (Or.inr (Or.inr (Or.inr (Or.inr (Or.inr
              ⟨hinl, vs, rfl, ?_, h2.2⟩)))))
            simpa using h2.1
        · exact absurd h2 (by simp [inlistOk])
  | const v => simp [wfTest] at h
  | comp a b c => simp [wfTest] at h

/-- Extraction of the shape information in a well-formed expression. -/
theorem wfExpr_cases {t : Node} (h : wfExpr t = true) :
    wfTest t = true ∨
    (∃ l, t = .comp "not" l none ∧ wfExpr l = true) ∨
    (∃ op l rn, t = .comp op l (some rn) ∧ (op = "and" ∨ op = "or") ∧
      wfExpr l = true ∧ wfExpr rn = true) := by
  cases t with
  | column n => simp [wfExpr] at h
  | const v => simp [wfExpr] at h
  | comp op l r =>
    simp only [wfExpr] at h
    split_ifs at h with h1 h2
    · subst h1
      rw [Bool.and_eq_true] at h
      cases r with
      | none => exact Or.inr (Or.inl ⟨l, rfl, h.1⟩)
      | some rn => simp at h
    · rw [Bool.and_eq_true] at h
      have hop : op = "and" ∨ op = "or" := by
        rcases Bool.or_eq_true_iff.mp h2 with hx | hx
        · exact Or.inl (by simpa using hx)
        · exact Or.inr (by simpa using hx)
      cases r with
      | none => exact absurd h.2 (by simp [wfExprOpt])
      | some rn =>
        exact Or.inr (Or.inr ⟨op, l, rn, rfl, hop, h.1, h.2⟩)
    · exact Or.inl h

theorem renderE_column (n : Chars) (b bA : Bool) (k : Nat) :
    renderE (.column n) b bA k = colRender n := by
  rw [renderE]

theorem renderE_const (v : Val) (b bA : Bool) (k : Nat) :
    renderE (.const v) b bA k = pyRepr v := by
  rw [renderE]

theorem renderE_cmp {op : String} (hop : cmpOps.contains op = true)
    (l : Node) (r : Option Node) (b bA : Bool) (k : Nat) :
    renderE (.comp op l r) b bA k =
      renderE l false false k ++ ' ' :: op.toList ++ ' ' :: rhsRender r := by
  rw [renderE, if_pos hop]

theorem renderE_isNull (l : Node) (r : Option Node) (b bA : Bool) (k : Nat) :
    renderE (.comp "isNull" l r) b bA k =
      renderE l false false k ++ " IS NULL".toList := by
  rw [renderE]
  rfl

theorem renderE_isNotNull (l : Node) (r : Option Node) (b bA : Bool)
    (k : Nat) :
    renderE (.comp "isNotNull" l r) b bA k =
      renderE l false false k ++ " IS NOT NULL".toList := by
  rw [renderE]
  rfl

theorem renderE_like (l : Node) (r : Option Node) (b bA : Bool) (k : Nat) :
    renderE (.comp "like" l r) b bA k =
      renderE l false false k ++ " LIKE ".toList ++
        reprStr ('%' :: (getStrOf r ++ ['%'])) := by
  rw [renderE]
  rfl

theorem renderE_startsWith (l : Node) (r : Option Node) (b bA : Bool)
    (k : Nat) :
    renderE (.comp "startsWith" l r) b bA k =
      renderE l false false k ++ " LIKE ".toList ++
        reprStr (getStrOf r ++ ['%']) := by
  rw [renderE]
  rfl

theorem renderE_endsWith (l : Node) (r : Option Node) (b bA : Bool)
    (k : Nat) :
    renderE (.comp "endsWith" l r) b bA k =
      renderE l false false k ++ " LIKE ".toList ++
        reprStr ('%' :: getStrOf r) := by
  rw [renderE]
  rfl

theorem renderE_inlist (l : Node) (r : Option Node) (b bA : Bool) (k : Nat) :
    renderE (.comp "inlist" l r) b bA k =
      renderE l false false k ++ " IN ".toList ++ rhsRender r := by
  rw [renderE]
  rfl

theorem renderE_notinlist (l : Node) (r : Option Node) (b bA : Bool)
    (k : Nat) :
    renderE (.comp "notinlist" l r) b bA k =
      renderE l false false k ++ " NOT IN ".toList ++ rhsRender r := by
  rw [renderE]
  rfl

theorem renderE_not (l : Node) (r : Option Node) (b bA : Bool) (k : Nat) :
    renderE (.comp "not" l r) b bA k =
      "NOT ".toList ++ renderE l true true k := by
  rw [renderE]
  rfl

theorem renderE_and_or {op : String} (hop : op = "and" ∨ op = "or")
    (l : Node) (r : Option Node) (b bA : Bool) (k : Nat) :
    renderE (.comp op l r) b bA k =
      if b then
        '(' :: '\n' :: (ind (k + 1) ++ chainExp op l r bA (k + 1)) ++
          '\n' :: (ind k ++ [')'])
      else chainExp op l r bA k := by
  rcases hop with rfl | rfl <;> (rw [renderE]; rfl)

theorem chainExp_eq (op : String) (l : Node) (r : Option Node)
    (breakAfter : Bool) (k : Nat) :
    chainExp op l r breakAfter k =
      (if nodeOp l = some op then
        renderE l false true k ++ ' ' :: (strUpper op).toList ++ '\n' ::
          (ind k ++ renderEOpt r k)
      else
        renderE l true false k ++ ' ' :: (strUpper op).toList ++
          (if breakAfter then '\n' :: (ind k ++ renderEOpt r k)
           else ' ' :: renderEOpt r k)) := by
  rw [chainExp]

theorem renderEOpt_some (rn : Node) (k : Nat) :
    renderEOpt (some rn) k = renderE rn true false k := by
  rw [renderEOpt]

/-- Rendered well-formed tests are independent of the context flags and
depth. -/
theorem renderE_test_indep {op : String} {l : Node} {r : Option Node}
    (h : wfTest (.comp op l r) = true) (b bA b' bA' : Bool) (k k' : Nat) :
    renderE (.comp op l r) b bA k = renderE (.comp op l r) b' bA' k' := by
  obtain ⟨n, rfl, hn, hcase⟩ := wfTest_cases h
  rcases hcase with ⟨rfl, rfl⟩ | ⟨rfl, rfl⟩ | ⟨hcmp, rn, rfl, _⟩ |
    ⟨rfl, sv, rfl, _⟩ | ⟨rfl, sv, rfl, _, _⟩ | ⟨rfl, sv, rfl, _⟩ |
    ⟨hop2, vs, rfl, _, _⟩
  · rw [renderE_isNull, renderE_isNull, renderE_column, renderE_column]
  · rw [renderE_isNotNull, renderE_isNotNull, renderE_column, renderE_column]
  · rw [renderE_cmp hcmp, renderE_cmp hcmp, renderE_column, renderE_column]
  · rw [renderE_like, renderE_like, renderE_column, renderE_column]
  · rw [renderE_startsWith, renderE_startsWith, renderE_column,
      renderE_column]
  · rw [renderE_endsWith, renderE_endsWith, renderE_column, renderE_column]
  · rcases hop2 with rfl | rfl
    · rw [renderE_inlist, renderE_inlist, renderE_column, renderE_column]
    · rw [renderE_notinlist, renderE_notinlist, renderE_column,
        renderE_column]

theorem nlFree_cons {c : Char} (hc : ¬(c = '\n')) {s : Chars}
    (hs : nlFree s = true) : nlFree (c :: s) = true := by
  rw [nlFree, List.all_cons, Bool.and_eq_true]
  exact ⟨by simpa using hc, hs⟩

theorem cmpOps_mem {op : String} (h : cmpOps.contains op = true) :
    op ∈ cmpOps := by
  have := List.elem_iff.mp h
  exact this

theorem nlFree_cmpOp {op : String} (h : cmpOps.contains op = true) :
    nlFree op.toList = true := by
  have hm := cmpOps_mem h
  fin_cases hm <;> decide

theorem likeBody_printable {s : Chars} (h : likeBody s = true) :
    s.all printable = true := by
  rw [likeBody, Bool.and_eq_true] at h
  exact h.1

theorem pattern_printable {s : Chars} (hs : s.all printable = true) :
    ('%' :: (s ++ ['%'])).all printable = true ∧
    (s ++ ['%']).all printable = true ∧
    ('%' :: s).all printable = true := by
  have h1 : (s ++ ['%']).all printable = true := by
    rw [List.all_append, hs]
    decide
  refine ⟨?_, h1, ?_⟩
  · rw [List.all_cons, h1]; decide
  · rw [List.all_cons, hs]; decide

theorem nlFree_rhs {rn : Node} (h : rhsOk rn = true) :
    nlFree (rhsRender (some rn)) = true := by
  cases rn with
  | const v => exact nlFree_pyRepr (by simpa [rhsOk] using h)
  | column m => exact nlFree_colRender (by simpa [rhsOk] using h)
  | comp a b c => simp [rhsOk] at h

/-- Rendered well-formed tests contain no newline. -/
theorem nlFree_renderE_test {op : String} {l : Node} {r : Option Node}
    (h : wfTest (.comp op l r) = true) (b bA : Bool) (k : Nat) :
    nlFree (renderE (.comp op l r) b bA k) = true := by
  obtain ⟨n, rfl, hn, hcase⟩ := wfTest_cases h
  have hcol : nlFree (colRender n) = true := nlFree_colRender hn
  rcases hcase with ⟨rfl, rfl⟩ | ⟨rfl, rfl⟩ | ⟨hcmp, rn, rfl, hrn⟩ |
    ⟨rfl, sv, rfl, hsv⟩ | ⟨rfl, sv, rfl, hsv, _⟩ | ⟨rfl, sv, rfl, hsv⟩ |
    ⟨hop2, vs, rfl, hvne, hvs⟩
  · rw [renderE_isNull, renderE_column]
    exact nlFree_append hcol (by decide)
  · rw [renderE_isNotNull, renderE_column]
    exact nlFree_append hcol (by decide)
  · rw [renderE_cmp hcmp, renderE_column]
    exact nlFree_append (nlFree_append hcol
        (nlFree_cons (by decide) (nlFree_cmpOp hcmp)))
      (nlFree_cons (by decide) (nlFree_rhs hrn))
  · rw [renderE_like, renderE_column]
    refine nlFree_append (nlFree_append hcol (by decide)) ?_
    exact nlFree_reprStr (pattern_printable (likeBody_printable hsv)).1
  · rw [renderE_startsWith, renderE_column]
    refine nlFree_append (nlFree_append hcol (by decide)) ?_
    exact nlFree_reprStr (pattern_printable (likeBody_printable hsv)).2.1
  · rw [renderE_endsWith, renderE_column]
    refine nlFree_append (nlFree_append hcol (by decide)) ?_
    exact nlFree_reprStr (pattern_printable (likeBody_printable hsv)).2.2
  · have hvl : nlFree (rhsRender (some (.const (.vlist vs)))) = true := by
      show nlFree (pyRepr (.vlist vs)) = true
      exact nlFree_vlist (by simpa using hvne) hvs
    rcases hop2 with rfl | rfl
    · rw [renderE_inlist, renderE_column]
      exact nlFree_append (nlFree_append hcol (by decide)) hvl
    · rw [renderE_notinlist, renderE_column]
      exact nlFree_append (nlFree_append hcol (by decide)) hvl

theorem colRender_ne {n : Chars} (hn : nameOk n = true) : colRender n ≠ [] := by
  have hn' : bareOk n = true ∨ brOk n = true := by simpa [nameOk] using hn
  rcases hn' with hb | hbr
  · have hsp := bareOk_not_space hb
    have hcr : colRender n = n := by unfold colRender; rw [hsp]; rfl
    rw [hcr]
    simp only [bareOk, Bool.and_eq_true] at hb
    cases n with
    | nil => exact absurd hb.1 (by decide)
    | cons c cs => simp
  · simp only [brOk, Bool.and_eq_true] at hbr
    have hcr : colRender n = '[' :: n ++ [']'] := by
      unfold colRender; rw [hbr.1]; rfl
    rw [hcr]
    simp

theorem last_ne_nl {s : Chars} (hs : nlFree s = true) :
    s.getLast? ≠ some '\n' := by
  intro hx
  have hmem := List.mem_of_getLast?_eq_some hx
  rw [nlFree, List.all_eq_true] at hs
  have := hs '\n' hmem
  simp at this

theorem sizeOf_l_lt (op : String) (l : Node) (r : Option Node) :
    sizeOf l < sizeOf (Node.comp op l r) := by
  simp only [Node.comp.sizeOf_spec]
  omega

theorem sizeOf_r_lt (op : String) (l : Node) (rn : Node) :
    sizeOf rn < sizeOf (Node.comp op l (some rn)) := by
  simp only [Node.comp.sizeOf_spec, Option.some.sizeOf_spec]
  omega

theorem getLast?_append_right {α : Type} {l r : List α} {c : α}
    (h : r.getLast? = some c) : (l ++ r).getLast? = some c := by
  rw [List.getLast?_append, h]
  rfl

theorem getLast?_cons_right {α : Type} {a : α} {r : List α} {c : α}
    (h : r.getLast? = some c) : (a :: r).getLast? = some c := by
  rw [show a :: r = [a] ++ r from rfl]
  exact getLast?_append_right h

/-- Rendered well-formed expressions are nonempty and do not end in a
newline. -/
theorem renderE_last : ∀ (N : Nat) (t : Node), sizeOf t ≤ N →
    wfExpr t = true → ∀ (b bA : Bool) (k : Nat),
      renderE t b bA k ≠ [] ∧ (renderE t b bA k).getLast? ≠ some '\n' := by
  intro N
  induction N using Nat.strong_induction_on with
  | _ N ih =>
  intro t hsz h b bA k
  rcases wfExpr_cases h with htest | ⟨l, rfl, hl⟩ |
    ⟨op, l, rn, rfl, hop, hl, hrn⟩
  · cases t with
    | column n => simp [wfTest] at htest
    | const v => simp [wfTest] at htest
    | comp op l r =>
      have hnl := nlFree_renderE_test htest b bA k
      refine ⟨?_, last_ne_nl hnl⟩
      obtain ⟨n, rfl, hn, hcase⟩ := wfTest_cases htest
      have hcne := colRender_ne hn
      rcases hcase with ⟨rfl, rfl⟩ | ⟨rfl, rfl⟩ | ⟨hcmp, rn, rfl, _⟩ |
        ⟨rfl, sv, rfl, _⟩ | ⟨rfl, sv, rfl, _, _⟩ | ⟨rfl, sv, rfl, _⟩ |
        ⟨hop2, vs, rfl, _, _⟩
      · rw [renderE_isNull, renderE_column]; simp [hcne]
      · rw [renderE_isNotNull, renderE_column]; simp [hcne]
      · rw [renderE_cmp hcmp, renderE_column]; simp [hcne]
      · rw [renderE_like, renderE_column]; simp [hcne]
      · rw [renderE_startsWith, renderE_column]; simp [hcne]
      · rw [renderE_endsWith, renderE_column]; simp [hcne]
      · rcases hop2 with rfl | rfl
        · rw [renderE_inlist, renderE_column]; simp [hcne]
        · rw [renderE_notinlist, renderE_column]; simp [hcne]
  · rw [renderE_not]
    have hszl : sizeOf l < N :=
      lt_of_lt_of_le (sizeOf_l_lt "not" l none) hsz
    have hrec := ih (sizeOf l) hszl l le_rfl hl true true k
    obtain ⟨c, hc, hcne⟩ : ∃ c, (renderE l true true k).getLast? = some c ∧
        c ≠ '\n' := by
      cases hx : (renderE l true true k).getLast? with
      | none => exact absurd (List.getLast?_eq_none_iff.mp hx) hrec.1
      | some c =>
        refine ⟨c, rfl, fun he => hrec.2 ?_⟩
        rw [hx, he]
    refine ⟨by simp, ?_⟩
    rw [getLast?_append_right hc]
    simpa using hcne
  · have hszr : sizeOf rn < N := lt_of_lt_of_le (sizeOf_r_lt op l rn) hsz
    have hrec := ih (sizeOf rn) hszr rn le_rfl hrn true false k
    rw [renderE_and_or hop]
    cases b with
    | true =>
      rw [if_pos rfl]
      refine ⟨by simp, ?_⟩
      rw [show ('(' :: '\n' ::
          (ind (k + 1) ++ chainExp op l (some rn) bA (k + 1)) ++
          '\n' :: (ind k ++ [')'])) =
        '(' :: ('\n' :: (ind (k + 1) ++ chainExp op l (some rn) bA (k + 1)) ++
          '\n' :: (ind k ++ [')'])) from by simp]
      rw [getLast?_cons_right (getLast?_append_right (getLast?_cons_right
        (getLast?_append_right (show ([')'] : Chars).getLast? = some ')'
          from rfl))))]
      simp
    | false =>
      rw [if_neg (by simp)]
      rw [chainExp_eq, renderEOpt_some]
      obtain ⟨c, hc, hcne⟩ : ∃ c,
          (renderE rn true false k).getLast? = some c ∧ c ≠ '\n' := by
        cases hx : (renderE rn true false k).getLast? with
        | none => exact absurd (List.getLast?_eq_none_iff.mp hx) hrec.1
        | some c =>
          refine ⟨c, rfl, fun he => hrec.2 ?_⟩
          rw [hx, he]
      by_cases hsame : nodeOp l = some op
      · rw [if_pos hsame]
        refine ⟨by simp, ?_⟩
        rw [getLast?_append_right (getLast?_cons_right
          (getLast?_append_right hc))]
        simpa using hcne
      · rw [if_neg hsame]
        cases bA with
        | true =>
          rw [if_pos rfl]
          refine ⟨by simp, ?_⟩
          rw [getLast?_append_right (getLast?_cons_right
            (getLast?_append_right hc))]
          simpa using hcne
        | false =>
          rw [if_neg (by simp)]
          refine ⟨by simp, ?_⟩
          rw [getLast?_append_right (getLast?_cons_right hc)]
          simpa using hcne

theorem insNl_replicate (m : Nat) :
    insNl (List.replicate m ' ') = List.replicate m ' ' := by
  induction m with
  | zero => rfl
  | succ m ih => simp [List.replicate_succ, insNl, ih]

theorem insNl_cons_ne {c : Char} (hc : ¬(c = '\n')) (s : Chars) :
    insNl (c :: s) = c :: insNl s := by
  rw [insNl, if_neg hc]

theorem insNl_cons_nl (s : Chars) :
    insNl ('\n' :: s) = '\n' :: ' ' :: ' ' :: ' ' :: ' ' :: insNl s := by
  rw [insNl, if_pos rfl]

theorem insNl_wrap (X : Chars) (a b : Nat) :
    insNl ('(' :: '\n' :: (ind a ++ X) ++ '\n' :: (ind b ++ [')'])) =
      '(' :: '\n' :: (ind (a + 1) ++ insNl X) ++
        '\n' :: (ind (b + 1) ++ [')']) := by
  have h1 : ('(' :: '\n' :: (ind a ++ X) ++ '\n' :: (ind b ++ [')'])) =
      '(' :: ('\n' :: ((ind a ++ X) ++ ('\n' :: (ind b ++ [')'])))) := by
    simp
  rw [h1, insNl_cons_ne (by decide), insNl_cons_nl, insNl_append,
    insNl_append, insNl_ind, insNl_cons_nl, insNl_append, insNl_ind,
    show insNl ([')'] : Chars) = [')'] from by decide]
  simp [ind_succ]

/-- Increasing the depth of a rendered well-formed tree by one inserts four
spaces after every newline: the effect of one `indentLines` pass on the
non-initial lines. -/
theorem renderE_shift : ∀ (N : Nat) (t : Node), sizeOf t ≤ N →
    wfExpr t = true → ∀ (b bA : Bool) (k : Nat),
      renderE t b bA (k + 1) = insNl (renderE t b bA k) := by
  intro N
  induction N using Nat.strong_induction_on with
  | _ N ih =>
  intro t hsz h b bA k
  rcases wfExpr_cases h with htest | ⟨l, rfl, hl⟩ |
    ⟨op, l, rn, rfl, hop, hl, hrn⟩
  · cases t with
    | column n => simp [wfTest] at htest
    | const v => simp [wfTest] at htest
    | comp op l r =>
      rw [renderE_test_indep htest b bA b bA (k + 1) k,
        insNl_of_nlFree (nlFree_renderE_test htest b bA k)]
  · have hszl : sizeOf l < N :=
      lt_of_lt_of_le (sizeOf_l_lt "not" l none) hsz
    have hrec := ih (sizeOf l) hszl l le_rfl hl true true k
    rw [renderE_not, renderE_not, insNl_append,
      insNl_of_nlFree (show nlFree ("NOT ".toList) = true from by decide),
      hrec]
  · have hszl : sizeOf l < N :=
      lt_of_lt_of_le (sizeOf_l_lt op l (some rn)) hsz
    have hszr : sizeOf rn < N := lt_of_lt_of_le (sizeOf_r_lt op l rn) hsz
    have hrecl : ∀ (b' bA' : Bool) (m : Nat),
        renderE l b' bA' (m + 1) = insNl (renderE l b' bA' m) :=
      fun b' bA' m => ih (sizeOf l) hszl l le_rfl hl b' bA' m
    have hrecr : ∀ (b' bA' : Bool) (m : Nat),
        renderE rn b' bA' (m + 1) = insNl (renderE rn b' bA' m) :=
      fun b' bA' m => ih (sizeOf rn) hszr rn le_rfl hrn b' bA' m
    have hup : insNl ((strUpper op).data) = (strUpper op).data := by
      rcases hop with rfl | rfl <;> decide
    have hchain : ∀ (bA' : Bool) (m : Nat),
        chainExp op l (some rn) bA' (m + 1) =
          insNl (chainExp op l (some rn) bA' m) := by
      intro bA' m
      rw [chainExp_eq, chainExp_eq, renderEOpt_some, renderEOpt_some]
      by_cases hsame : nodeOp l = some op
      · rw [if_pos hsame, if_pos hsame]
        rw [hrecl false true m, hrecr true false m]
        simp [insNl_append, insNl, hup, ind_succ, insNl_ind, insNl_replicate]
      · rw [if_neg hsame, if_neg hsame]
        cases bA' with
        | true =>
          rw [if_pos rfl, if_pos rfl, hrecl true false m, hrecr true false m]
          simp [insNl_append, insNl, hup, ind_succ, insNl_ind, insNl_replicate]
        | false =>
          rw [if_neg (by simp), if_neg (by simp), hrecl true false m,
            hrecr true false m]
          simp [insNl_append, insNl, hup, ind_succ, insNl_ind, insNl_replicate]
    rw [renderE_and_or hop, renderE_and_or hop]
    cases b with
    | true =>
      rw [if_pos rfl, if_pos rfl, hchain bA (k + 1), insNl_wrap]
    | false =>
      rw [if_neg (by simp), if_neg (by simp)]
      exact hchain bA k

theorem splitNl_ne {s : Chars} (hs : s ≠ []) : splitNl s ≠ [] := by
  cases s with
  | nil => exact absurd rfl hs
  | cons c cs =>
    rw [splitNl]
    by_cases hc : c = '\n'
    · simp [hc]
    · rw [if_neg hc]
      cases splitNl cs <;> simp

theorem joinNl_single (v : Chars) : joinNl [v] = v := by
  show List.intercalate ['\n'] [v] = v
  simp [List.intercalate]

theorem joinNl_cons_cons (v w : Chars) (ws : List Chars) :
    joinNl (v :: w :: ws) = v ++ '\n' :: joinNl (w :: ws) := by
  show List.intercalate ['\n'] (v :: w :: ws) =
    v ++ '\n' :: List.intercalate ['\n'] (w :: ws)
  rw [List.intercalate, List.intercalate]
  rw [show List.intersperse (['\n'] : Chars) (v :: w :: ws) =
    v :: ['\n'] :: List.intersperse ['\n'] (w :: ws) from rfl]
  simp

theorem getLast?_cons_of_ne (c : Char) {cs : Chars} (h : cs ≠ []) :
    (c :: cs).getLast? = cs.getLast? := by
  cases hx : cs.getLast? with
  | none => exact absurd (List.getLast?_eq_none_iff.mp hx) h
  | some a => exact getLast?_cons_right hx

/-- `indentLines` on a nonempty string with no trailing newline prepends four
spaces and inserts four spaces after every newline. -/
theorem indentLines_eq : ∀ {s : Chars}, s ≠ [] → s.getLast? ≠ some '\n' →
    indentLines s = ' ' :: ' ' :: ' ' :: ' ' :: insNl s := by
  intro s
  induction s with
  | nil => intro hs _; exact absurd rfl hs
  | cons c cs ih =>
    intro _ hlast
    by_cases hc : c = '\n'
    · subst hc
      have hcs : cs ≠ [] := by
        intro hx
        subst hx
        simp at hlast
      have hlast' : cs.getLast? ≠ some '\n' := by
        rwa [getLast?_cons_of_ne '\n' hcs] at hlast
      have hne := splitNl_ne hcs
      rw [indentLines, show splitNl ('\n' :: cs) = [] :: splitNl cs from by
        rw [splitNl]; simp]
      cases hsp : splitNl cs with
      | nil => exact absurd hsp hne
      | cons a as =>
        have ihc := ih hcs hlast'
        rw [indentLines, hsp] at ihc
        simp only [List.map_cons, List.map_nil] at ihc ⊢
        rw [joinNl_cons_cons, ihc, insNl_cons_nl]
        rfl
    · rw [indentLines, splitNl, if_neg hc]
      cases hsp : splitNl cs with
      | nil =>
        have hcs : cs = [] := by
          by_contra hx
          exact splitNl_ne hx hsp
        subst hcs
        rw [insNl_cons_ne hc]
        rfl
      | cons l ls =>
        have hcs : cs ≠ [] := by
          intro hx
          subst hx
          simp [splitNl] at hsp
        have hlast' : cs.getLast? ≠ some '\n' := by
          rwa [getLast?_cons_of_ne c hcs] at hlast
        have ihc := ih hcs hlast'
        rw [indentLines, hsp] at ihc
        rw [insNl_cons_ne hc]
        cases ls with
        | nil =>
          simp only [List.map_cons, List.map_nil] at ihc ⊢
          rw [joinNl_single] at ihc
          rw [joinNl_single]
          have h' : l = insNl cs := by simpa using ihc
          simp [h']
        | cons w ws =>
          simp only [List.map_cons] at ihc ⊢
          rw [joinNl_cons_cons] at ihc
          rw [joinNl_cons_cons]
          have h' : l ++ '\n' :: joinNl
              ((' ' :: ' ' :: ' ' :: ' ' :: w) ::
                ws.map (fun l => ' ' :: ' ' :: ' ' :: ' ' :: l)) =
              insNl cs := by
            simpa using ihc
          rw [← h']
          simp

theorem fmtNode_column (n : Chars) (b bA : Bool) :
    fmtNode (.column n) b bA = .ok (colRender n) := by
  rw [fmtNode]
  rfl

theorem fmtNode_const (v : Val) (b bA : Bool) :
    fmtNode (.const v) b bA = .ok (pyRepr v) := by
  rw [fmtNode]

theorem ind_zero : ind 0 = [] := rfl

theorem ind_one : ind 1 = [' ', ' ', ' ', ' '] := by decide

/-- On well-formed trees the formatter succeeds, and its output is exactly
the depth-0 rendering. -/
theorem fmt_renderE : ∀ (N : Nat) (t : Node), sizeOf t ≤ N →
    wfExpr t = true → ∀ (b bA : Bool),
      fmtNode t b bA = .ok (renderE t b bA 0) := by
  intro N
  induction N using Nat.strong_induction_on with
  | _ N ih =>
  intro t hsz h b bA
  rcases wfExpr_cases h with htest | ⟨l, rfl, hl⟩ |
    ⟨op, l, rn, rfl, hop, hl, hrn⟩
  · cases t with
    | column n => simp [wfTest] at htest
    | const v => simp [wfTest] at htest
    | comp op l r =>
      obtain ⟨n, rfl, hn, hcase⟩ := wfTest_cases htest
      rcases hcase with ⟨rfl, rfl⟩ | ⟨rfl, rfl⟩ | ⟨hcmp, rn, rfl, hrn⟩ |
        ⟨rfl, sv, rfl, hsv⟩ | ⟨rfl, sv, rfl, hsv, hsne⟩ |
        ⟨rfl, sv, rfl, hsv⟩ | ⟨hop2, vs, rfl, hvne, hvs⟩
      · rw [fmtNode_isNull, fmtNode_column, renderE_isNull, renderE_column]
      · rw [fmtNode_isNotNull, fmtNode_column, renderE_isNotNull,
          renderE_column]
      · have hop6 : op = "==" ∨ op = "!=" ∨ op = "<" ∨ op = ">" ∨
            op = "<=" ∨ op = ">=" := by
          simpa [cmpOps] using cmpOps_mem hcmp
        rw [fmtNode_cmp op hop6, fmtNode_column, renderE_cmp hcmp,
          renderE_column]
        cases rn with
        | const v =>
          rw [show fmtRight (some (Node.const v)) = .ok (pyRepr v) from by
            rw [fmtRight, fmtNode_const]]
          rfl
        | column m =>
          rw [show fmtRight (some (Node.column m)) = .ok (colRender m) from by
            rw [fmtRight, fmtNode_column]]
          rfl
        | comp a c d => simp [rhsOk] at hrn
      · rw [fmtNode_like, fmtNode_column, renderE_like, renderE_column]
        rfl
      · rw [fmtNode_startsWith, fmtNode_column, renderE_startsWith,
          renderE_column]
        rfl
      · rw [fmtNode_endsWith, fmtNode_column, renderE_endsWith,
          renderE_column]
        rfl
      · rcases hop2 with rfl | rfl
        · rw [fmtNode_inlist, fmtNode_column, renderE_inlist, renderE_column]
          rfl
        · rw [fmtNode_notinlist, fmtNode_column, renderE_notinlist,
            renderE_column]
          rfl
  · have hszl := lt_of_lt_of_le (sizeOf_l_lt "not" l none) hsz
    have hrec := ih (sizeOf l) hszl l le_rfl hl true true
    rw [fmtNode_not, hrec, renderE_not]
  · have hszl := lt_of_lt_of_le (sizeOf_l_lt op l (some rn)) hsz
    have hszr := lt_of_lt_of_le (sizeOf_r_lt op l rn) hsz
    have hrecl : ∀ b' bA' : Bool, fmtNode l b' bA' = .ok (renderE l b' bA' 0) :=
      fun b' bA' => ih (sizeOf l) hszl l le_rfl hl b' bA'
    have hrecr : ∀ b' bA' : Bool,
        fmtNode rn b' bA' = .ok (renderE rn b' bA' 0) :=
      fun b' bA' => ih (sizeOf rn) hszr rn le_rfl hrn b' bA'
    have hfrb : fmtRightBracket (some rn) = .ok (renderE rn true false 0) := by
      rw [fmtRightBracket]
      exact hrecr true false
    have hchain1 : ∀ bA' : Bool, chainExp op l (some rn) bA' 1 =
        insNl (chainExp op l (some rn) bA' 0) := by
      intro bA'
      have hs := renderE_shift N (Node.comp op l (some rn)) hsz h false bA' 0
      rw [renderE_and_or hop, renderE_and_or hop] at hs
      rw [if_neg (by simp), if_neg (by simp)] at hs
      exact hs
    have hlastc : ∀ bA' : Bool, chainExp op l (some rn) bA' 0 ≠ [] ∧
        (chainExp op l (some rn) bA' 0).getLast? ≠ some '\n' := by
      intro bA'
      have hl0 := renderE_last N (Node.comp op l (some rn)) hsz h false bA' 0
      rwa [renderE_and_or hop, if_neg (by simp)] at hl0
    have hil : ∀ bA' : Bool, indentLines (chainExp op l (some rn) bA' 0) =
        ' ' :: ' ' :: ' ' :: ' ' :: chainExp op l (some rn) bA' 1 := by
      intro bA'
      rw [indentLines_eq (hlastc bA').1 (hlastc bA').2, hchain1 bA']
    rw [fmtNode_and_or op hop, renderE_and_or hop]
    by_cases hsame : nodeOp l = some op
    · rw [if_pos hsame, hrecl false true, hfrb]
      have hch0 : ∀ bA' : Bool, chainExp op l (some rn) bA' 0 =
          renderE l false true 0 ++ ' ' :: (strUpper op).toList ++
            '\n' :: renderE rn true false 0 := by
        intro bA'
        rw [chainExp_eq, if_pos hsame, renderEOpt_some, ind_zero]
        rfl
      cases b with
      | false =>
        dsimp only
        rw [hch0 bA]
        simp
      | true =>
        dsimp only
        rw [bracketWrap, ← hch0 bA, hil bA, ind_one, ind_zero]
        simp
    · rw [if_neg hsame, hrecl true false, hfrb]
      have hch0f : chainExp op l (some rn) false 0 =
          renderE l true false 0 ++ ' ' :: (strUpper op).toList ++
            ' ' :: renderE rn true false 0 := by
        rw [chainExp_eq, if_neg hsame, renderEOpt_some, ind_zero]
        rfl
      have hch0t : chainExp op l (some rn) true 0 =
          renderE l true false 0 ++ ' ' :: (strUpper op).toList ++
            '\n' :: renderE rn true false 0 := by
        rw [chainExp_eq, if_neg hsame, renderEOpt_some, ind_zero]
        rfl
      cases b with
      | false =>
        cases bA with
        | false =>
          dsimp only
          rw [hch0f]
          simp
        | true =>
          dsimp only
          rw [hch0t]
          simp
      | true =>
        dsimp only
        rw [bracketWrap]
        cases bA with
        | false =>
          simp only [reduceIte]
          rw [if_neg (show ¬(false = true) from by decide)]
          rw [show (renderE l true false 0 ++ ' ' :: (strUpper op).toList ++
              ' ' :: renderE rn true false 0) =
            chainExp op l (some rn) false 0 from hch0f.symm,
            hil false, ind_one, ind_zero]
          simp
        | true =>
          simp only [reduceIte]
          rw [show (renderE l true false 0 ++ ' ' :: (strUpper op).toList ++
              '\n' :: renderE rn true false 0) =
            chainExp op l (some rn) true 0 from hch0t.symm,
            hil true, ind_one, ind_zero]
          simp

/-! ### Parser-side lemmas for the amended round trip -/

/-- A caseless keyword fails when the matcher itself fails on the
post-whitespace input. -/
theorem matchKw_fail_aux {kw : Chars} {c : Char} {cs : Chars}
    (w : Chars) (p : Char) (hw : w.all wsChar = true) (hpw : wsChar c = false)
    (haux : ∀ q : Char, matchCaselessAux kw q (c :: cs) = none) :
    matchKw kw ⟨p, w ++ (c :: cs)⟩ = none := by
  unfold matchKw
  rw [dropWs_at hw (show headFails wsChar (c :: cs) from hpw)]
  cases hid : identChar (w.getLastD p)
  · have hid' : identChar ((List.getLast? w).getD p) = false := by
      rw [← List.getLastD_eq_getLast?]; exact hid
    simp [hid', haux]
  · have hid' : identChar ((List.getLast? w).getD p) = true := by
      rw [← List.getLastD_eq_getLast?]; exact hid
    simp [hid']

theorem aux_null_NO (q : Char) (cs : Chars) :
    matchCaselessAux ("null".toList) q ('N' :: 'O' :: cs) = none := by
  rw [show ("null".toList : Chars) = 'n' :: 'u' :: 'l' :: 'l' :: [] from rfl,
    matchCaselessAux_cons, if_pos (show caselessEq 'N' 'n' = true from by decide),
    matchCaselessAux_cons, if_neg (show ¬(caselessEq 'O' 'u' = true) from by decide)]

theorem aux_is_IN (q : Char) (cs : Chars) :
    matchCaselessAux ("is".toList) q ('I' :: 'N' :: cs) = none := by
  rw [show ("is".toList : Chars) = 'i' :: 's' :: [] from rfl,
    matchCaselessAux_cons, if_pos (show caselessEq 'I' 'i' = true from by decide),
    matchCaselessAux_cons, if_neg (show ¬(caselessEq 'N' 's' = true) from by decide)]

/-- A bracket-quoted identifier fails when the post-whitespace head is not
an opening bracket. -/
theorem matchBracketId_fail {c : Char} {cs : Chars} (w : Chars) (p : Char)
    (hw : w.all wsChar = true) (hpw : wsChar c = false) (hne : ¬(c = '[')) :
    matchBracketId ⟨p, w ++ (c :: cs)⟩ = none := by
  unfold matchBracketId
  rw [dropWs_at hw (show headFails wsChar (c :: cs) from hpw)]
  simp [hne]

/-- `IDENTIFIER` fails when the post-whitespace head is neither a letter nor
an opening bracket. -/
theorem identifier_fail {c : Char} {cs : Chars} (w : Chars) (p : Char)
    (hw : w.all wsChar = true) (hpw : wsChar c = false)
    (hα : c.isAlpha = false) (hbr : ¬(c = '[')) :
    identifier ⟨p, w ++ (c :: cs)⟩ = none := by
  unfold identifier
  rw [matchWord_fail w p hw (show headFails wsChar (c :: cs) from hpw) hα,
    matchBracketId_fail w p hw hpw hbr]

/-- Every rendered well-formed test is its column name followed by a space. -/
theorem test_render_tail {op : String} {l : Node} {r : Option Node}
    (h : wfTest (.comp op l r) = true) (b bA : Bool) (k : Nat) :
    ∃ n tail, l = .column n ∧ nameOk n = true ∧
      renderE (.comp op l r) b bA k = colRender n ++ ' ' :: tail := by
  obtain ⟨n, rfl, hn, hcase⟩ := wfTest_cases h
  rcases hcase with ⟨rfl, rfl⟩ | ⟨rfl, rfl⟩ | ⟨hcmp, rn, rfl, hrn⟩ |
    ⟨rfl, sv, rfl, hsv⟩ | ⟨rfl, sv, rfl, hsv, hsne⟩ | ⟨rfl, sv, rfl, hsv⟩ |
    ⟨hop2, vs, rfl, hvne, hvs⟩
  · refine ⟨n, "IS NULL".toList, rfl, hn, ?_⟩
    rw [renderE_isNull, renderE_column]
    rfl
  · refine ⟨n, "IS NOT NULL".toList, rfl, hn, ?_⟩
    rw [renderE_isNotNull, renderE_column]
    rfl
  · refine ⟨n, op.toList ++ ' ' :: rhsRender (some rn), rfl, hn, ?_⟩
    rw [renderE_cmp hcmp, renderE_column]
    simp
  · refine ⟨n, "LIKE ".toList ++ reprStr ('%' :: (sv ++ ['%'])), rfl, hn, ?_⟩
    rw [renderE_like, renderE_column]
    show colRender n ++ " LIKE ".toList ++ reprStr ('%' :: (sv ++ ['%'])) =
      colRender n ++ ' ' :: ("LIKE ".toList ++ reprStr ('%' :: (sv ++ ['%'])))
    simp
  · refine ⟨n, "LIKE ".toList ++ reprStr (sv ++ ['%']), rfl, hn, ?_⟩
    rw [renderE_startsWith, renderE_column]
    show colRender n ++ " LIKE ".toList ++ reprStr (sv ++ ['%']) =
      colRender n ++ ' ' :: ("LIKE ".toList ++ reprStr (sv ++ ['%']))
    simp
  · refine ⟨n, "LIKE ".toList ++ reprStr ('%' :: sv), rfl, hn, ?_⟩
    rw [renderE_endsWith, renderE_column]
    show colRender n ++ " LIKE ".toList ++ reprStr ('%' :: sv) =
      colRender n ++ ' ' :: ("LIKE ".toList ++ reprStr ('%' :: sv))
    simp
  · rcases hop2 with rfl | rfl
    · refine ⟨n, "IN ".toList ++ rhsRender (some (.const (.vlist vs))), rfl,
        hn, ?_⟩
      rw [renderE_inlist, renderE_column]
      show colRender n ++ " IN ".toList ++ pyRepr (.vlist vs) =
        colRender n ++ ' ' :: ("IN ".toList ++ pyRepr (.vlist vs))
      simp
    · refine ⟨n, "NOT IN ".toList ++ rhsRender (some (.const (.vlist vs))),
        rfl, hn, ?_⟩
      rw [renderE_notinlist, renderE_column]
      show colRender n ++ " NOT IN ".toList ++ pyRepr (.vlist vs) =
        colRender n ++ ' ' :: ("NOT IN ".toList ++ pyRepr (.vlist vs))
      simp

theorem countP_pct_zero {s : Chars} (hs : s.contains '%' = false) :
    s.countP (fun c => c = '%') = 0 := by
  rw [List.countP_eq_zero]
  intro a ha hx
  have ha' : a = '%' := by simpa using hx
  subst ha'
  have he : s.elem '%' = true := List.elem_iff.mpr ha
  rw [show s.contains '%' = s.elem '%' from rfl, he] at hs
  exact absurd hs (by decide)

theorem not_mem_pct {s : Chars} (hs : s.contains '%' = false) {a : Char}
    (ha : a ∈ s) : ¬(a = '%') := by
  intro hx
  subst hx
  have he : s.elem '%' = true := List.elem_iff.mpr ha
  rw [show s.contains '%' = s.elem '%' from rfl, he] at hs
  exact absurd hs (by decide)

/-- `make_like` on a both-sides-wildcard pattern over a wildcard-free body. -/
theorem make_like_like (a : Node) {s : Chars} (hs : likeBody s = true) :
    make_like a (.const (.str ('%' :: (s ++ ['%'])))) =
      .ok (.comp "like" a (some (.const (.str s)))) := by
  have hfree : s.contains '%' = false := by
    rw [likeBody, Bool.and_eq_true] at hs
    simpa using hs.2
  have h2 : ('%' :: (s ++ ['%'])).countP (fun c => c = '%') = 2 := by
    rw [List.countP_cons, List.countP_append, countP_pct_zero hfree]
    simp
  have hh : ('%' :: (s ++ ['%'])).head? = some '%' := rfl
  have hl : ('%' :: (s ++ ['%'])).getLast? = some '%' :=
    getLast?_cons_right (getLast?_append_right rfl)
  simp [make_like, h2, hh, hl, List.dropLast_concat]

/-- `make_like` on a trailing-wildcard pattern over a nonempty wildcard-free
body. -/
theorem make_like_starts (a : Node) {s : Chars} (hs : likeBody s = true)
    (hne : s ≠ []) :
    make_like a (.const (.str (s ++ ['%']))) =
      .ok (.comp "startsWith" a (some (.const (.str s)))) := by
  have hfree : s.contains '%' = false := by
    rw [likeBody, Bool.and_eq_true] at hs
    simpa using hs.2
  have h1 : (s ++ ['%']).countP (fun c => c = '%') = 1 := by
    rw [List.countP_append, countP_pct_zero hfree]
    decide
  have hh : ¬((s ++ ['%']).head? = some '%') := by
    cases s with
    | nil => exact absurd rfl hne
    | cons c cs =>
      have hcne : ¬(c = '%') := not_mem_pct hfree (by simp)
      simp [hcne]
  have hl : (s ++ ['%']).getLast? = some '%' := getLast?_append_right rfl
  simp [make_like, h1, hh, hl, List.dropLast_concat]
  constructor
  · intro hx
    cases s with
    | nil => exact hne rfl
    | cons c cs =>
      have hc : c = '%' := by simpa using hx
      exact not_mem_pct hfree (by simp) hc
  · exact hne

/-- `make_like` on a leading-wildcard pattern over a wildcard-free body. -/
theorem make_like_ends (a : Node) {s : Chars} (hs : likeBody s = true) :
    make_like a (.const (.str ('%' :: s))) =
      .ok (.comp "endsWith" a (some (.const (.str s)))) := by
  have hfree : s.contains '%' = false := by
    rw [likeBody, Bool.and_eq_true] at hs
    simpa using hs.2
  have h1 : ('%' :: s).countP (fun c => c = '%') = 1 := by
    rw [List.countP_cons, countP_pct_zero hfree]
    simp
  have hh : ('%' :: s).head? = some '%' := rfl
  simp [make_like, h1, hh]

/-- `TEST` parses the rendered form of every well-formed test exactly,
consuming nothing of the trailing input. -/
theorem TEST_at {t : Node} (ht : wfTest t = true) (b bA : Bool) (k : Nat)
    (w rest : Chars) (p : Char) (hw : w.all wsChar = true) (hr : RestStop rest) :
    ∃ q, TEST ⟨p, w ++ (renderE t b bA k ++ rest)⟩ = .ok (t, ⟨q, rest⟩) := by
  have hafterR : headFails identChar rest := by
    cases rest with
    | nil => trivial
    | cons c cs => exact (stopChar_facts hr).1
  cases t with
  | column n => exact absurd ht (by simp [wfTest])
  | const v => exact absurd ht (by simp [wfTest])
  | comp op l r =>
  obtain ⟨n, rfl, hn, hcase⟩ := wfTest_cases ht
  rcases hcase with ⟨rfl, rfl⟩ | ⟨rfl, rfl⟩ | ⟨hcmp, rn, rfl, hrn⟩ |
    ⟨rfl, sv, rfl, hsv⟩ | ⟨rfl, sv, rfl, hsv, hsne⟩ | ⟨rfl, sv, rfl, hsv⟩ |
    ⟨hop2, vs, rfl, hvne, hvs⟩
  · -- IS NULL
    refine ⟨'L', ?_⟩
    rw [renderE_isNull, renderE_column, List.append_assoc]
    have hid := identifier_at hn w (" IS NULL".toList ++ rest) p hw
      (show RestStop (" IS NULL".toList ++ rest) from
        (by decide : stopChar ' ' = true))
    have hopf : operatorTok ⟨colLast n, " IS NULL".toList ++ rest⟩ = none := by
      have h : operatorTok
          ⟨colLast n, [' '] ++ ('I' :: ("S NULL".toList ++ rest))⟩ = none :=
        operatorTok_fail_kw [' '] (colLast n) (by decide) (by decide)
          (by decide) (by decide) (by decide) (by decide) (by decide)
      exact h
    have hinfx : INFIX_TEST ⟨p, w ++ (colRender n ++
        (" IS NULL".toList ++ rest))⟩ = .error .noMatch := by
      unfold INFIX_TEST
      simp only [hid, hopf]
    have hkis : matchKw ("is".toList) ⟨colLast n, " IS NULL".toList ++ rest⟩ =
        some ⟨'S', " NULL".toList ++ rest⟩ := by
      have h : matchKw ("is".toList)
          ⟨colLast n, [' '] ++ ("IS".toList ++ (" NULL".toList ++ rest))⟩ =
          some ⟨lastD ("IS".toList), " NULL".toList ++ rest⟩ :=
        matchKw_tok ("is".toList) ("IS".toList) [' ']
          (" NULL".toList ++ rest) (colLast n) (by decide)
          ⟨by decide, by decide, trivial⟩ (by decide)
          (show headFails wsChar ("IS".toList) from (by decide : wsChar 'I' = false))
          (fun hx => absurd hx (by decide))
          (show headFails identChar (" NULL".toList ++ rest) from
            (by decide : identChar ' ' = false))
      exact h
    have hknull : matchKw ("null".toList) ⟨'S', " NULL".toList ++ rest⟩ =
        some ⟨'L', rest⟩ := by
      have h : matchKw ("null".toList)
          ⟨'S', [' '] ++ ("NULL".toList ++ rest)⟩ =
          some ⟨lastD ("NULL".toList), rest⟩ :=
        matchKw_tok ("null".toList) ("NULL".toList) [' '] rest 'S' (by decide)
          ⟨by decide, by decide, by decide, by decide, trivial⟩ (by decide)
          (show headFails wsChar ("NULL".toList) from
            (by decide : wsChar 'N' = false))
          (fun hx => absurd hx (by decide)) hafterR
      exact h
    have hnull : NULL_TEST ⟨p, w ++ (colRender n ++
        (" IS NULL".toList ++ rest))⟩ =
        .ok (.comp "isNull" (.column n) none, ⟨'L', rest⟩) := by
      unfold NULL_TEST
      simp only [hid, hkis, hknull]
    unfold TEST
    rw [hinfx, hnull]
    rfl
  · -- IS NOT NULL
    refine ⟨'L', ?_⟩
    rw [renderE_isNotNull, renderE_column, List.append_assoc]
    have hid := identifier_at hn w (" IS NOT NULL".toList ++ rest) p hw
      (show RestStop (" IS NOT NULL".toList ++ rest) from
        (by decide : stopChar ' ' = true))
    have hopf : operatorTok ⟨colLast n, " IS NOT NULL".toList ++ rest⟩ =
        none := by
      have h : operatorTok
          ⟨colLast n, [' '] ++ ('I' :: ("S NOT NULL".toList ++ rest))⟩ =
          none :=
        operatorTok_fail_kw [' '] (colLast n) (by decide) (by decide)
          (by decide) (by decide) (by decide) (by decide) (by decide)
      exact h
    have hinfx : INFIX_TEST ⟨p, w ++ (colRender n ++
        (" IS NOT NULL".toList ++ rest))⟩ = .error .noMatch := by
      unfold INFIX_TEST
      simp only [hid, hopf]
    have hkis : matchKw ("is".toList)
        ⟨colLast n, " IS NOT NULL".toList ++ rest⟩ =
        some ⟨'S', " NOT NULL".toList ++ rest⟩ := by
      have h : matchKw ("is".toList)
          ⟨colLast n, [' '] ++ ("IS".toList ++ (" NOT NULL".toList ++ rest))⟩ =
          some ⟨lastD ("IS".toList), " NOT NULL".toList ++ rest⟩ :=
        matchKw_tok ("is".toList) ("IS".toList) [' ']
          (" NOT NULL".toList ++ rest) (colLast n) (by decide)
          ⟨by decide, by decide, trivial⟩ (by decide)
          (show headFails wsChar ("IS".toList) from (by decide : wsChar 'I' = false))
          (fun hx => absurd hx (by decide))
          (show headFails identChar (" NOT NULL".toList ++ rest) from
            (by decide : identChar ' ' = false))
      exact h
    have hknf : matchKw ("null".toList) ⟨'S', " NOT NULL".toList ++ rest⟩ =
        none := by
      have h : matchKw ("null".toList)
          ⟨'S', [' '] ++ ('N' :: ('O' :: ("T NULL".toList ++ rest)))⟩ =
          none :=
        matchKw_fail_aux [' '] 'S' (by decide) (by decide)
          (fun q => aux_null_NO q ("T NULL".toList ++ rest))
      exact h
    have hnullf : NULL_TEST ⟨p, w ++ (colRender n ++
        (" IS NOT NULL".toList ++ rest))⟩ = .error .noMatch := by
      unfold NULL_TEST
      simp only [hid, hkis, hknf]
    have hknot : matchKw ("not".toList) ⟨'S', " NOT NULL".toList ++ rest⟩ =
        some ⟨'T', " NULL".toList ++ rest⟩ := by
      have h : matchKw ("not".toList)
          ⟨'S', [' '] ++ ("NOT".toList ++ (" NULL".toList ++ rest))⟩ =
          some ⟨lastD ("NOT".toList), " NULL".toList ++ rest⟩ :=
        matchKw_tok ("not".toList) ("NOT".toList) [' ']
          (" NULL".toList ++ rest) 'S' (by decide)
          ⟨by decide, by decide, by decide, trivial⟩ (by decide)
          (show headFails wsChar ("NOT".toList) from (by decide : wsChar 'N' = false))
          (fun hx => absurd hx (by decide))
          (show headFails identChar (" NULL".toList ++ rest) from
            (by decide : identChar ' ' = false))
      exact h
    have hknull : matchKw ("null".toList) ⟨'T', " NULL".toList ++ rest⟩ =
        some ⟨'L', rest⟩ := by
      have h : matchKw ("null".toList)
          ⟨'T', [' '] ++ ("NULL".toList ++ rest)⟩ =
          some ⟨lastD ("NULL".toList), rest⟩ :=
        matchKw_tok ("null".toList) ("NULL".toList) [' '] rest 'T' (by decide)
          ⟨by decide, by decide, by decide, by decide, trivial⟩ (by decide)
          (show headFails wsChar ("NULL".toList) from
            (by decide : wsChar 'N' = false))
          (fun hx => absurd hx (by decide)) hafterR
      exact h
    have hnotnull : NOT_NULL_TEST ⟨p, w ++ (colRender n ++
        (" IS NOT NULL".toList ++ rest))⟩ =
        .ok (.comp "isNotNull" (.column n) none, ⟨'L', rest⟩) := by
      unfold NOT_NULL_TEST
      simp only [hid, hkis, hknot, hknull]
    unfold TEST
    rw [hinfx, hnullf, hnotnull]
    rfl
  · -- comparison operators
    refine ⟨rhsLast (some rn), ?_⟩
    rw [renderE_cmp hcmp, renderE_column, List.append_assoc,
      List.append_assoc]
    have hid := identifier_at hn w
      (' ' :: op.toList ++ (' ' :: rhsRender (some rn) ++ rest)) p hw
      (show RestStop (' ' :: op.toList ++ (' ' :: rhsRender (some rn) ++ rest))
        from (by decide : stopChar ' ' = true))
    have hopk : operatorTok ⟨colLast n,
        ' ' :: op.toList ++ (' ' :: rhsRender (some rn) ++ rest)⟩ =
        some (op, ⟨lastD op.toList, ' ' :: rhsRender (some rn) ++ rest⟩) := by
      have h := operatorTok_cmp (cmpOps_mem hcmp) [' ']
        (' ' :: rhsRender (some rn) ++ rest) (colLast n) (by decide)
        (show RestStop (' ' :: rhsRender (some rn) ++ rest) from
          (by decide : stopChar ' ' = true))
      exact h
    have hval : value ⟨lastD op.toList,
        ' ' :: rhsRender (some rn) ++ rest⟩ =
        some (rn, ⟨rhsLast (some rn), rest⟩) := by
      cases rn with
      | const v =>
        have hv : valOk v = true := by simpa [rhsOk] using hrn
        have h := value_const hv [' '] rest (lastD op.toList) (by decide) hr
        exact h
      | column m =>
        have hm : nameOk m = true := by simpa [rhsOk] using hrn
        have h := value_col hm [' '] rest (lastD op.toList) (by decide) hr
        exact h
      | comp a2 b2 c2 => exact absurd hrn (by simp [rhsOk])
    have hops : OPS op (.column n) rn = .ok (.comp op (.column n) (some rn)) := by
      have hm := cmpOps_mem hcmp
      fin_cases hm <;> rfl
    have hinfx : INFIX_TEST ⟨p, w ++ (colRender n ++
        (' ' :: op.toList ++ (' ' :: rhsRender (some rn) ++ rest)))⟩ =
        .ok (.comp op (.column n) (some rn), ⟨rhsLast (some rn), rest⟩) := by
      unfold INFIX_TEST
      simp only [hid, hopk, hval, hops]
    unfold TEST
    rw [hinfx]
    rfl
  · -- LIKE with a both-sides wildcard
    refine ⟨reprQuote ('%' :: (sv ++ ['%'])), ?_⟩
    rw [renderE_like, renderE_column]
    rw [show getStrOf (some (.const (.str sv))) = sv from rfl,
      List.append_assoc, List.append_assoc]
    have hid := identifier_at hn w
      (" LIKE ".toList ++ (reprStr ('%' :: (sv ++ ['%'])) ++ rest)) p hw
      (show RestStop (" LIKE ".toList ++ (reprStr ('%' :: (sv ++ ['%'])) ++
        rest)) from (by decide : stopChar ' ' = true))
    have hopk : operatorTok ⟨colLast n,
        " LIKE ".toList ++ (reprStr ('%' :: (sv ++ ['%'])) ++ rest)⟩ =
        some ("like", ⟨'E', ' ' :: (reprStr ('%' :: (sv ++ ['%'])) ++ rest)⟩) := by
      have h := operatorTok_like [' ']
        (' ' :: (reprStr ('%' :: (sv ++ ['%'])) ++ rest)) (colLast n)
        (by decide)
        (show RestStop (' ' :: (reprStr ('%' :: (sv ++ ['%'])) ++ rest)) from
          (by decide : stopChar ' ' = true))
        (fun hx => absurd hx (by decide))
      exact h
    have hvalv : value ⟨'E', ' ' :: (reprStr ('%' :: (sv ++ ['%'])) ++ rest)⟩ =
        some (.const (.str ('%' :: (sv ++ ['%']))),
          ⟨reprQuote ('%' :: (sv ++ ['%'])), rest⟩) := by
      have hv : valOk (.str ('%' :: (sv ++ ['%']))) = true := by
        show ('%' :: (sv ++ ['%'])).all printable = true
        exact (pattern_printable (likeBody_printable hsv)).1
      have h := value_const hv [' '] rest 'E' (by decide) hr
      exact h
    have hmkl : OPS "like" (.column n) (.const (.str ('%' :: (sv ++ ['%'])))) =
        .ok (.comp "like" (.column n) (some (.const (.str sv)))) := by
      rw [show OPS "like" (.column n) (.const (.str ('%' :: (sv ++ ['%'])))) =
        make_like (.column n) (.const (.str ('%' :: (sv ++ ['%'])))) from rfl]
      exact make_like_like (.column n) hsv
    have hinfx : INFIX_TEST ⟨p, w ++ (colRender n ++
        (" LIKE ".toList ++ (reprStr ('%' :: (sv ++ ['%'])) ++ rest)))⟩ =
        .ok (.comp "like" (.column n) (some (.const (.str sv))),
          ⟨reprQuote ('%' :: (sv ++ ['%'])), rest⟩) := by
      unfold INFIX_TEST
      simp only [hid, hopk, hvalv, hmkl]
    unfold TEST
    rw [hinfx]
    rfl
  · -- LIKE with a trailing wildcard
    refine ⟨reprQuote (sv ++ ['%']), ?_⟩
    rw [renderE_startsWith, renderE_column]
    rw [show getStrOf (some (.const (.str sv))) = sv from rfl,
      List.append_assoc, List.append_assoc]
    have hid := identifier_at hn w
      (" LIKE ".toList ++ (reprStr (sv ++ ['%']) ++ rest)) p hw
      (show RestStop (" LIKE ".toList ++ (reprStr (sv ++ ['%']) ++ rest)) from
        (by decide : stopChar ' ' = true))
    have hopk : operatorTok ⟨colLast n,
        " LIKE ".toList ++ (reprStr (sv ++ ['%']) ++ rest)⟩ =
        some ("like", ⟨'E', ' ' :: (reprStr (sv ++ ['%']) ++ rest)⟩) := by
      have h := operatorTok_like [' ']
        (' ' :: (reprStr (sv ++ ['%']) ++ rest)) (colLast n) (by decide)
        (show RestStop (' ' :: (reprStr (sv ++ ['%']) ++ rest)) from
          (by decide : stopChar ' ' = true))
        (fun hx => absurd hx (by decide))
      exact h
    have hvalv : value ⟨'E', ' ' :: (reprStr (sv ++ ['%']) ++ rest)⟩ =
        some (.const (.str (sv ++ ['%'])), ⟨reprQuote (sv ++ ['%']), rest⟩) := by
      have hv : valOk (.str (sv ++ ['%'])) = true := by
        show (sv ++ ['%']).all printable = true
        exact (pattern_printable (likeBody_printable hsv)).2.1
      have h := value_const hv [' '] rest 'E' (by decide) hr
      exact h
    have hmkl : OPS "like" (.column n) (.const (.str (sv ++ ['%']))) =
        .ok (.comp "startsWith" (.column n) (some (.const (.str sv)))) := by
      rw [show OPS "like" (.column n) (.const (.str (sv ++ ['%']))) =
        make_like (.column n) (.const (.str (sv ++ ['%']))) from rfl]
      exact make_like_starts (.column n) hsv hsne
    have hinfx : INFIX_TEST ⟨p, w ++ (colRender n ++
        (" LIKE ".toList ++ (reprStr (sv ++ ['%']) ++ rest)))⟩ =
        .ok (.comp "startsWith" (.column n) (some (.const (.str sv))),
          ⟨reprQuote (sv ++ ['%']), rest⟩) := by
      unfold INFIX_TEST
      simp only [hid, hopk, hvalv, hmkl]
    unfold TEST
    rw [hinfx]
    rfl
  · -- LIKE with a leading wildcard
    refine ⟨reprQuote ('%' :: sv), ?_⟩
    rw [renderE_endsWith, renderE_column]
    rw [show getStrOf (some (.const (.str sv))) = sv from rfl,
      List.append_assoc, List.append_assoc]
    have hid := identifier_at hn w
      (" LIKE ".toList ++ (reprStr ('%' :: sv) ++ rest)) p hw
      (show RestStop (" LIKE ".toList ++ (reprStr ('%' :: sv) ++ rest)) from
        (by decide : stopChar ' ' = true))
    have hopk : operatorTok ⟨colLast n,
        " LIKE ".toList ++ (reprStr ('%' :: sv) ++ rest)⟩ =
        some ("like", ⟨'E', ' ' :: (reprStr ('%' :: sv) ++ rest)⟩) := by
      have h := operatorTok_like [' ']
        (' ' :: (reprStr ('%' :: sv) ++ rest)) (colLast n) (by decide)
        (show RestStop (' ' :: (reprStr ('%' :: sv) ++ rest)) from
          (by decide : stopChar ' ' = true))
        (fun hx => absurd hx (by decide))
      exact h
    have hvalv : value ⟨'E', ' ' :: (reprStr ('%' :: sv) ++ rest)⟩ =
        some (.const (.str ('%' :: sv)), ⟨reprQuote ('%' :: sv), rest⟩) := by
      have hv : valOk (.str ('%' :: sv)) = true := by
        show ('%' :: sv).all printable = true
        exact (pattern_printable (likeBody_printable hsv)).2.2
      have h := value_const hv [' '] rest 'E' (by decide) hr
      exact h
    have hmkl : OPS "like" (.column n) (.const (.str ('%' :: sv))) =
        .ok (.comp "endsWith" (.column n) (some (.const (.str sv)))) := by
      rw [show OPS "like" (.column n) (.const (.str ('%' :: sv))) =
        make_like (.column n) (.const (.str ('%' :: sv))) from rfl]
      exact make_like_ends (.column n) hsv
    have hinfx : INFIX_TEST ⟨p, w ++ (colRender n ++
        (" LIKE ".toList ++ (reprStr ('%' :: sv) ++ rest)))⟩ =
        .ok (.comp "endsWith" (.column n) (some (.const (.str sv))),
          ⟨reprQuote ('%' :: sv), rest⟩) := by
      unfold INFIX_TEST
      simp only [hid, hopk, hvalv, hmkl]
    unfold TEST
    rw [hinfx]
    rfl
  · -- IN / NOT IN a list
    rcases hop2 with rfl | rfl
    · refine ⟨']', ?_⟩
      rw [renderE_inlist, renderE_column]
      rw [show rhsRender (some (.const (.vlist vs))) = pyRepr (.vlist vs)
        from rfl, List.append_assoc, List.append_assoc]
      have hid := identifier_at hn w
        (" IN ".toList ++ (pyRepr (.vlist vs) ++ rest)) p hw
        (show RestStop (" IN ".toList ++ (pyRepr (.vlist vs) ++ rest)) from
          (by decide : stopChar ' ' = true))
      have hopf : operatorTok ⟨colLast n,
          " IN ".toList ++ (pyRepr (.vlist vs) ++ rest)⟩ = none := by
        have h : operatorTok ⟨colLast n,
            [' '] ++ ('I' :: ('N' :: (' ' :: (pyRepr (.vlist vs) ++ rest))))⟩ =
            none :=
          operatorTok_fail_kw [' '] (colLast n) (by decide) (by decide)
            (by decide) (by decide) (by decide) (by decide) (by decide)
        exact h
      have hinfx : INFIX_TEST ⟨p, w ++ (colRender n ++
          (" IN ".toList ++ (pyRepr (.vlist vs) ++ rest)))⟩ =
          .error .noMatch := by
        unfold INFIX_TEST
        simp only [hid, hopf]
      have hkisf : matchKw ("is".toList) ⟨colLast n,
          " IN ".toList ++ (pyRepr (.vlist vs) ++ rest)⟩ = none := by
        have h : matchKw ("is".toList) ⟨colLast n,
            [' '] ++ ('I' :: ('N' :: (' ' :: (pyRepr (.vlist vs) ++ rest))))⟩ =
            none :=
          matchKw_fail_aux [' '] (colLast n) (by decide) (by decide)
            (fun q => aux_is_IN q (' ' :: (pyRepr (.vlist vs) ++ rest)))
        exact h
      have hnullf : NULL_TEST ⟨p, w ++ (colRender n ++
          (" IN ".toList ++ (pyRepr (.vlist vs) ++ rest)))⟩ =
          .error .noMatch := by
        unfold NULL_TEST
        simp only [hid, hkisf]
      have hnotnullf : NOT_NULL_TEST ⟨p, w ++ (colRender n ++
          (" IN ".toList ++ (pyRepr (.vlist vs) ++ rest)))⟩ =
          .error .noMatch := by
        unfold NOT_NULL_TEST
        simp only [hid, hkisf]
      have hkin : matchKw ("in".toList) ⟨colLast n,
          " IN ".toList ++ (pyRepr (.vlist vs) ++ rest)⟩ =
          some ⟨'N', ' ' :: (pyRepr (.vlist vs) ++ rest)⟩ := by
        have h : matchKw ("in".toList) ⟨colLast n,
            [' '] ++ ("IN".toList ++ (' ' :: (pyRepr (.vlist vs) ++ rest)))⟩ =
            some ⟨lastD ("IN".toList), ' ' :: (pyRepr (.vlist vs) ++ rest)⟩ :=
          matchKw_tok ("in".toList) ("IN".toList) [' ']
            (' ' :: (pyRepr (.vlist vs) ++ rest)) (colLast n) (by decide)
            ⟨by decide, by decide, trivial⟩ (by decide)
            (show headFails wsChar ("IN".toList) from (by decide : wsChar 'I' = false))
            (fun hx => absurd hx (by decide))
            (show headFails identChar (' ' :: (pyRepr (.vlist vs) ++ rest))
              from (by decide : identChar ' ' = false))
        exact h
      have hlist : LIST ⟨'N', ' ' :: (pyRepr (.vlist vs) ++ rest)⟩ =
          .ok (vs, ⟨']', rest⟩) := by
        have h := LIST_at hvne hvs [' '] rest 'N' (by decide)
        exact h
      have hinl : INLIST_TEST ⟨p, w ++ (colRender n ++
          (" IN ".toList ++ (pyRepr (.vlist vs) ++ rest)))⟩ =
          .ok (.comp "inlist" (.column n) (some (.const (.vlist vs))),
            ⟨']', rest⟩) := by
        unfold INLIST_TEST
        simp only [hid, hkin, hlist]
      unfold TEST
      rw [hinfx, hnullf, hnotnullf, hinl]
      rfl
    · refine ⟨']', ?_⟩
      rw [renderE_notinlist, renderE_column]
      rw [show rhsRender (some (.const (.vlist vs))) = pyRepr (.vlist vs)
        from rfl, List.append_assoc, List.append_assoc]
      have hid := identifier_at hn w
        (" NOT IN ".toList ++ (pyRepr (.vlist vs) ++ rest)) p hw
        (show RestStop (" NOT IN ".toList ++ (pyRepr (.vlist vs) ++ rest)) from
          (by decide : stopChar ' ' = true))
      have hopf : operatorTok ⟨colLast n,
          " NOT IN ".toList ++ (pyRepr (.vlist vs) ++ rest)⟩ = none := by
        have h : operatorTok ⟨colLast n,
            [' '] ++ ('N' :: ("OT IN ".toList ++ (pyRepr (.vlist vs) ++
              rest)))⟩ = none :=
          operatorTok_fail_kw [' '] (colLast n) (by decide) (by decide)
            (by decide) (by decide) (by decide) (by decide) (by decide)
        exact h
      have hinfx : INFIX_TEST ⟨p, w ++ (colRender n ++
          (" NOT IN ".toList ++ (pyRepr (.vlist vs) ++ rest)))⟩ =
          .error .noMatch := by
        unfold INFIX_TEST
        simp only [hid, hopf]
      have hkisf : matchKw ("is".toList) ⟨colLast n,
          " NOT IN ".toList ++ (pyRepr (.vlist vs) ++ rest)⟩ = none := by
        have h : matchKw ("is".toList) ⟨colLast n,
            [' '] ++ ('N' :: ("OT IN ".toList ++ (pyRepr (.vlist vs) ++
              rest)))⟩ = none :=
          matchKw_fail_head [' '] (colLast n) (by decide) (by decide)
            (by decide)
        exact h
      have hnullf : NULL_TEST ⟨p, w ++ (colRender n ++
          (" NOT IN ".toList ++ (pyRepr (.vlist vs) ++ rest)))⟩ =
          .error .noMatch := by
        unfold NULL_TEST
        simp only [hid, hkisf]
      have hnotnullf : NOT_NULL_TEST ⟨p, w ++ (colRender n ++
          (" NOT IN ".toList ++ (pyRepr (.vlist vs) ++ rest)))⟩ =
          .error .noMatch := by
        unfold NOT_NULL_TEST
        simp only [hid, hkisf]
      have hkinf : matchKw ("in".toList) ⟨colLast n,
          " NOT IN ".toList ++ (pyRepr (.vlist vs) ++ rest)⟩ = none := by
        have h : matchKw ("in".toList) ⟨colLast n,
            [' '] ++ ('N' :: ("OT IN ".toList ++ (pyRepr (.vlist vs) ++
              rest)))⟩ = none :=
          matchKw_fail_head [' '] (colLast n) (by decide) (by decide)
            (by decide)
        exact h
      have hinlf : INLIST_TEST ⟨p, w ++ (colRender n ++
          (" NOT IN ".toList ++ (pyRepr (.vlist vs) ++ rest)))⟩ =
          .error .noMatch := by
        unfold INLIST_TEST
        simp only [hid, hkinf]
      have hknot : matchKw ("not".toList) ⟨colLast n,
          " NOT IN ".toList ++ (pyRepr (.vlist vs) ++ rest)⟩ =
          some ⟨'T', " IN ".toList ++ (pyRepr (.vlist vs) ++ rest)⟩ := by
        have h : matchKw ("not".toList) ⟨colLast n,
            [' '] ++ ("NOT".toList ++ (" IN ".toList ++ (pyRepr (.vlist vs) ++
              rest)))⟩ =
            some ⟨lastD ("NOT".toList),
              " IN ".toList ++ (pyRepr (.vlist vs) ++ rest)⟩ :=
          matchKw_tok ("not".toList) ("NOT".toList) [' ']
            (" IN ".toList ++ (pyRepr (.vlist vs) ++ rest)) (colLast n)
            (by decide) ⟨by decide, by decide, by decide, trivial⟩ (by decide)
            (show headFails wsChar ("NOT".toList) from
              (by decide : wsChar 'N' = false))
            (fun hx => absurd hx (by decide))
            (show headFails identChar (" IN ".toList ++ (pyRepr (.vlist vs) ++
              rest)) from (by decide : identChar ' ' = false))
        exact h
      have hkin2 : matchKw ("in".toList)
          ⟨'T', " IN ".toList ++ (pyRepr (.vlist vs) ++ rest)⟩ =
          some ⟨'N', ' ' :: (pyRepr (.vlist vs) ++ rest)⟩ := by
        have h : matchKw ("in".toList)
            ⟨'T', [' '] ++ ("IN".toList ++ (' ' :: (pyRepr (.vlist vs) ++
              rest)))⟩ =
            some ⟨lastD ("IN".toList), ' ' :: (pyRepr (.vlist vs) ++ rest)⟩ :=
          matchKw_tok ("in".toList) ("IN".toList) [' ']
            (' ' :: (pyRepr (.vlist vs) ++ rest)) 'T' (by decide)
            ⟨by decide, by decide, trivial⟩ (by decide)
            (show headFails wsChar ("IN".toList) from (by decide : wsChar 'I' = false))
            (fun hx => absurd hx (by decide))
            (show headFails identChar (' ' :: (pyRepr (.vlist vs) ++ rest))
              from (by decide : identChar ' ' = false))
        exact h
      have hlist : LIST ⟨'N', ' ' :: (pyRepr (.vlist vs) ++ rest)⟩ =
          .ok (vs, ⟨']', rest⟩) := by
        have h := LIST_at hvne hvs [' '] rest 'N' (by decide)
        exact h
      have hninl : NOT_INLIST_TEST ⟨p, w ++ (colRender n ++
          (" NOT IN ".toList ++ (pyRepr (.vlist vs) ++ rest)))⟩ =
          .ok (.comp "notinlist" (.column n) (some (.const (.vlist vs))),
            ⟨']', rest⟩) := by
        unfold NOT_INLIST_TEST
        simp only [hid, hknot, hkin2, hlist]
      unfold TEST
      rw [hinfx, hnullf, hnotnullf, hinlf, hninl]
      rfl

/-- `TEST` fails (backtrackably) at an opening parenthesis. -/
theorem TEST_fail_lpar (w cs : Chars) (p : Char) (hw : w.all wsChar = true) :
    TEST ⟨p, w ++ ('(' :: cs)⟩ = .error .noMatch := by
  have hid : identifier ⟨p, w ++ ('(' :: cs)⟩ = none :=
    identifier_fail w p hw (by decide) (by decide) (by decide)
  unfold TEST INFIX_TEST NULL_TEST NOT_NULL_TEST INLIST_TEST NOT_INLIST_TEST
  simp only [hid]
  rfl

/-- The input remaining after a full expression at some bracket level: either
nothing, or whitespace followed by the closing bracket. -/
def RestExprEnd (rest : Chars) : Prop :=
  rest = [] ∨ ∃ a b, a.all (fun c => (c = ' ' || c = '\n')) = true ∧
    rest = a ++ ')' :: b

theorem spaceNl_ws {a : Chars}
    (h : a.all (fun c => (c = ' ' || c = '\n')) = true) :
    a.all wsChar = true := by
  rw [List.all_eq_true] at h ⊢
  intro c hc
  have hc' : c = ' ' ∨ c = '\n' := by simpa using h c hc
  rcases hc' with rfl | rfl <;> decide

theorem restExprEnd_stop {rest : Chars} (h : RestExprEnd rest) :
    RestStop rest := by
  rcases h with rfl | ⟨a, b, ha, rfl⟩
  · trivial
  · cases a with
    | nil => exact (by decide : stopChar ')' = true)
    | cons c cs =>
      have hc' : c = ' ' ∨ c = '\n' := by
        simpa using (List.all_eq_true.mp ha) c (by simp)
      rcases hc' with rfl | rfl
      · exact (by decide : stopChar ' ' = true)
      · exact (by decide : stopChar '\n' = true)

/-- At the end of an expression the tier-2 operator token fails. -/
theorem kwAndOr_fail {rest : Chars} (h : RestExprEnd rest) (p : Char) :
    kwAndOr ⟨p, rest⟩ = none := by
  unfold kwAndOr
  rcases h with rfl | ⟨a, b, ha, rfl⟩
  · have h1 : matchKw ("and".toList) ⟨p, ([] : Chars)⟩ = none :=
      matchKw_fail_ws [] p (by simp)
    have h2 : matchKw ("or".toList) ⟨p, ([] : Chars)⟩ = none :=
      matchKw_fail_ws [] p (by simp)
    simp only [h1, h2]
  · have hws := spaceNl_ws ha
    have h1 : matchKw ("and".toList) ⟨p, a ++ ')' :: b⟩ = none :=
      matchKw_fail_head a p hws (by decide) (by decide)
    have h2 : matchKw ("or".toList) ⟨p, a ++ ')' :: b⟩ = none :=
      matchKw_fail_head a p hws (by decide) (by decide)
    simp only [h1, h2]

/-- The text of the operator/operand pairs that follow the first operand of a
tier-2 chain: each pair contributes a space, the upper-cased operator, a
nonempty whitespace separator and the rendered (bracketed) operand. -/
inductive SegsText (k : Nat) : List (String × Node) → Chars → Prop where
  | nil : SegsText k [] []
  | cons (op : String) (hop : op = "and" ∨ op = "or") (r : Node)
      (hr : wfExpr r = true) (sep : Chars) (hsep : sep ≠ [])
      (hsepc : sep.all (fun c => (c = ' ' || c = '\n')) = true)
      (ps : List (String × Node)) (txt : Chars) (h : SegsText k ps txt) :
      SegsText k ((op, r) :: ps)
        (' ' :: ((strUpper op).toList ++ (sep ++ (renderE r true false k ++ txt))))

theorem SegsText_restStop {k : Nat} {ps : List (String × Node)} {txt : Chars}
    (h : SegsText k ps txt) {rest : Chars} (hr : RestStop rest) :
    RestStop (txt ++ rest) := by
  cases h with
  | nil => simpa using hr
  | cons op hop r hrw sep hsep hsepc ps txt hseg =>
    exact (by decide : stopChar ' ' = true)

theorem SegsText_append {k : Nat} {ps1 ps2 : List (String × Node)}
    {txt1 txt2 : Chars} (h1 : SegsText k ps1 txt1) (h2 : SegsText k ps2 txt2) :
    SegsText k (ps1 ++ ps2) (txt1 ++ txt2) := by
  induction h1 with
  | nil => simpa using h2
  | cons op hop r hr sep hsep hsepc ps txt hseg ih =>
    have hstep := SegsText.cons op hop r hr sep hsep hsepc (ps ++ ps2)
      (txt ++ txt2) ih
    have heq : (' ' :: ((strUpper op).toList ++
        (sep ++ (renderE r true false k ++ txt)))) ++ txt2 =
        ' ' :: ((strUpper op).toList ++
          (sep ++ (renderE r true false k ++ (txt ++ txt2)))) := by
      simp
    have hlist : ((op, r) :: ps) ++ ps2 = (op, r) :: (ps ++ ps2) := by simp
    rw [hlist, heq]
    exact hstep

theorem ind_spaceNl (k : Nat) :
    (ind k).all (fun c => (c = ' ' || c = '\n')) = true := by
  rw [ind, List.all_eq_true]
  intro c hc
  have : c = ' ' := List.eq_of_mem_replicate hc
  subst this
  decide

theorem INFIX_OPS_andor {op : String} (hop : op = "and" ∨ op = "or") :
    INFIX_OPS (strLower op) = some (fun a b => .comp op a (some b)) := by
  rcases hop with rfl | rfl <;> rfl

theorem applyInfix_snoc (ps : List (String × Node)) :
    ∀ (v u : Node) (op : String) (r : Node), (op = "and" ∨ op = "or") →
    applyInfix v ps = .ok u →
    applyInfix v (ps ++ [(op, r)]) = .ok (.comp op u (some r)) := by
  induction ps with
  | nil =>
    intro v u op r hop h
    have hv : v = u := by simpa [applyInfix] using h
    subst hv
    show applyInfix v [(op, r)] = .ok (.comp op v (some r))
    simp [applyInfix, INFIX_OPS_andor hop]
  | cons hd tl ih =>
    intro v u op r hop h
    obtain ⟨o1, r1⟩ := hd
    rw [List.cons_append]
    simp only [applyInfix] at h ⊢
    cases hio : INFIX_OPS (strLower o1) with
    | none =>
      rw [hio] at h
      simp at h
    | some f =>
      rw [hio] at h
      exact ih (f v r1) u op r hop h

/-- Decomposition of a rendered tier-2 chain into its first operand and the
list of operator/operand pairs that the parser will collect and re-fold. -/
theorem chain_decomp : ∀ (N : Nat) (op : String) (l rn : Node),
    sizeOf (Node.comp op l (some rn)) ≤ N →
    wfExpr (.comp op l (some rn)) = true → (op = "and" ∨ op = "or") →
    ∀ (bA : Bool) (k : Nat), ∃ u ps txt,
      SegsText k ps txt ∧ wfExpr u = true ∧ ps ≠ [] ∧
      chainExp op l (some rn) bA k = renderE u true false k ++ txt ∧
      applyInfix u ps = .ok (.comp op l (some rn)) := by
  intro N
  induction N using Nat.strong_induction_on with
  | _ N ih =>
  intro op l rn hsz h hop bA k
  have hwl : wfExpr l = true ∧ wfExpr rn = true := by
    rcases wfExpr_cases h with htest | ⟨l2, heq, hl2⟩ |
      ⟨op2, l2, rn2, heq, hop2, hl2, hrn2⟩
    · exfalso
      obtain ⟨n, hln, _, hcase⟩ := wfTest_cases htest
      rcases hop with rfl | rfl <;>
        (rcases hcase with ⟨h1, _⟩ | ⟨h1, _⟩ | ⟨h1, _⟩ | ⟨h1, _⟩ | ⟨h1, _⟩ |
          ⟨h1, _⟩ | ⟨h1, _⟩ <;> exact absurd h1 (by decide))
    · rcases hop with rfl | rfl <;> simp at heq
    · injection heq with e1 e2 e3
      subst e1
      subst e2
      injection e3 with e4
      subst e4
      exact ⟨hl2, hrn2⟩
  obtain ⟨hl, hrn⟩ := hwl
  rw [chainExp_eq]
  by_cases hsame : nodeOp l = some op
  · obtain ⟨l3, r3, rfl⟩ : ∃ l3 r3, l = .comp op l3 r3 := by
      cases l with
      | column m => exact absurd hsame (by simp [nodeOp])
      | const v => exact absurd hsame (by simp [nodeOp])
      | comp o2 l3 r3 =>
        have ho2 : o2 = op := by simpa [nodeOp] using hsame
        subst ho2
        exact ⟨l3, r3, rfl⟩
    obtain ⟨rn3, rfl⟩ : ∃ rn3, r3 = some rn3 := by
      simp only [wfExpr] at hl
      rw [if_neg (by rcases hop with rfl | rfl <;> decide)] at hl
      rw [if_pos (by rcases hop with rfl | rfl <;> decide)] at hl
      rw [Bool.and_eq_true] at hl
      cases r3 with
      | none => exact absurd hl.2 (by simp [wfExprOpt])
      | some x => exact ⟨x, rfl⟩
    rw [if_pos hsame]
    have hlt : sizeOf (Node.comp op l3 (some rn3)) < N := by
      have := sizeOf_l_lt op (Node.comp op l3 (some rn3)) (some rn)
      omega
    obtain ⟨u, ps, txt, hseg, hu, hpsne, heq2, happ⟩ :=
      ih (sizeOf (Node.comp op l3 (some rn3))) hlt op l3 rn3 le_rfl hl hop
        true k
    have hsing : SegsText k [(op, rn)]
        (' ' :: ((strUpper op).toList ++
          (('\n' :: ind k) ++ (renderE rn true false k ++ [])))) :=
      SegsText.cons op hop rn hrn ('\n' :: ind k) (by simp)
        (by rw [List.all_cons, ind_spaceNl]; decide) [] [] SegsText.nil
    refine ⟨u, ps ++ [(op, rn)],
      txt ++ (' ' :: ((strUpper op).toList ++
        (('\n' :: ind k) ++ (renderE rn true false k ++ [])))),
      SegsText_append hseg hsing, hu,
      (by intro hx; have hln := congrArg List.length hx; simp at hln), ?_, ?_⟩
    · have hrw : renderE (.comp op l3 (some rn3)) false true k =
          chainExp op l3 (some rn3) true k := by
        rw [renderE_and_or hop, if_neg (show ¬(false = true) from by decide)]
      rw [hrw, heq2, renderEOpt_some]
      simp
    · exact applyInfix_snoc ps u (.comp op l3 (some rn3)) op rn hop happ
  · rw [if_neg hsame]
    cases bA with
    | false =>
      refine ⟨l, [(op, rn)],
        ' ' :: ((strUpper op).toList ++
          ([' '] ++ (renderE rn true false k ++ []))),
        SegsText.cons op hop rn hrn [' '] (by simp) (by decide) [] []
          SegsText.nil,
        hl, by simp, ?_, by simp [applyInfix, INFIX_OPS_andor hop]⟩
      rw [renderEOpt_some]
      simp
    | true =>
      refine ⟨l, [(op, rn)],
        ' ' :: ((strUpper op).toList ++
          (('\n' :: ind k) ++ (renderE rn true false k ++ []))),
        SegsText.cons op hop rn hrn ('\n' :: ind k) (by simp)
          (by rw [List.all_cons, ind_spaceNl]; decide) [] [] SegsText.nil,
        hl, by simp, ?_, by simp [applyInfix, INFIX_OPS_andor hop]⟩
      rw [renderEOpt_some]
      simp

/-- Tier-1 (`NOT`/atom) parsing of a rendered bracketed operand. -/
def UnitP (m : Nat) : Prop := ∀ (f : Nat) (t : Node) (bA : Bool) (k : Nat)
    (w rest : Chars) (p : Char), wfExpr t = true → w.all wsChar = true →
    (w = [] → identChar p = false) → RestStop rest →
    (renderE t true bA k).length < f → (renderE t true bA k).length ≤ m →
    ∃ q, notLevel (EXPRESSION m) f ⟨p, w ++ (renderE t true bA k ++ rest)⟩ =
      .ok (t, ⟨q, rest⟩)

/-- Collection of the rendered operator/operand pairs of a tier-2 chain. -/
def CollectP (m : Nat) : Prop := ∀ (k : Nat) (ps : List (String × Node))
    (txt : Chars), SegsText k ps txt → ∀ (f : Nat) (rest : Chars) (p : Char),
    RestExprEnd rest → txt.length < f → txt.length ≤ m →
    ∃ q, collectOps (EXPRESSION m) f ⟨p, txt ++ rest⟩ = .ok (ps, ⟨q, rest⟩)

/-- Tier-2 parsing of a full rendered (unbracketed) expression. -/
def OrP (m : Nat) : Prop := ∀ (f : Nat) (t : Node) (bA : Bool) (k : Nat)
    (w rest : Chars) (p : Char), wfExpr t = true → w.all wsChar = true →
    (w = [] → identChar p = false) → RestExprEnd rest →
    (renderE t false bA k).length < f → (renderE t false bA k).length ≤ m →
    ∃ q, orLevel (EXPRESSION m) f ⟨p, w ++ (renderE t false bA k ++ rest)⟩ =
      .ok (t, ⟨q, rest⟩)

/-- The three levels of `operatorPrecedence` parse back every rendered
well-formed tree, at every expression-nesting index. -/
theorem parse_levels : ∀ m : Nat, UnitP m ∧ CollectP m ∧ OrP m := by
  intro m
  induction m using Nat.strong_induction_on with
  | _ m ih =>
  have hunit : UnitP m := by
    intro f
    induction f with
    | zero =>
      intro t bA k w rest p hwf hw hprev hrst hlt hle
      exact absurd hlt (by omega)
    | succ f2 ihf =>
      intro t bA k w rest p hwf hw hprev hrst hlt hle
      rcases wfExpr_cases hwf with htest | ⟨l, rfl, hl⟩ |
        ⟨op, l, rn, rfl, hop, hl, hrn⟩
      · -- a well-formed test
        cases t with
        | column n => exact absurd htest (by simp [wfTest])
        | const v => exact absurd htest (by simp [wfTest])
        | comp op l r =>
        obtain ⟨n, tail, rfl, hn, hrender⟩ := test_render_tail htest true bA k
        have hnf : matchKw ("not".toList)
            ⟨p, w ++ (renderE (.comp op (.column n) r) true bA k ++ rest)⟩ =
            none := by
          rw [hrender]
          have hn2 : bareOk n = true ∨ brOk n = true := by
            simpa [nameOk] using hn
          rcases hn2 with hb | hbr
          · have hcr : colRender n = n := by
              unfold colRender
              rw [bareOk_not_space hb]
              rfl
            rw [hcr, List.append_assoc]
            exact matchKw_not_fail_bare hb w (' ' :: tail ++ rest) p hw
              (show RestStop (' ' :: tail ++ rest) from
                (by decide : stopChar ' ' = true))
          · have hbr' := hbr
            simp only [brOk, Bool.and_eq_true] at hbr'
            have hcr : colRender n = '[' :: n ++ [']'] := by
              unfold colRender
              rw [hbr'.1]
              rfl
            rw [hcr]
            have hsh : (('[' :: n ++ [']']) ++ ' ' :: tail) ++ rest =
                '[' :: ((n ++ [']']) ++ (' ' :: tail ++ rest)) := by simp
            rw [hsh]
            exact matchKw_fail_head w p hw (by decide) (by decide)
        obtain ⟨q, hT⟩ := TEST_at htest true bA k w rest p hw hrst
        refine ⟨q, ?_⟩
        simp only [notLevel, hnf]
        unfold atom
        rw [hT]
        rfl
      · -- a NOT node
        rw [renderE_not] at hlt hle ⊢
        have hlena : ("NOT ".toList ++ renderE l true true k).length =
            ("NOT ".toList).length + (renderE l true true k).length :=
          List.length_append _ _
        have h4 : ("NOT ".toList).length = 4 := by decide
        rw [hlena, h4] at hlt hle
        have hknot : matchKw ("not".toList)
            ⟨p, w ++ (("NOT ".toList ++ renderE l true true k) ++ rest)⟩ =
            some ⟨'T', ' ' :: (renderE l true true k ++ rest)⟩ := by
          have h : matchKw ("not".toList)
              ⟨p, w ++ ("NOT".toList ++
                (' ' :: (renderE l true true k ++ rest)))⟩ =
              some ⟨lastD ("NOT".toList),
                ' ' :: (renderE l true true k ++ rest)⟩ :=
            matchKw_tok ("not".toList) ("NOT".toList) w
              (' ' :: (renderE l true true k ++ rest)) p hw
              ⟨by decide, by decide, by decide, trivial⟩ (by decide)
              (show headFails wsChar ("NOT".toList) from
                (by decide : wsChar 'N' = false)) hprev
              (show headFails identChar
                  (' ' :: (renderE l true true k ++ rest)) from
                (by decide : identChar ' ' = false))
          exact h
        obtain ⟨q, hrec⟩ := ihf l true k [' '] rest 'T' hl (by decide)
          (fun hx => absurd hx (by decide)) hrst (by omega) (by omega)
        have hrec' : notLevel (EXPRESSION m) f2
            ⟨'T', ' ' :: (renderE l true true k ++ rest)⟩ =
            .ok (l, ⟨q, rest⟩) := hrec
        refine ⟨q, ?_⟩
        simp only [notLevel, hknot, hrec']
      · -- an AND/OR node, rendered bracketed
        rw [renderE_and_or hop, if_pos rfl] at hlt hle ⊢
        obtain ⟨m2, rfl⟩ : ∃ m2, m = m2 + 1 := by
          cases m with
          | zero =>
            exfalso
            have h1 : 0 < ('(' :: '\n' ::
                (ind (k + 1) ++ chainExp op l (some rn) bA (k + 1)) ++
                '\n' :: (ind k ++ [')'])).length := by simp
            omega
          | succ m2 => exact ⟨m2, rfl⟩
        have hlen2 : ('(' :: '\n' ::
            (ind (k + 1) ++ chainExp op l (some rn) bA (k + 1)) ++
            '\n' :: (ind k ++ [')'])).length =
            (chainExp op l (some rn) bA (k + 1)).length +
              (ind (k + 1)).length + (ind k).length + 4 := by
          simp [List.length_append]
          omega
        rw [hlen2] at hlt hle
        have hshape : ('(' :: '\n' ::
            (ind (k + 1) ++ chainExp op l (some rn) bA (k + 1)) ++
            '\n' :: (ind k ++ [')'])) ++ rest =
            '(' :: ('\n' :: (ind (k + 1) ++
              (chainExp op l (some rn) bA (k + 1) ++
                ('\n' :: (ind k ++ (')' :: rest)))))) := by
          simp
        rw [hshape]
        have hnf : matchKw ("not".toList)
            ⟨p, w ++ ('(' :: ('\n' :: (ind (k + 1) ++
              (chainExp op l (some rn) bA (k + 1) ++
                ('\n' :: (ind k ++ (')' :: rest)))))))⟩ = none :=
          matchKw_fail_head w p hw (by decide) (by decide)
        have hTf : TEST ⟨p, w ++ ('(' :: ('\n' :: (ind (k + 1) ++
            (chainExp op l (some rn) bA (k + 1) ++
              ('\n' :: (ind k ++ (')' :: rest)))))))⟩ = .error .noMatch :=
          TEST_fail_lpar w _ p hw
        have hlp : matchLit ['('] ⟨p, w ++ ('(' :: ('\n' :: (ind (k + 1) ++
            (chainExp op l (some rn) bA (k + 1) ++
              ('\n' :: (ind k ++ (')' :: rest)))))))⟩ =
            some ⟨'(', '\n' :: (ind (k + 1) ++
              (chainExp op l (some rn) bA (k + 1) ++
                ('\n' :: (ind k ++ (')' :: rest)))))⟩ := by
          have h := matchLit_at ['('] w ('\n' :: (ind (k + 1) ++
            (chainExp op l (some rn) bA (k + 1) ++
              ('\n' :: (ind k ++ (')' :: rest)))))) p hw
            (show headFails wsChar (['('] : Chars) from
              (by decide : wsChar '(' = false)) (by decide)
          exact h
        have hinner : renderE (.comp op l (some rn)) false bA (k + 1) =
            chainExp op l (some rn) bA (k + 1) := by
          rw [renderE_and_or hop, if_neg (show ¬(false = true) from by decide)]
        have hOr : OrP m2 := (ih m2 (by omega)).2.2
        have hw2 : ('\n' :: ind (k + 1)).all wsChar = true := by
          rw [List.all_cons, spaceNl_ws (ind_spaceNl (k + 1))]
          decide
        have hre2 : RestExprEnd ('\n' :: (ind k ++ (')' :: rest))) :=
          Or.inr ⟨'\n' :: ind k, rest,
            by rw [List.all_cons, ind_spaceNl]; decide, by simp⟩
        have hlt2 : (renderE (.comp op l (some rn)) false bA (k + 1)).length <
            m2 + 1 := by
          rw [hinner]
          omega
        have hle2 : (renderE (.comp op l (some rn)) false bA (k + 1)).length ≤
            m2 := by
          rw [hinner]
          omega
        obtain ⟨q, hE0⟩ := hOr (m2 + 1) (.comp op l (some rn)) bA (k + 1)
          ('\n' :: ind (k + 1)) ('\n' :: (ind k ++ (')' :: rest))) '(' hwf hw2
          (fun hx => absurd hx (by simp)) hre2 hlt2 hle2
        rw [hinner] at hE0
        have hE0' : orLevel (EXPRESSION m2) (m2 + 1)
            ⟨'(', '\n' :: (ind (k + 1) ++
              (chainExp op l (some rn) bA (k + 1) ++
                ('\n' :: (ind k ++ (')' :: rest)))))⟩ =
            .ok (.comp op l (some rn),
              ⟨q, '\n' :: (ind k ++ (')' :: rest))⟩) := hE0
        have hEx : EXPRESSION (m2 + 1)
            ⟨'(', '\n' :: (ind (k + 1) ++
              (chainExp op l (some rn) bA (k + 1) ++
                ('\n' :: (ind k ++ (')' :: rest)))))⟩ =
            .ok (.comp op l (some rn),
              ⟨q, '\n' :: (ind k ++ (')' :: rest))⟩) := by
          simp only [EXPRESSION, hE0']
        have hlitR : matchLit [')']
            ⟨q, '\n' :: (ind k ++ (')' :: rest))⟩ = some ⟨')', rest⟩ := by
          have h := matchLit_at [')'] ('\n' :: ind k) rest q
            (by rw [List.all_cons, spaceNl_ws (ind_spaceNl k)]; decide)
            (show headFails wsChar ([')'] : Chars) from
              (by decide : wsChar ')' = false)) (by decide)
          exact h
        have hpar : parens (EXPRESSION (m2 + 1))
            ⟨p, w ++ ('(' :: ('\n' :: (ind (k + 1) ++
              (chainExp op l (some rn) bA (k + 1) ++
                ('\n' :: (ind k ++ (')' :: rest)))))))⟩ =
            .ok (.comp op l (some rn), ⟨')', rest⟩) := by
          unfold parens
          simp only [hlp, hEx, hlitR]
        refine ⟨')', ?_⟩
        simp only [notLevel, hnf]
        unfold atom
        rw [hTf, hpar]
        rfl
  have hcollect : CollectP m := by
    intro k ps txt hseg
    induction hseg with
    | nil =>
      intro f rest p hre hlt hle
      refine ⟨p, ?_⟩
      cases f with
      | zero => rfl
      | succ f2 =>
        have hkf : kwAndOr ⟨p, ([] : Chars) ++ rest⟩ = none := kwAndOr_fail hre p
        simp only [collectOps, hkf]
        rfl
    | cons op hop r hr sep hsep hsepc ps2 txt2 hseg2 ihseg =>
      intro f rest p hre hlt hle
      cases f with
      | zero => exact absurd hlt (by omega)
      | succ f2 =>
      have hlsep : 1 ≤ sep.length := by
        cases sep with
        | nil => exact absurd rfl hsep
        | cons a b => simp
      have hlop : 2 ≤ ((strUpper op).toList).length := by
        rcases hop with rfl | rfl <;> decide
      simp only [List.length_cons, List.length_append] at hlt hle
      have hsh : headFails identChar
          (sep ++ (renderE r true false k ++ (txt2 ++ rest))) := by
        cases sep with
        | nil => exact absurd rfl hsep
        | cons c cs =>
          have hc' : c = ' ' ∨ c = '\n' := by
            simpa using (List.all_eq_true.mp hsepc) c (by simp)
          show identChar c = false
          rcases hc' with rfl | rfl <;> decide
      have hkw : kwAndOr ⟨p, (' ' :: ((strUpper op).toList ++
          (sep ++ (renderE r true false k ++ txt2)))) ++ rest⟩ =
          some (op, ⟨lastD ((strUpper op).toList),
            sep ++ (renderE r true false k ++ (txt2 ++ rest))⟩) := by
        rcases hop with rfl | rfl
        · have hsh2 : (' ' :: ((strUpper "and").toList ++
              (sep ++ (renderE r true false k ++ txt2)))) ++ rest =
              [' '] ++ ("AND".toList ++
                (sep ++ (renderE r true false k ++ (txt2 ++ rest)))) := by
            rw [show (strUpper "and").toList = "AND".toList from by decide]
            simp
          rw [hsh2]
          have hk : matchKw ("and".toList)
              ⟨p, [' '] ++ ("AND".toList ++
                (sep ++ (renderE r true false k ++ (txt2 ++ rest))))⟩ =
              some ⟨lastD ("AND".toList),
                sep ++ (renderE r true false k ++ (txt2 ++ rest))⟩ :=
            matchKw_tok ("and".toList) ("AND".toList) [' ']
              (sep ++ (renderE r true false k ++ (txt2 ++ rest))) p
              (by decide) ⟨by decide, by decide, by decide, trivial⟩
              (by decide)
              (show headFails wsChar ("AND".toList) from
                (by decide : wsChar 'A' = false))
              (fun hx => absurd hx (by decide)) hsh
          unfold kwAndOr
          simp only [hk]
          rfl
        · have hsh2 : (' ' :: ((strUpper "or").toList ++
              (sep ++ (renderE r true false k ++ txt2)))) ++ rest =
              [' '] ++ ("OR".toList ++
                (sep ++ (renderE r true false k ++ (txt2 ++ rest)))) := by
            rw [show (strUpper "or").toList = "OR".toList from by decide]
            simp
          rw [hsh2]
          have hkaf : matchKw ("and".toList)
              ⟨p, [' '] ++ ('O' :: ('R' ::
                (sep ++ (renderE r true false k ++ (txt2 ++ rest)))))⟩ =
              none :=
            matchKw_fail_head [' '] p (by decide) (by decide) (by decide)
          have hk : matchKw ("or".toList)
              ⟨p, [' '] ++ ("OR".toList ++
                (sep ++ (renderE r true false k ++ (txt2 ++ rest))))⟩ =
              some ⟨lastD ("OR".toList),
                sep ++ (renderE r true false k ++ (txt2 ++ rest))⟩ :=
            matchKw_tok ("or".toList) ("OR".toList) [' ']
              (sep ++ (renderE r true false k ++ (txt2 ++ rest))) p
              (by decide) ⟨by decide, by decide, trivial⟩ (by decide)
              (show headFails wsChar ("OR".toList) from
                (by decide : wsChar 'O' = false))
              (fun hx => absurd hx (by decide)) hsh
          unfold kwAndOr
          simp only [hkaf, hk]
          rfl
      have hrs2 : RestStop (txt2 ++ rest) :=
        SegsText_restStop hseg2 (restExprEnd_stop hre)
      obtain ⟨q1, hU⟩ := hunit (f2 + 1) r false k sep (txt2 ++ rest)
        (lastD ((strUpper op).toList)) hr (spaceNl_ws hsepc)
        (fun hx => absurd hx hsep) hrs2 (by omega) (by omega)
      obtain ⟨q2, hC⟩ := ihseg f2 rest q1 hre (by omega) (by omega)
      refine ⟨q2, ?_⟩
      simp only [collectOps, hkw, hU, hC]
  have hor : OrP m := by
    intro f t bA k w rest p hwf hw hprev hre hlt hle
    rcases wfExpr_cases hwf with htest | ⟨l, rfl, hl⟩ |
      ⟨op, l, rn, rfl, hop, hl, hrn⟩
    · cases t with
      | column n => exact absurd htest (by simp [wfTest])
      | const v => exact absurd htest (by simp [wfTest])
      | comp o2 l2 r2 =>
      have hEq : renderE (.comp o2 l2 r2) false bA k =
          renderE (.comp o2 l2 r2) true bA k :=
        renderE_test_indep htest false bA true bA k k
      rw [hEq] at hlt hle ⊢
      obtain ⟨q1, hU⟩ := hunit f (.comp o2 l2 r2) bA k w rest p hwf hw hprev
        (restExprEnd_stop hre) hlt hle
      obtain ⟨q2, hC⟩ := hcollect k [] [] SegsText.nil f rest q1 hre
        (by rw [show (([] : Chars)).length = 0 from rfl]; omega)
        (by rw [show (([] : Chars)).length = 0 from rfl]; omega)
      have hC' : collectOps (EXPRESSION m) f ⟨q1, rest⟩ =
          .ok ([], ⟨q2, rest⟩) := hC
      refine ⟨q2, ?_⟩
      unfold orLevel
      simp only [hU, hC']
      rfl
    · have hEq : renderE (.comp "not" l none) false bA k =
          renderE (.comp "not" l none) true bA k := by
        rw [renderE_not, renderE_not]
      rw [hEq] at hlt hle ⊢
      obtain ⟨q1, hU⟩ := hunit f (.comp "not" l none) bA k w rest p hwf hw
        hprev (restExprEnd_stop hre) hlt hle
      obtain ⟨q2, hC⟩ := hcollect k [] [] SegsText.nil f rest q1 hre
        (by rw [show (([] : Chars)).length = 0 from rfl]; omega)
        (by rw [show (([] : Chars)).length = 0 from rfl]; omega)
      have hC' : collectOps (EXPRESSION m) f ⟨q1, rest⟩ =
          .ok ([], ⟨q2, rest⟩) := hC
      refine ⟨q2, ?_⟩
      unfold orLevel
      simp only [hU, hC']
      rfl
    · have hchain : renderE (.comp op l (some rn)) false bA k =
          chainExp op l (some rn) bA k := by
        rw [renderE_and_or hop, if_neg (show ¬(false = true) from by decide)]
      rw [hchain] at hlt hle ⊢
      obtain ⟨u, ps, txt, hseg, hu, hpsne, heq2, happ⟩ :=
        chain_decomp (sizeOf (Node.comp op l (some rn))) op l rn le_rfl hwf
          hop bA k
      rw [heq2] at hlt hle ⊢
      rw [List.append_assoc]
      rw [List.length_append] at hlt hle
      have hrsu : RestStop (txt ++ rest) :=
        SegsText_restStop hseg (restExprEnd_stop hre)
      obtain ⟨q1, hU⟩ := hunit f u false k w (txt ++ rest) p hu hw hprev hrsu
        (by omega) (by omega)
      obtain ⟨q2, hC⟩ := hcollect k ps txt hseg f rest q1 hre (by omega)
        (by omega)
      refine ⟨q2, ?_⟩
      unfold orLevel
      simp only [hU, hC, happ]
  exact ⟨hunit, hcollect, hor⟩

/-- `EXPRESSION` (with its fail wrapper) parses back every rendered
well-formed tree when given enough fuel. -/
theorem EXPRESSION_at (n : Nat) (t : Node) (bA : Bool) (k : Nat)
    (w rest : Chars) (p : Char) (hwf : wfExpr t = true)
    (hw : w.all wsChar = true) (hprev : w = [] → identChar p = false)
    (hre : RestExprEnd rest) (hlt : (renderE t false bA k).length < n) :
    ∃ q, EXPRESSION n ⟨p, w ++ (renderE t false bA k ++ rest)⟩ =
      .ok (t, ⟨q, rest⟩) := by
  cases n with
  | zero => exact absurd hlt (by omega)
  | succ n2 =>
    obtain ⟨q, hO⟩ := (parse_levels n2).2.2 (n2 + 1) t bA k w rest p hwf hw
      hprev hre hlt (by omega)
    refine ⟨q, ?_⟩
    simp only [EXPRESSION, hO]

/-- `where` parses the top-level rendering of every well-formed tree back to
the same tree. -/
theorem whereParse_render (t : Node) (h : wfExpr t = true) :
    whereParse (String.mk (renderE t false false 0)) = .ok t := by
  unfold whereParse
  rw [show (String.mk (renderE t false false 0)).length =
    (renderE t false false 0).length from rfl]
  rw [show (String.mk (renderE t false false 0)).toList =
    renderE t false false 0 from rfl]
  obtain ⟨q, hE⟩ := EXPRESSION_at ((renderE t false false 0).length + 1) t
    false 0 [] [] ' ' h (by simp) (fun _ => by decide) (Or.inl rfl)
    (by omega)
  rw [show ([] : Chars) ++ (renderE t false false 0 ++ []) =
    renderE t false false 0 from by simp] at hE
  simp only [hE]
  rfl

/-- C1 (amended): the round trip `parse(format(T)) = T` holds for every
well-formed tree `T` — trees of the shapes the parser itself can build, over
column names that reparse as one identifier token (bare `Word(alphas,
alphanums)` names not caselessly equal to `not`, or bracket-quoted names
containing a space), machine-range integer and printable-string constants
(no floats), and LIKE-family pattern bodies without a `%` of their own
(nonempty for `startsWith`).  Outside this domain the claim fails, e.g. for
`like(a, "fo%o")` (see the counterexample): its formatting `a LIKE '%fo%o%'`
does not reparse. -/
theorem c1_roundtrip_wf (t : Node) (h : wfExpr t = true) :
    ∃ s : String, formatWhereStr t = .ok s ∧ whereParse s = .ok t := by
  refine ⟨String.mk (renderE t false false 0), ?_, whereParse_render t h⟩
  unfold formatWhereStr formatWhere
  rw [fmt_renderE (sizeOf t) t le_rfl h false false]
  rfl

/-- Witness for the amended C1 at the concrete well-formed tree
`a == 1 and not b is null`. -/
theorem c1_roundtrip_wf_witness :
    wfExpr (.comp "and" (.comp "==" (.column ['a']) (some (.const (.int 1))))
      (some (.comp "not" (.comp "isNull" (.column ['b']) none) none))) =
      true ∧
    ∃ s : String,
      formatWhereStr (.comp "and"
          (.comp "==" (.column ['a']) (some (.const (.int 1))))
          (some (.comp "not" (.comp "isNull" (.column ['b']) none) none))) =
        .ok s ∧
      whereParse s = .ok (.comp "and"
        (.comp "==" (.column ['a']) (some (.const (.int 1))))
        (some (.comp "not" (.comp "isNull" (.column ['b']) none) none))) :=
  ⟨by decide, c1_roundtrip_wf _ (by decide)⟩

end WhereExp
